import Mathlib

/-!
# Command prototype parser and command queue of `glup_viewer_gui.cpp`

A shallow embedding of `GEO::Command` (prototype parser, argument values,
factory reset, single-slot command queue) and of the task counter of
`GEO::StatusBar`, from `src/lib/geogram_gfx/glup_viewer/glup_viewer_gui.cpp`.

Conventions.
* A `std::string` is a list of characters (`Str`).
* `std::string::npos` is rendered as `none`; `size_t` subtraction wraps
  around `2^64` (`size_sub`).
* A failed `geo_assert`, a reached `geo_assert_not_reached` and an
  out-of-range `operator[]` on a vector end the construction; they are the
  three values of `Failure`.
* The 64-byte `string_val` buffer of an `ArgVal` is a `CharBuf`.  `clear()`
  writes only its first byte, so the remaining bytes of a newly made
  argument are whatever the storage held before; that prior content is the
  parameter `raw`.
* `String::from_string` lives in `geogram/basic/string.h`; the four
  instances used by the parser are the fields of `FromString`.
-/

namespace GEO

set_option linter.dupNamespace false

/-- Byte strings (`std::string`). -/
abbrev Str := List Char

/-- The value `2^64`, one more than the largest `size_t`. -/
def SIZE_T_RANGE : Nat := 18446744073709551616

/-- Subtraction `a - b` of two `size_t` values (both below `2^64`): the
difference when `b ≤ a`, and the wrapped value `a + 2^64 - b` otherwise. -/
def size_sub (a b : Nat) : Nat :=
  if b ≤ a then a - b else a + SIZE_T_RANGE - b

/-- Search loop of `std::string::find`: `i` is the index of the head of the list. -/
def find_aux (c : Char) : Str → Nat → Option Nat
  | [], _ => none
  | x :: xs, i => if x = c then some i else find_aux c xs (i + 1)

/-- The call `s.find(c)`: index of the first `c`, `none` for `npos`. -/
def find (s : Str) (c : Char) : Option Nat :=
  find_aux c s 0

/-- The call `s.find(c, pos)`: index of the first `c` at or after `pos`. -/
def find_from (s : Str) (c : Char) (pos : Nat) : Option Nat :=
  find_aux c (s.drop pos) pos

/-- The call `s.substr(pos, n)`; every call site has `pos ≤ s.size()`. -/
def substr (s : Str) (pos n : Nat) : Str :=
  (s.drop pos).take n

/-- Body of the loop of `remove_underscores` on one character. -/
def underscore_to_space (c : Char) : Char :=
  if c = '_' then ' ' else c

/-- The function `remove_underscores` (lines 85-93). -/
def remove_underscores (s : Str) : Str :=
  s.map underscore_to_space

/-- First loop of `trim_spaces`: the index `i` of the first non-space character
(the length when there is none). -/
def trim_begin : Str → Nat
  | [] => 0
  | c :: cs => if c ≠ ' ' then 0 else trim_begin cs + 1

/-- Second loop of `trim_spaces`: the index `j` one past the last non-space
character (`0` when there is none). -/
def trim_end (line : Str) : Nat :=
  line.length - trim_begin line.reverse

/-- The function `trim_spaces` (lines 105-123), returning the new value of `line`. -/
def trim_spaces (line : Str) : Str :=
  let i := trim_begin line
  let j := trim_end line
  if j > i then substr line i (size_sub j i) else []

/-- Modelled from the spec: `String::split_string` (declared in
`geogram/basic/string.h`, outside the sources at hand).  The text is cut at
every separator and fields that are empty yield no token.  `cur` is the field
being read. -/
def split_aux (sep : Char) : Str → Str → List Str
  | [], cur => if cur = [] then [] else [cur]
  | c :: cs, cur =>
    if c = sep then
      (if cur = [] then split_aux sep cs [] else cur :: split_aux sep cs [])
    else split_aux sep cs (cur ++ [c])

/-- Modelled from the spec: the call `String::split_string(s, sep, out)` on an
empty `out`; see `split_aux`. -/
def split_string (s : Str) (sep : Char) : List Str :=
  split_aux sep s []

/-- The ways construction can stop without producing an object. -/
inductive Failure where
  | assertion_failed
  | assertion_not_reached
  | index_out_of_range
  deriving DecidableEq, Repr

/-- The constants `ARG_BOOL` ... `ARG_STRING` of `Command::Arg` that the
constructor switches on. -/
inductive ArgType where
  | ARG_BOOL
  | ARG_INT
  | ARG_UINT
  | ARG_FLOAT
  | ARG_STRING
  deriving DecidableEq, Repr

/-- The array `char string_val[64]`. -/
structure CharBuf where
  data : List Char
  size_eq : data.length = 64

instance : DecidableEq CharBuf := fun a b =>
  decidable_of_iff (a.data = b.data)
    ⟨fun h => by cases a; cases b; simp_all, fun h => by rw [h]⟩

/-- The NUL character. -/
def NUL : Char := Char.ofNat 0

/-- A buffer of 64 NUL bytes. -/
def CharBuf.zero : CharBuf := ⟨List.replicate 64 NUL, by simp⟩

/-- The assignment `string_val[0] = c`. -/
def CharBuf.set_first (b : CharBuf) (c : Char) : CharBuf :=
  ⟨b.data.set 0 c, by simp [b.size_eq]⟩

/-- The call `Memory::copy(buf, x.c_str(), x.length())`: the first `x.length()`
bytes become those of `x`, the others are kept.  Callers guarantee
`x.length() ≤ 64`; the final `take` only keeps the model total. -/
def CharBuf.copy_in (b : CharBuf) (x : Str) : CharBuf :=
  ⟨(x ++ b.data.drop x.length).take 64, by
    have h := b.size_eq
    simp only [List.length_take, List.length_append, List.length_drop, h]
    omega⟩

/-- The C string held by a buffer: the bytes before the first NUL. -/
def CharBuf.c_str (b : CharBuf) : Str :=
  b.data.takeWhile (fun c => c ≠ NUL)

/-- The structure `Command::ArgVal`; `F` is the type of `float`. -/
structure ArgVal (F : Type) where
  bool_val : Bool
  int_val : Int
  float_val : F
  string_val : CharBuf

/-- The method `ArgVal::clear` (lines 622-627). -/
def ArgVal.clear {F : Type} [Zero F] (v : ArgVal F) : ArgVal F :=
  { bool_val := false, int_val := 0, float_val := 0,
    string_val := v.string_val.set_first NUL }

/-- The operator `ArgVal::operator=` (lines 636-644) for two distinct objects:
all three scalars and all 64 bytes of `rhs` are copied. -/
def ArgVal.assign {F : Type} (_lhs rhs : ArgVal F) : ArgVal F :=
  { bool_val := rhs.bool_val, int_val := rhs.int_val,
    float_val := rhs.float_val, string_val := rhs.string_val }

/-- The structure `Command::Arg`. -/
structure Arg (F : Type) where
  name : Str
  help : Str
  type : ArgType
  val : ArgVal F
  default_val : ArgVal F

/-- Content of the two `ArgVal` members of an `Arg` before the body of a
constructor runs. -/
structure RawArg (F : Type) where
  val : ArgVal F
  default_val : ArgVal F

/-- The conversion `int(x)` of an `unsigned int` (two's complement, 32 bits). -/
def int_of_uint (x : Nat) : Int :=
  if x % 4294967296 < 2147483648 then ((x % 4294967296 : Nat) : Int)
  else ((x % 4294967296 : Nat) : Int) - 4294967296

/-- The constructor `Arg(name, bool x, help)` (lines 655-666). -/
def Arg.Arg_bool {F : Type} [Zero F] (raw : RawArg F) (name_in : Str) (x : Bool)
    (help_in : Str) : Arg F :=
  { name := name_in, help := help_in, type := ArgType.ARG_BOOL,
    val := { raw.val.clear with bool_val := x },
    default_val := { raw.default_val.clear with bool_val := x } }

/-- The constructor `Arg(name, int x, help)` (lines 668-679). -/
def Arg.Arg_int {F : Type} [Zero F] (raw : RawArg F) (name_in : Str) (x : Int)
    (help_in : Str) : Arg F :=
  { name := name_in, help := help_in, type := ArgType.ARG_INT,
    val := { raw.val.clear with int_val := x },
    default_val := { raw.default_val.clear with int_val := x } }

/-- The constructor `Arg(name, unsigned int x, help)` (lines 681-692). -/
def Arg.Arg_uint {F : Type} [Zero F] (raw : RawArg F) (name_in : Str) (x : Nat)
    (help_in : Str) : Arg F :=
  { name := name_in, help := help_in, type := ArgType.ARG_UINT,
    val := { raw.val.clear with int_val := int_of_uint x },
    default_val := { raw.default_val.clear with int_val := int_of_uint x } }

/-- The constructor `Arg(name, float x, help)` (lines 694-705). -/
def Arg.Arg_float {F : Type} [Zero F] (raw : RawArg F) (name_in : Str) (x : F)
    (help_in : Str) : Arg F :=
  { name := name_in, help := help_in, type := ArgType.ARG_FLOAT,
    val := { raw.val.clear with float_val := x },
    default_val := { raw.default_val.clear with float_val := x } }

/-- The constructor `Arg(name, const std::string& x, help)` (lines 720-731):
both values are cleared, `x.length() < 63` is asserted, and the bytes of `x`
are copied into `default_val.string_val` only. -/
def Arg.Arg_string {F : Type} [Zero F] (raw : RawArg F) (name_in : Str) (x : Str)
    (help_in : Str) : Except Failure (Arg F) :=
  if x.length < 63 then
    .ok { name := name_in, help := help_in, type := ArgType.ARG_STRING,
          val := raw.val.clear,
          default_val :=
            { raw.default_val.clear with
              string_val := raw.default_val.clear.string_val.copy_in x } }
  else .error Failure.assertion_failed

/-- A value as seen through the kind of its argument. -/
inductive Value (F : Type) where
  | bool (b : Bool)
  | int (i : Int)
  | float (f : F)
  | string (s : Str)

/-- The member of an `ArgVal` that an argument of kind `t` uses (the one
`Arg::draw` hands to the widget, lines 742-777). -/
def ArgVal.as {F : Type} (v : ArgVal F) : ArgType → Value F
  | ArgType.ARG_BOOL => Value.bool v.bool_val
  | ArgType.ARG_INT => Value.int v.int_val
  | ArgType.ARG_UINT => Value.int v.int_val
  | ArgType.ARG_FLOAT => Value.float v.float_val
  | ArgType.ARG_STRING => Value.string v.string_val.c_str

/-- Current value of an argument. -/
def Arg.value {F : Type} (a : Arg F) : Value F := a.val.as a.type

/-- Default value of an argument. -/
def Arg.default_value {F : Type} (a : Arg F) : Value F := a.default_val.as a.type

/-- The instances of `String::from_string` the parser calls, each applied to
the zero-initialised local `val` of its `case`. -/
structure FromString (F : Type) where
  to_bool : Str → Bool
  to_int : Str → Int
  to_uint : Str → Nat
  to_float : Str → F

/-- The data members of `Command` set by its constructor. -/
structure Command (F : Type) where
  name_ : Str
  help_ : Str
  args_ : List (Arg F)
  auto_create_args_ : Bool

/-- The help text given to a command built without prototype (lines 361-364). -/
def no_prototype_help : Str :=
  ("Hay You Programmer ! No prototype was specified, \n" ++
   "see Command::make_current() documentation\n" ++
   "in geogram_gfx/glup_viewer/command.h\n" ++
   "to specify parameter names (and tooltips)").toList

/-- Body of the loop turning carriage returns into spaces (lines 374-378). -/
def newline_to_space (c : Char) : Char :=
  if c = '\n' then ' ' else c

/-- State of the scan for the parentheses (lines 382-385). -/
structure ParenScan where
  level : Int
  p1 : Option Nat
  p2 : Option Nat
  deriving DecidableEq

/-- The `switch` of the parenthesis scan on character `c` at index `i`
(lines 387-404). -/
def paren_step (st : ParenScan) (i : Nat) (c : Char) : ParenScan :=
  if c = '[' then { st with level := st.level + 1 }
  else if c = ']' then { st with level := st.level - 1 }
  else if c = '(' then (if st.level = 0 then { st with p1 := some i } else st)
  else if c = ')' then (if st.level = 0 then { st with p2 := some i } else st)
  else st

/-- The loop of the parenthesis scan from index `i` on. -/
def paren_scan_from : Str → Nat → ParenScan → ParenScan
  | [], _, st => st
  | c :: cs, i, st => paren_scan_from cs (i + 1) (paren_step st i c)

/-- The whole parenthesis scan (lines 382-406). -/
def paren_scan (prototype : Str) : ParenScan :=
  paren_scan_from prototype 0 ⟨0, none, none⟩

/-- Help extraction for one argument (lines 437-445): the pair `(help, arg)`. -/
def arg_help (arg : Str) : Str × Str :=
  match find arg '[', find arg ']' with
  | some bq1, some bq2 =>
    (substr arg (bq1 + 1) (size_sub (size_sub bq2 bq1) 1), substr arg 0 bq1)
  | _, _ => ([], arg)

/-- Default-value extraction for one argument (lines 447-455): the pair
`(default_value, arg)`. -/
def arg_default (arg : Str) : Str × Str :=
  match find arg '=' with
  | some eq =>
    (trim_spaces (substr arg (eq + 1) (size_sub (size_sub arg.length eq) 1)),
     substr arg 0 eq)
  | none => ([], arg)

/-- State of the scan of the words before the name (lines 463-465). -/
structure TypeScan where
  is_unsigned : Bool
  type : Option ArgType
  deriving DecidableEq

/-- One iteration of the scan of the type words (lines 467-490). -/
def type_step (st : TypeScan) (w : Str) : TypeScan :=
  if w = "unsigned".toList then { st with is_unsigned := true }
  else if w = "bool".toList then { st with type := some ArgType.ARG_BOOL }
  else if w = "int".toList then
    { st with type := some (if st.is_unsigned then ArgType.ARG_UINT else ArgType.ARG_INT) }
  else if w = "index_t".toList ∨ w = "GEO::index_t".toList then
    { st with type := some ArgType.ARG_UINT }
  else if w = "float".toList ∨ w = "double".toList then
    { st with type := some ArgType.ARG_FLOAT }
  else if w = "string".toList ∨ w = "std::string".toList ∨ w = "string&".toList
      ∨ w = "std::string&".toList then
    { st with type := some ArgType.ARG_STRING }
  else st

/-- The variable `type` after lines 463-492; `none` stands for `-1`. -/
def arg_type (arg_words : List Str) : Option ArgType :=
  if arg_words.length > 1 then
    (arg_words.dropLast.foldl type_step ⟨false, none⟩).type
  else none

/-- Modelled from the spec: `Command::add_arg` (declared in the header, outside
the sources at hand) appends the argument to `args_`. -/
def add_arg {F : Type} (args_ : List (Arg F)) (a : Arg F) : List (Arg F) :=
  args_ ++ [a]

/-- The `switch(type)` of the argument loop (lines 494-535). -/
def make_arg {F : Type} [Zero F] (fs : FromString F) (raw : RawArg F)
    (args_ : List (Arg F)) (type : Option ArgType) (arg_name default_value help : Str) :
    Except Failure (List (Arg F)) :=
  match type with
  | some ArgType.ARG_BOOL =>
    let val := if default_value ≠ [] then fs.to_bool default_value else false
    .ok (add_arg args_ (Arg.Arg_bool raw arg_name val help))
  | some ArgType.ARG_INT =>
    let val := if default_value ≠ [] then fs.to_int default_value else 0
    .ok (add_arg args_ (Arg.Arg_int raw arg_name val help))
  | some ArgType.ARG_UINT =>
    let val := if default_value ≠ [] then fs.to_uint default_value else 0
    .ok (add_arg args_ (Arg.Arg_uint raw arg_name val help))
  | some ArgType.ARG_FLOAT =>
    let val := if default_value ≠ [] then fs.to_float default_value else 0
    .ok (add_arg args_ (Arg.Arg_float raw arg_name val help))
  | some ArgType.ARG_STRING =>
    if default_value ≠ [] then
      match Arg.Arg_string raw arg_name
          (substr default_value 1 (size_sub default_value.length 2)) help with
      | .ok a => .ok (add_arg args_ a)
      | .error e => .error e
    else .ok args_
  | none => .error Failure.assertion_not_reached

/-- Body of the argument loop (lines 433-535) on the token `arg`.  Line 462 only
binds the reference `arg_name` to `arg_words[arg_words.size()-1]`; the name is
read by the cases of the `switch` that build an argument, and these are reached
with a type, found among at least two words.  On a token without words nothing
is read: `type` stays `-1` and the `switch` reaches `geo_assert_not_reached`. -/
def process_arg {F : Type} [Zero F] (fs : FromString F) (raw : RawArg F)
    (args_ : List (Arg F)) (arg : Str) : Except Failure (List (Arg F)) :=
  let h := arg_help arg
  let d := arg_default h.2
  let arg_words := split_string d.2 ' '
  match arg_type arg_words with
  | none => .error Failure.assertion_not_reached
  | some type =>
    match arg_words.getLast? with
    | none => .error Failure.index_out_of_range
    | some arg_name => make_arg fs raw args_ (some type) arg_name d.1 h.1

/-- The argument loop (lines 432-536) over the tokens `args`. -/
def process_args {F : Type} [Zero F] (fs : FromString F) (raw : RawArg F) :
    List Str → List (Arg F) → Except Failure (List (Arg F))
  | [], args_ => .ok args_
  | arg :: rest, args_ =>
    match process_arg fs raw args_ arg with
    | .ok args1 => process_args fs raw rest args1
    | .error e => .error e

/-- Help of the command (lines 419-426); `help_` is empty beforehand. -/
def command_help (prototype : Str) (p2 : Nat) : Str :=
  match find_from prototype '[' p2, find_from prototype ']' p2 with
  | some bq1, some bq2 => substr prototype (bq1 + 1) (size_sub (size_sub bq2 bq1) 1)
  | _, _ => []

/-- The constructor from the name lookup on (lines 410-538), once the scan has
found the parentheses at `p1` and `p2`. -/
def Command.parse_body {F : Type} [Zero F] (fs : FromString F) (raw : RawArg F)
    (prototype : Str) (p1 p2 : Nat) : Except Failure (GEO.Command F) :=
  match (split_string (substr prototype 0 p1) ' ').getLast? with
  | none => .error Failure.index_out_of_range
  | some name =>
    match process_args fs raw
        (split_string (substr prototype (p1 + 1) (size_sub (size_sub p2 p1) 1)) ',') [] with
    | .ok args => .ok { name_ := remove_underscores name,
                        help_ := command_help prototype p2,
                        args_ := args, auto_create_args_ := false }
    | .error e => .error e

/-- The constructor from the parenthesis scan on (lines 381-538); `prototype`
is the local copy in which newlines are already spaces. -/
def Command.parse_prototype {F : Type} [Zero F] (fs : FromString F) (raw : RawArg F)
    (prototype : Str) : Except Failure (GEO.Command F) :=
  match (paren_scan prototype).p1, (paren_scan prototype).p2 with
  | some p1, some p2 => Command.parse_body fs raw prototype p1 p2
  | _, _ => .error Failure.assertion_failed

/-- The constructor `Command::Command(const std::string&)` (lines 348-538). -/
def Command.Command {F : Type} [Zero F] (fs : FromString F) (raw : RawArg F)
    (prototype_in : Str) : Except Failure (GEO.Command F) :=
  if find prototype_in '(' = none then
    .ok { name_ := if prototype_in = [] then "command".toList else prototype_in,
          help_ := no_prototype_help, args_ := [], auto_create_args_ := true }
  else Command.parse_prototype fs raw (prototype_in.map newline_to_space)

/-- The method `Command::reset_factory_settings` (lines 616-620). -/
def Command.reset_factory_settings {F : Type} (c : GEO.Command F) : GEO.Command F :=
  { c with args_ := c.args_.map (fun a => { a with val := a.val.assign a.default_val }) }

/-- Events recorded while the queue is flushed (not part of the program state:
they only let the theorems speak about what was called). -/
inductive Event (Cmd : Type) where
  | apply (c : Cmd)
  | invoke (c : Cmd)
  deriving DecidableEq

/-- The state the queue works on: the static `Command::queued_`, the rest of
the application state, and the record of the calls made so far. -/
structure Session (Cmd U : Type) where
  queued_ : Option Cmd
  app : U
  trace : List (Event Cmd)

/-- The effect of `CommandInvoker::invoke` (user code) on the queue slot and on
the rest of the application state.  An invoker may queue a command; one that
would itself call `flush_queue` or `apply` is not covered. -/
structure CommandInvoker (Cmd U : Type) where
  invoke : Option Cmd → U → Option Cmd × U

/-- The method `Command::apply` (lines 540-544) of the command `c`. -/
def Command.apply {Cmd U : Type} (invoker_ : Cmd → Option (CommandInvoker Cmd U))
    (c : Cmd) (s : Session Cmd U) : Session Cmd U :=
  let s1 : Session Cmd U := { s with trace := s.trace ++ [Event.apply c] }
  match invoker_ c with
  | some inv =>
    { queued_ := (inv.invoke s1.queued_ s1.app).1,
      app := (inv.invoke s1.queued_ s1.app).2,
      trace := s1.trace ++ [Event.invoke c] }
  | none => s1

/-- The function `Command::flush_queue` (lines 335-343). -/
def Command.flush_queue {Cmd U : Type} (invoker_ : Cmd → Option (CommandInvoker Cmd U))
    (s : Session Cmd U) : Session Cmd U :=
  match s.queued_ with
  | some queued => Command.apply invoker_ queued { s with queued_ := none }
  | none => s

/-! ## Notions used to state the properties -/

/-- Bracket depth after the text `pre`: the number of `[` minus the number of `]`. -/
def bracket_depth (pre : Str) : Int :=
  (pre.count '[' : Int) - (pre.count ']' : Int)

/-- The character at index `i` of `s` is `c` and the bracket depth there is 0. -/
def at_depth_zero (s : Str) (c : Char) (i : Nat) : Prop :=
  s[i]? = some c ∧ bracket_depth (s.take i) = 0

instance (s : Str) (c : Char) (i : Nat) : Decidable (at_depth_zero s c i) := by
  unfold at_depth_zero
  infer_instance

/-- The index `r` is that of the last `c` at bracket depth 0 in `s` (`none`: there
is no such character). -/
def last_at_depth_zero (s : Str) (c : Char) (r : Option Nat) : Prop :=
  match r with
  | none => ∀ j, ¬ at_depth_zero s c j
  | some i => at_depth_zero s c i ∧ ∀ j, at_depth_zero s c j → j ≤ i

/-- What the scan has computed after the text `s`. -/
def scan_inv (s : Str) (st : ParenScan) : Prop :=
  st.level = bracket_depth s ∧ last_at_depth_zero s '(' st.p1 ∧
    last_at_depth_zero s ')' st.p2

/-- The kind a type keyword stands for, in the words of the specification;
`unsigned_before` tells whether the word `unsigned` occurs earlier in the token.
Words that are no type keyword give `none`. -/
def keyword_kind (w : Str) (unsigned_before : Bool) : Option ArgType :=
  if w = "bool".toList then some ArgType.ARG_BOOL
  else if w = "int".toList then
    some (if unsigned_before then ArgType.ARG_UINT else ArgType.ARG_INT)
  else if w = "index_t".toList ∨ w = "GEO::index_t".toList then some ArgType.ARG_UINT
  else if w = "float".toList ∨ w = "double".toList then some ArgType.ARG_FLOAT
  else if w = "string".toList ∨ w = "std::string".toList ∨ w = "string&".toList
      ∨ w = "std::string&".toList then some ArgType.ARG_STRING
  else none

/-- A sample reader of decimal digits, used to run the parser on concrete prototypes. -/
def read_digits (s : Str) : Nat :=
  s.foldl (fun n c => 10 * n + (c.toNat - 48)) 0

/-- A sample instance of `FromString` (a float is kept as the integer formed by
its digits), used to run the parser on concrete prototypes. -/
def sample_from_string : FromString Int :=
  { to_bool := fun s => decide (s = "true".toList),
    to_int := fun s => (read_digits s : Int),
    to_uint := fun s => read_digits s,
    to_float := fun s => (read_digits (s.filter Char.isDigit) : Int) }

/-- A sample prior content of argument storage: all zero. -/
def sample_raw : RawArg Int :=
  ⟨⟨false, 0, 0, CharBuf.zero⟩, ⟨false, 0, 0, CharBuf.zero⟩⟩

/-- The token `string s="aaa...a"` whose default literal holds 70 letters between
its quotes. -/
def long_string_token : Str :=
  "string s=\"".toList ++ List.replicate 70 'a' ++ "\"".toList

/-- A sample command with one signed argument `x` of default 3. -/
def sample_command : Command Int :=
  { name_ := "f".toList, help_ := [],
    args_ := [Arg.Arg_int sample_raw "x".toList 3 []], auto_create_args_ := false }

/-- The sample command after its argument was edited to 7. -/
def sample_command_edited : Command Int :=
  { name_ := "f".toList, help_ := [],
    args_ := [{ Arg.Arg_int sample_raw "x".toList 3 [] with
                val := { bool_val := true, int_val := 7, float_val := 1,
                         string_val := CharBuf.zero } }],
    auto_create_args_ := false }

/-- A sample table of invokers over commands numbered by `Nat`: invoking a
command counts one in the application state and queues the same command again. -/
def sample_invoker (c : Nat) : Option (CommandInvoker Nat Nat) :=
  some { invoke := fun _ u => (some c, u + 1) }

/-- A sample session in which command 4 is queued. -/
def sample_session : Session Nat Nat :=
  { queued_ := some 4, app := 0, trace := [] }

/-- The prototype `f(string s="aaa...a", x)`: a string argument whose default
literal is too long, followed by a token without type. -/
def untyped_after_long_string : Str :=
  "f(".toList ++ long_string_token ++ ", x)".toList

/-- The vector `arg_words` of the argument loop (lines 458-459) for the token `arg`. -/
def arg_words (arg : Str) : List Str :=
  split_string (arg_default (arg_help arg).2).2 ' '

/-- The token is of string type and its default value is empty: the one case in
which the `switch` adds nothing and does not fail. -/
def string_without_default (tok : Str) : Prop :=
  arg_type (arg_words tok) = some ArgType.ARG_STRING ∧ (arg_default (arg_help tok).2).1 = []

/-- What one token contributes to `args_`: the arguments `out` that the loop body
appends, which are none for a string token without default and otherwise one
argument named by the last word of the token. -/
def token_output {F : Type} [Zero F] (fs : FromString F) (raw : RawArg F)
    (tok : Str) (out : List (Arg F)) : Prop :=
  process_arg fs raw [] tok = .ok out ∧
    ((string_without_default tok ∧ out = []) ∨
     (¬ string_without_default tok ∧
        ∃ a, out = [a] ∧ (arg_words tok).getLast? = some a.name ∧
          arg_type (arg_words tok) = some a.type))

/-- The index `k` is that of the first occurrence of `c` in `s`. -/
def first_index (s : Str) (c : Char) (k : Nat) : Prop :=
  s[k]? = some c ∧ c ∉ s.take k

instance (s : Str) (c : Char) (k : Nat) : Decidable (first_index s c k) := by
  unfold first_index
  infer_instance

/-- A token with a stray `]` before its bracketed help. -/
def stray_bracket_token : Str := "int x ] [h] [".toList

/-- A text with all its leading and all its trailing spaces removed, and nothing
else changed (in the words of the specification). -/
def strip_spaces (l : Str) : Str :=
  ((l.dropWhile (fun c => decide (c = ' '))).reverse.dropWhile
    (fun c => decide (c = ' '))).reverse

/-- The index `k` is that of the first occurrence of `c` in `s` at or after `pos`. -/
def first_index_from (s : Str) (c : Char) (pos k : Nat) : Prop :=
  pos ≤ k ∧ s[k]? = some c ∧ c ∉ (s.drop pos).take (k - pos)

instance (s : Str) (c : Char) (pos k : Nat) : Decidable (first_index_from s c pos k) := by
  unfold first_index_from
  infer_instance

/-- A prototype with a stray `]` between the closing parenthesis and the
bracketed help of the command. -/
def stray_bracket_prototype : Str := "f(int x) ] [h]".toList

/-- Modelled from the spec: `Command::find_arg_by_index` (declared in the header,
outside the sources at hand) gives the argument of index `i` in `args_`; an
index out of range stops on an assertion. -/
def Command.find_arg_by_index {F : Type} (c : GEO.Command F) (i : Nat) :
    Except Failure (Arg F) :=
  match c.args_[i]? with
  | some a => .ok a
  | none => .error Failure.assertion_failed

/-- A returned value together with the messages sent to `Logger::warn("Cmd")`. -/
structure Logged (α : Type) where
  result : α
  warnings : List Str

/-- The method `Command::int_arg_by_index` (lines 546-564). -/
def Command.int_arg_by_index {F : Type} (c : GEO.Command F) (i : Nat) :
    Except Failure (Logged Int) :=
  match c.find_arg_by_index i with
  | .error e => .error e
  | .ok arg =>
    if arg.type = ArgType.ARG_INT ∨ arg.type = ArgType.ARG_UINT then
      if arg.type = ArgType.ARG_UINT ∧ arg.val.int_val < 0 then
        .ok { result := 0,
              warnings := ["Argument ".toList ++ arg.name
                ++ "Of type UNIT had a negative value".toList] }
      else .ok { result := arg.val.int_val, warnings := [] }
    else .error Failure.assertion_failed

/-- The method `Command::uint_arg_by_index` (lines 566-581); the final cast
`(unsigned int)(result)` is applied to a value that is not negative. -/
def Command.uint_arg_by_index {F : Type} (c : GEO.Command F) (i : Nat) :
    Except Failure (Logged Nat) :=
  match c.find_arg_by_index i with
  | .error e => .error e
  | .ok arg =>
    if arg.type = ArgType.ARG_INT ∨ arg.type = ArgType.ARG_UINT then
      if arg.val.int_val < 0 then
        .ok { result := 0,
              warnings := ["Argument ".toList ++ arg.name
                ++ "queried as uint had a negative value".toList] }
      else .ok { result := arg.val.int_val.toNat, warnings := [] }
    else .error Failure.assertion_failed

/-- A sample command whose unsigned argument `n` holds the stored value -5. -/
def sample_negative_uint : Command Int :=
  { name_ := "f".toList, help_ := [],
    args_ := [{ Arg.Arg_uint sample_raw "n".toList 7 [] with
                val := { bool_val := false, int_val := -5, float_val := 0,
                         string_val := CharBuf.zero } }],
    auto_create_args_ := false }

/-- The calls of the widget library that `Arg::draw` issues, with the texts it
passes to them. -/
inductive DrawCall where
  | Checkbox (label : Str)
  | Text (text : Str)
  | SetTooltip (text : Str)
  | InputInt (label : Str)
  | InputFloat (label : Str)
  | InputText (label : Str) (buf_size : Nat)
  deriving DecidableEq

/-- The method `Command::Arg::draw` (lines 733-778), as the list of calls it
issues; `hovered` is the answer of `ImGui::IsItemHovered()`.  The widgets
receive pointers to members of `val` only. -/
def Arg.draw {F : Type} (a : Arg F) (hovered : Bool) : List DrawCall :=
  let tooltip : List DrawCall :=
    if a.help ≠ [] ∧ hovered = true then [DrawCall.SetTooltip a.help] else []
  match a.type with
  | ArgType.ARG_BOOL => [DrawCall.Checkbox (remove_underscores a.name)] ++ tooltip
  | ArgType.ARG_INT =>
    [DrawCall.Text (remove_underscores a.name)] ++ tooltip
      ++ [DrawCall.InputInt ("##".toList ++ a.name)]
  | ArgType.ARG_UINT =>
    [DrawCall.Text (remove_underscores a.name)] ++ tooltip
      ++ [DrawCall.InputInt ("##".toList ++ a.name)]
  | ArgType.ARG_FLOAT =>
    [DrawCall.Text (remove_underscores a.name)] ++ tooltip
      ++ [DrawCall.InputFloat ("##".toList ++ a.name)]
  | ArgType.ARG_STRING =>
    [DrawCall.Text (remove_underscores a.name)] ++ tooltip
      ++ [DrawCall.InputText ("##".toList ++ a.name) 64]

/-- The text a call shows or is labelled with. -/
def DrawCall.text : DrawCall → Str
  | DrawCall.Checkbox l => l
  | DrawCall.Text t => t
  | DrawCall.SetTooltip t => t
  | DrawCall.InputInt l => l
  | DrawCall.InputFloat l => l
  | DrawCall.InputText l _ => l

/-- A prototype with two pairs of parentheses at bracket depth 0. -/
def two_pairs_prototype : Str := "f(a)(int x)".toList

/-- A sample prior content of argument storage that was used before: every
byte of the two string buffers is the letter `Z` and the scalars are not zero. -/
def sample_raw_used : RawArg Int :=
  ⟨⟨true, 7, 7, ⟨List.replicate 64 'Z', by simp⟩⟩,
   ⟨true, 7, 7, ⟨List.replicate 64 'Z', by simp⟩⟩⟩

/-- The token `int string s="aaa...a"`: two type keywords, the last one `string`,
and a default literal holding 70 letters between its quotes. -/
def two_keyword_long_token : Str :=
  "int string s=\"".toList ++ List.replicate 70 'a' ++ "\"".toList

/-- The data members of `StatusBar` that its constructor, `begin` and `end`
write (lines 172-198).  The members are declared in the header, outside the
sources at hand: `step_` and `percent_` receive the `index_t` arguments of
`progress`, and the integer type of the counter `nb_active_` is the parameter
`N`, whose `++` and `--` are `+ 1` and `- 1` (for an unsigned type, modulo the
size of the type). -/
structure StatusBar (N : Type) where
  step_ : Nat
  percent_ : Nat
  progress_ : Bool
  canceled_ : Bool
  nb_active_ : N

/-- The constructor `StatusBar::StatusBar` (lines 172-178). -/
def StatusBar.StatusBar {N : Type} [Zero N] : GEO.StatusBar N :=
  { step_ := 0, percent_ := 0, progress_ := false, canceled_ := false, nb_active_ := 0 }

/-- The method `StatusBar::begin` (lines 180-184). -/
def StatusBar.begin {N : Type} [Add N] [One N] (s : GEO.StatusBar N) : GEO.StatusBar N :=
  { s with progress_ := true, canceled_ := false, nb_active_ := s.nb_active_ + 1 }

/-- The method `StatusBar::end` (lines 192-198); its argument is not used. -/
def StatusBar.end_ {N : Type} [Sub N] [One N] (s : GEO.StatusBar N) (_canceled : Bool) :
    GEO.StatusBar N :=
  { s with step_ := 0, percent_ := 0, progress_ := false, nb_active_ := s.nb_active_ - 1 }

/-- A sample status bar in the middle of a task that was canceled. -/
def sample_status_bar : StatusBar Int :=
  { step_ := 4, percent_ := 40, progress_ := true, canceled_ := true, nb_active_ := 2 }

/-! ## Auxiliary lemmas -/

theorem find_aux_eq_none (c : Char) (s : Str) (i : Nat) :
    find_aux c s i = none ↔ c ∉ s := by
  induction s generalizing i with
  | nil => simp [find_aux]
  | cons x xs ih =>
    by_cases h : x = c
    · simp [find_aux, h]
    · have h2 : ¬ c = x := fun e => h e.symm
      simp [find_aux, h, h2, ih]

theorem find_eq_none (s : Str) (c : Char) : find s c = none ↔ c ∉ s :=
  find_aux_eq_none c s 0

theorem split_aux_eq_nil (sep : Char) (s cur : Str) :
    split_aux sep s cur = [] ↔ cur = [] ∧ ∀ c ∈ s, c = sep := by
  induction s generalizing cur with
  | nil => by_cases h : cur = [] <;> simp [split_aux, h]
  | cons x xs ih =>
    by_cases h : x = sep
    · by_cases hc : cur = []
      · simp [split_aux, h, hc, ih]
      · simp [split_aux, h, hc]
    · simp [split_aux, h, ih]

/-- The last field produced by `split_aux` is a maximal separator-free block of
`cur ++ s`, followed by separators only. -/
theorem split_aux_getLast (sep : Char) (s cur w : Str) (hcur : sep ∉ cur)
    (h : (split_aux sep s cur).getLast? = some w) :
    ∃ pre post, cur ++ s = pre ++ w ++ post ∧ (∀ ch ∈ post, ch = sep) ∧ w ≠ [] ∧
      sep ∉ w ∧ (pre = [] ∨ pre.getLast? = some sep) := by
  induction s generalizing cur with
  | nil =>
    by_cases hc : cur = []
    · simp [split_aux, hc] at h
    · simp [split_aux, hc] at h
      subst h
      exact ⟨[], [], by simp, by simp, hc, hcur, Or.inl rfl⟩
  | cons x xs ih =>
    by_cases hx : x = sep
    · subst hx
      by_cases hc : cur = []
      · subst hc
        simp only [split_aux, if_true] at h
        obtain ⟨pre, post, e, hpost, hw, hsep, hpre⟩ := ih [] (by simp) h
        refine ⟨x :: pre, post, by simpa using e, hpost, hw, hsep, Or.inr ?_⟩
        rcases hpre with rfl | hpre
        · rfl
        · cases pre with
          | nil => simp at hpre
          | cons a l => rw [List.getLast?_cons_cons]; exact hpre
      · simp only [split_aux, if_true, hc, if_false] at h
        by_cases hnil : split_aux x xs [] = []
        · rw [hnil] at h
          simp at h
          subst h
          have hall := ((split_aux_eq_nil x xs []).1 hnil).2
          refine ⟨[], x :: xs, by simp, ?_, hc, hcur, Or.inl rfl⟩
          intro ch hch
          rcases List.mem_cons.1 hch with rfl | hm
          · rfl
          · exact hall ch hm
        · have h2 : (split_aux x xs []).getLast? = some w := by
            rw [← h]
            cases hl : split_aux x xs [] with
            | nil => exact absurd hl hnil
            | cons a l => simp [List.getLast?_cons_cons]
          obtain ⟨pre, post, e, hpost, hw, hsep, hpre⟩ := ih [] (by simp) h2
          simp only [List.nil_append] at e
          refine ⟨cur ++ x :: pre, post, by simp [e], hpost, hw, hsep, Or.inr ?_⟩
          rcases hpre with rfl | hpre
          · simp
          · rw [List.getLast?_append_of_ne_nil]
            · cases pre with
              | nil => simp at hpre
              | cons a l => rw [List.getLast?_cons_cons]; exact hpre
            · simp
    · simp only [split_aux, hx, if_false] at h
      have hcur2 : sep ∉ cur ++ [x] := by
        simp only [List.mem_append, List.mem_singleton, not_or]
        exact ⟨hcur, fun e => hx e.symm⟩
      obtain ⟨pre, post, e, rest⟩ := ih (cur ++ [x]) hcur2 h
      exact ⟨pre, post, by simpa using e, rest⟩

/-! ## Properties of the constructor -/

set_option maxRecDepth 20000

/-- C1: a string without opening parenthesis gives a command in auto-argument
mode, without arguments, named by the string itself, or `command` when the
string is empty. -/
theorem C1_no_parenthesis_auto_args {F : Type} [Zero F] (fs : FromString F)
    (raw : RawArg F) (s : Str) (h : '(' ∉ s) :
    Command.Command fs raw s =
      .ok { name_ := if s = [] then "command".toList else s,
            help_ := no_prototype_help, args_ := [], auto_create_args_ := true } := by
  have hf : find s '(' = none := (find_eq_none s '(').2 h
  simp [Command.Command, hf]


/-- A successful construction from a prototype with a parenthesis went through
the scan, the name lookup and the argument loop. -/
theorem Command_ok_inv {F : Type} [Zero F] (fs : FromString F) (raw : RawArg F)
    (proto : Str) (c : Command F) (hparen : '(' ∈ proto)
    (hc : Command.Command fs raw proto = .ok c) :
    ∃ p1 p2 name args,
      (paren_scan (proto.map newline_to_space)).p1 = some p1 ∧
      (paren_scan (proto.map newline_to_space)).p2 = some p2 ∧
      (split_string (substr (proto.map newline_to_space) 0 p1) ' ').getLast? = some name ∧
      process_args fs raw
        (split_string (substr (proto.map newline_to_space) (p1 + 1)
          (size_sub (size_sub p2 p1) 1)) ',') [] = .ok args ∧
      c = { name_ := remove_underscores name,
            help_ := command_help (proto.map newline_to_space) p2,
            args_ := args, auto_create_args_ := false } := by
  have hf : find proto '(' ≠ none := fun e => ((find_eq_none proto '(').1 e) hparen
  unfold Command.Command at hc
  rw [if_neg hf] at hc
  unfold Command.parse_prototype at hc
  cases h1 : (paren_scan (proto.map newline_to_space)).p1 with
  | none => rw [h1] at hc; cases hc
  | some p1 =>
    cases h2 : (paren_scan (proto.map newline_to_space)).p2 with
    | none => rw [h1, h2] at hc; cases hc
    | some p2 =>
      rw [h1, h2] at hc
      simp only at hc
      unfold Command.parse_body at hc
      cases h3 : (split_string (substr (proto.map newline_to_space) 0 p1) ' ').getLast? with
      | none => rw [h3] at hc; cases hc
      | some name =>
        cases h4 : process_args fs raw
            (split_string (substr (proto.map newline_to_space) (p1 + 1)
              (size_sub (size_sub p2 p1) 1)) ',') [] with
        | error e => rw [h3, h4] at hc; cases hc
        | ok args =>
          rw [h3, h4] at hc
          injection hc with hc
          exact ⟨p1, p2, name, args, rfl, rfl, h3, h4, hc.symm⟩

/-- Witness of C1 on the inputs `baz` and the empty string. -/
theorem C1_no_parenthesis_auto_args_witness :
    '(' ∉ "baz".toList ∧
    Command.Command sample_from_string sample_raw "baz".toList =
      .ok { name_ := "baz".toList, help_ := no_prototype_help, args_ := [],
            auto_create_args_ := true } ∧
    Command.Command sample_from_string sample_raw [] =
      .ok { name_ := "command".toList, help_ := no_prototype_help, args_ := [],
            auto_create_args_ := true } :=
  ⟨by decide,
   C1_no_parenthesis_auto_args sample_from_string sample_raw "baz".toList (by decide),
   C1_no_parenthesis_auto_args sample_from_string sample_raw [] (by decide)⟩

/-- C2: when construction from a prototype with an argument list succeeds, the
command name is the last space-separated token of the text before the opening
parenthesis (newlines read as spaces), with every underscore turned into a
space: that text is `pre ++ w ++ post` where `post` is spaces only, `w` is
non-empty and free of spaces, `pre` is empty or ends with a space, and the name
is `w` with underscores replaced. -/
theorem C2_name_is_last_token {F : Type} [Zero F] (fs : FromString F)
    (raw : RawArg F) (proto : Str) (c : Command F) (p1 : Nat)
    (hparen : '(' ∈ proto)
    (hp1 : (paren_scan (proto.map newline_to_space)).p1 = some p1)
    (hc : Command.Command fs raw proto = .ok c) :
    ∃ pre w post,
      (proto.map newline_to_space).take p1 = pre ++ w ++ post ∧
      (∀ ch ∈ post, ch = ' ') ∧ w ≠ [] ∧ ' ' ∉ w ∧
      (pre = [] ∨ pre.getLast? = some ' ') ∧
      c.name_ = w.map (fun ch => if ch = '_' then ' ' else ch) := by
  obtain ⟨q1, p2, name, args, h1, _, hname, _, hceq⟩ :=
    Command_ok_inv fs raw proto c hparen hc
  rw [hp1] at h1
  cases h1
  obtain ⟨pre, post, e, hpost, hw, hsp, hpre⟩ :=
    split_aux_getLast ' ' _ [] name (by simp) hname
  refine ⟨pre, name, post, ?_, hpost, hw, hsp, hpre, ?_⟩
  · simpa [substr] using e
  · rw [hceq]
    rfl

/-- Witness of C2 on the prototypes `foo(int x=3)` and
`void bar(bool flag=true [enable it])`: the names are `foo` and `bar`. -/
theorem C2_name_is_last_token_witness :
    (∃ c, Command.Command sample_from_string sample_raw "foo(int x=3)".toList = .ok c ∧
      c.name_ = "foo".toList) ∧
    (∃ c, Command.Command sample_from_string sample_raw
        "void bar(bool flag=true [enable it])".toList = .ok c ∧
      c.name_ = "bar".toList) ∧
    ∃ pre w post,
      ("void bar(bool flag=true [enable it])".toList.map newline_to_space).take 8
        = pre ++ w ++ post ∧
      (∀ ch ∈ post, ch = ' ') ∧ w ≠ [] ∧ ' ' ∉ w ∧
      (pre = [] ∨ pre.getLast? = some ' ') ∧
      remove_underscores "bar".toList = w.map (fun ch => if ch = '_' then ' ' else ch) :=
  ⟨⟨_, rfl, rfl⟩, ⟨_, rfl, rfl⟩,
   C2_name_is_last_token sample_from_string sample_raw
     "void bar(bool flag=true [enable it])".toList
     { name_ := remove_underscores "bar".toList, help_ := [],
       args_ := [Arg.Arg_bool sample_raw "flag".toList true "enable it".toList],
       auto_create_args_ := false }
     8 (by decide) (by decide) rfl⟩

/-- A word that is not `unsigned` and is a type keyword sets the type and keeps
the flag. -/
theorem type_step_keyword (st : TypeScan) (w : Str) (k : ArgType)
    (h : keyword_kind w st.is_unsigned = some k) :
    (type_step st w).type = some k ∧ (type_step st w).is_unsigned = st.is_unsigned := by
  by_cases hu : w = "unsigned".toList
  · subst hu
    have : keyword_kind "unsigned".toList st.is_unsigned = none := rfl
    rw [this] at h
    cases h
  · unfold keyword_kind at h
    unfold type_step
    rw [if_neg hu]
    split_ifs at h ⊢ <;> simp_all

/-- A word that is no type keyword leaves the type as it is. -/
theorem type_step_other (st : TypeScan) (w : Str)
    (h : keyword_kind w false = none) :
    (type_step st w).type = st.type := by
  unfold keyword_kind at h
  unfold type_step
  split_ifs at h ⊢ <;> simp_all

/-- The flag after a step: set by the word `unsigned`, kept by all others. -/
theorem type_step_is_unsigned (st : TypeScan) (w : Str) :
    (type_step st w).is_unsigned = (st.is_unsigned || decide (w = "unsigned".toList)) := by
  unfold type_step
  split_ifs <;> simp_all

theorem foldl_type_step_is_unsigned (l : List Str) (st : TypeScan) :
    (l.foldl type_step st).is_unsigned
      = (st.is_unsigned || decide ("unsigned".toList ∈ l)) := by
  induction l generalizing st with
  | nil => simp
  | cons w ws ih =>
    rw [List.foldl_cons, ih, type_step_is_unsigned]
    by_cases h : w = "unsigned".toList
    · subst h
      simp only [List.mem_cons, true_or, decide_True, Bool.or_true, Bool.true_or]
    · have h2 : ¬ "unsigned".toList = w := fun e => h e.symm
      simp only [List.mem_cons, h, h2, false_or, decide_False, Bool.or_false]

theorem foldl_type_step_other (l : List Str) (st : TypeScan)
    (h : ∀ w ∈ l, keyword_kind w false = none) :
    (l.foldl type_step st).type = st.type := by
  induction l generalizing st with
  | nil => rfl
  | cons w ws ih =>
    rw [List.foldl_cons, ih _ (fun x hx => h x (List.mem_cons_of_mem _ hx)),
      type_step_other st w (h w (List.mem_cons_self _ _))]

/-- The type found by the scan: that of the last type keyword. -/
theorem arg_type_last_keyword (pre post : List Str) (kw name : Str) (k : ArgType)
    (hk : keyword_kind kw (decide ("unsigned".toList ∈ pre)) = some k)
    (hpost : ∀ w ∈ post, keyword_kind w false = none) :
    arg_type (pre ++ kw :: post ++ [name]) = some k := by
  have hlen : (pre ++ kw :: post ++ [name]).length > 1 := by
    simp only [List.length_append, List.length_cons, List.length_nil]
    omega
  unfold arg_type
  rw [if_pos hlen, List.dropLast_concat, List.foldl_append, List.foldl_cons,
    foldl_type_step_other post _ hpost]
  have hflag : (List.foldl type_step ⟨false, none⟩ pre).is_unsigned
      = decide ("unsigned".toList ∈ pre) := by
    rw [foldl_type_step_is_unsigned]; simp
  rw [← hflag] at hk
  exact (type_step_keyword _ kw k hk).1

/-- The loop body on a token whose word list has a last word. -/
theorem process_arg_of_getLast {F : Type} [Zero F] (fs : FromString F) (raw : RawArg F)
    (args_ : List (Arg F)) (tok name : Str)
    (h : (split_string (arg_default (arg_help tok).2).2 ' ').getLast? = some name) :
    process_arg fs raw args_ tok =
      make_arg fs raw args_ (arg_type (split_string (arg_default (arg_help tok).2).2 ' '))
        name (arg_default (arg_help tok).2).1 (arg_help tok).1 := by
  unfold process_arg
  simp only
  cases arg_type (split_string (arg_default (arg_help tok).2).2 ' ') with
  | none => rfl
  | some k =>
    simp only
    rw [h]

/-- The loop body on a token without words. -/
theorem process_arg_of_no_word {F : Type} [Zero F] (fs : FromString F) (raw : RawArg F)
    (args_ : List (Arg F)) (tok : Str)
    (h : split_string (arg_default (arg_help tok).2).2 ' ' = []) :
    process_arg fs raw args_ tok = .error Failure.assertion_not_reached := by
  unfold process_arg
  simp only
  rw [h]
  rfl

/-- What a successful `switch` on a known type leaves in `args_`: nothing new, or
one argument of that type with the given name and help. -/
theorem make_arg_ok {F : Type} [Zero F] (fs : FromString F) (raw : RawArg F)
    (args_ args1 : List (Arg F)) (k : ArgType) (name d help : Str)
    (h : make_arg fs raw args_ (some k) name d help = .ok args1) :
    args1 = args_ ∨
      ∃ a, args1 = args_ ++ [a] ∧ a.name = name ∧ a.type = k ∧ a.help = help := by
  cases k with
  | ARG_BOOL => injection h with h; exact Or.inr ⟨_, h.symm, rfl, rfl, rfl⟩
  | ARG_INT => injection h with h; exact Or.inr ⟨_, h.symm, rfl, rfl, rfl⟩
  | ARG_UINT => injection h with h; exact Or.inr ⟨_, h.symm, rfl, rfl, rfl⟩
  | ARG_FLOAT => injection h with h; exact Or.inr ⟨_, h.symm, rfl, rfl, rfl⟩
  | ARG_STRING =>
    unfold make_arg at h
    simp only at h
    by_cases hd : d ≠ []
    · rw [if_pos hd] at h
      unfold Arg.Arg_string at h
      by_cases hl : (substr d 1 (size_sub d.length 2)).length < 63
      · rw [if_pos hl] at h
        injection h with h
        exact Or.inr ⟨_, h.symm, rfl, rfl, rfl⟩
      · rw [if_neg hl] at h
        cases h
    · rw [if_neg hd] at h
      injection h with h
      exact Or.inl h.symm

/-- C3: when the words of an argument token (help and default removed) are
`pre ++ kw :: post ++ [name]`, with `kw` a type keyword and no type keyword in
`post`, the type found by the scan is the kind of `kw` (`int` reads as unsigned
exactly when `unsigned` is among the earlier words `pre`), the token is
dispatched with that type and the last word as name, and any argument it adds
has that name and that type.  For a kind other than string one argument is
added, whose default and current value are what `from_string` reads from the
default literal (the zero of the kind without literal), an unsigned value being
stored as `int(x)`.  The prototype `f(unsigned int n=5, float t=0.5)` gives
exactly two arguments: `n`, unsigned, whose default and current value are read
from `5` (they are 5 when `from_string` reads 5), and `t`, floating point, whose
default and current value are read from `0.5`. -/
theorem C3_kind_from_type_words {F : Type} [Zero F] (fs : FromString F) (raw : RawArg F)
    (args_ : List (Arg F)) (tok : Str) (pre post : List Str) (kw name : Str) (k : ArgType)
    (hwords : split_string (arg_default (arg_help tok).2).2 ' ' = pre ++ kw :: post ++ [name])
    (hk : keyword_kind kw (decide ("unsigned".toList ∈ pre)) = some k)
    (hpost : ∀ w ∈ post, keyword_kind w false = none) :
    arg_type (split_string (arg_default (arg_help tok).2).2 ' ') = some k ∧
    process_arg fs raw args_ tok =
      make_arg fs raw args_ (some k) name (arg_default (arg_help tok).2).1 (arg_help tok).1 ∧
    (∀ args1, process_arg fs raw args_ tok = .ok args1 →
      args1 = args_ ∨ ∃ a, args1 = args_ ++ [a] ∧ a.name = name ∧ a.type = k) ∧
    (k ≠ ArgType.ARG_STRING →
      ∃ a, process_arg fs raw args_ tok = .ok (args_ ++ [a]) ∧ a.name = name ∧ a.type = k ∧
        (k = ArgType.ARG_BOOL →
          a.default_val.bool_val = (if (arg_default (arg_help tok).2).1 ≠ []
            then fs.to_bool (arg_default (arg_help tok).2).1 else false) ∧
          a.val.bool_val = a.default_val.bool_val) ∧
        (k = ArgType.ARG_INT →
          a.default_val.int_val = (if (arg_default (arg_help tok).2).1 ≠ []
            then fs.to_int (arg_default (arg_help tok).2).1 else 0) ∧
          a.val.int_val = a.default_val.int_val) ∧
        (k = ArgType.ARG_UINT →
          a.default_val.int_val = int_of_uint (if (arg_default (arg_help tok).2).1 ≠ []
            then fs.to_uint (arg_default (arg_help tok).2).1 else 0) ∧
          a.val.int_val = a.default_val.int_val) ∧
        (k = ArgType.ARG_FLOAT →
          a.default_val.float_val = (if (arg_default (arg_help tok).2).1 ≠ []
            then fs.to_float (arg_default (arg_help tok).2).1 else 0) ∧
          a.val.float_val = a.default_val.float_val)) ∧
    Command.Command fs raw "f(unsigned int n=5, float t=0.5)".toList =
      .ok { name_ := "f".toList, help_ := [],
            args_ := [Arg.Arg_uint raw "n".toList (fs.to_uint "5".toList) [],
                      Arg.Arg_float raw "t".toList (fs.to_float "0.5".toList) []],
            auto_create_args_ := false } ∧
    (∃ n t, Command.Command fs raw "f(unsigned int n=5, float t=0.5)".toList =
        .ok { name_ := "f".toList, help_ := [], args_ := [n, t],
              auto_create_args_ := false } ∧
      n.name = "n".toList ∧ n.type = ArgType.ARG_UINT ∧ n.help = [] ∧
      n.default_val.int_val = int_of_uint (fs.to_uint "5".toList) ∧
      n.val.int_val = int_of_uint (fs.to_uint "5".toList) ∧
      (fs.to_uint "5".toList = 5 → n.default_val.int_val = 5 ∧ n.val.int_val = 5) ∧
      n.default_value = Value.int (int_of_uint (fs.to_uint "5".toList)) ∧
      n.value = Value.int (int_of_uint (fs.to_uint "5".toList)) ∧
      t.name = "t".toList ∧ t.type = ArgType.ARG_FLOAT ∧ t.help = [] ∧
      t.default_val.float_val = fs.to_float "0.5".toList ∧
      t.val.float_val = fs.to_float "0.5".toList ∧
      t.default_value = Value.float (fs.to_float "0.5".toList) ∧
      t.value = Value.float (fs.to_float "0.5".toList)) := by
  have htype := arg_type_last_keyword pre post kw name k hk hpost
  have hlast : (split_string (arg_default (arg_help tok).2).2 ' ').getLast? = some name := by
    rw [hwords, List.getLast?_concat]
  have hproc := process_arg_of_getLast fs raw args_ tok name hlast
  rw [hwords, htype] at hproc
  refine ⟨by rw [hwords]; exact htype, hproc, ?_, ?_, rfl, ?_⟩
  · intro args1 h1
    rw [hproc] at h1
    rcases make_arg_ok fs raw args_ args1 k name _ _ h1 with h | ⟨a, h, hn, ht, _⟩
    · exact Or.inl h
    · exact Or.inr ⟨a, h, hn, ht⟩
  · intro hns
    cases k with
    | ARG_BOOL =>
      exact ⟨_, hproc, rfl, rfl, fun _ => ⟨rfl, rfl⟩, fun h => (by cases h),
        fun h => (by cases h), fun h => (by cases h)⟩
    | ARG_INT =>
      exact ⟨_, hproc, rfl, rfl, fun h => (by cases h), fun _ => ⟨rfl, rfl⟩,
        fun h => (by cases h), fun h => (by cases h)⟩
    | ARG_UINT =>
      exact ⟨_, hproc, rfl, rfl, fun h => (by cases h), fun h => (by cases h),
        fun _ => ⟨rfl, rfl⟩, fun h => (by cases h)⟩
    | ARG_FLOAT =>
      exact ⟨_, hproc, rfl, rfl, fun h => (by cases h), fun h => (by cases h),
        fun h => (by cases h), fun _ => ⟨rfl, rfl⟩⟩
    | ARG_STRING => exact absurd rfl hns
  · refine ⟨_, _, rfl, rfl, rfl, rfl, rfl, rfl, ?_, rfl, rfl, rfl, rfl, rfl, rfl, rfl,
      rfl, rfl⟩
    intro h5
    have e : int_of_uint (fs.to_uint "5".toList) = 5 := by
      rw [h5]
      rfl
    exact ⟨e, e⟩

/-- Witness of C3 on the token `unsigned int n=5`. -/
theorem C3_kind_from_type_words_witness :
    arg_type (split_string (arg_default (arg_help "unsigned int n=5".toList).2).2 ' ')
      = some ArgType.ARG_UINT ∧
    process_arg sample_from_string sample_raw [] "unsigned int n=5".toList =
      .ok [Arg.Arg_uint sample_raw "n".toList 5 []] ∧
    ∃ a, process_arg sample_from_string sample_raw [] "unsigned int n=5".toList
        = .ok ([] ++ [a]) ∧
      a.name = "n".toList ∧ a.type = ArgType.ARG_UINT ∧
      a.default_val.int_val = 5 ∧ a.val.int_val = 5 :=
  have h := C3_kind_from_type_words sample_from_string sample_raw []
    "unsigned int n=5".toList ["unsigned".toList] [] "int".toList "n".toList
    ArgType.ARG_UINT (by decide) (by decide) (by decide)
  ⟨h.1, h.2.1.trans rfl,
   match h.2.2.2.1 (by decide) with
   | ⟨a, ha, hn, ht, _, _, hu, _⟩ =>
     ⟨a, ha, hn, ht, (hu rfl).1.trans rfl, ((hu rfl).2.trans (hu rfl).1).trans rfl⟩⟩

/-- Help extraction keeps the token or a prefix of it. -/
theorem arg_help_snd_not_mem (tok : Str) (c : Char) (h : c ∉ tok) :
    c ∉ (arg_help tok).2 := by
  unfold arg_help
  split
  · intro hm
    exact h (List.mem_of_mem_drop (List.mem_of_mem_take hm))
  · exact h

/-- Without an equal sign there is no default value and the token is kept. -/
theorem arg_default_of_not_mem (arg : Str) (h : '=' ∉ arg) :
    arg_default arg = ([], arg) := by
  have hf : find arg '=' = none := (find_eq_none arg '=').2 h
  unfold arg_default
  rw [hf]

/-- A token with a recognised type has a last word. -/
theorem arg_type_some_getLast (ws : List Str) (k : ArgType) (h : arg_type ws = some k) :
    ∃ name, ws.getLast? = some name := by
  cases ws with
  | nil => simp [arg_type] at h
  | cons w l => exact ⟨_, List.getLast?_eq_getLast _ (List.cons_ne_nil _ _)⟩

/-- C4: a token without equal sign whose type is boolean, signed, unsigned or
floating point adds one argument of that type, named by the last word, whose
default (and current) value is the zero of the type: `false`, `0`, `0`, `0.0`. -/
theorem C4_zero_default_without_literal {F : Type} [Zero F] (fs : FromString F)
    (raw : RawArg F) (args_ : List (Arg F)) (tok : Str) (k : ArgType)
    (hno : '=' ∉ tok)
    (hk : arg_type (split_string (arg_help tok).2 ' ') = some k)
    (hns : k ≠ ArgType.ARG_STRING) :
    ∃ name a,
      (split_string (arg_help tok).2 ' ').getLast? = some name ∧
      process_arg fs raw args_ tok = .ok (args_ ++ [a]) ∧
      a.name = name ∧ a.type = k ∧ a.help = (arg_help tok).1 ∧
      a.default_val.bool_val = false ∧ a.default_val.int_val = 0 ∧
      a.default_val.float_val = 0 ∧
      a.val.bool_val = false ∧ a.val.int_val = 0 ∧ a.val.float_val = 0 := by
  have hd := arg_default_of_not_mem _ (arg_help_snd_not_mem tok '=' hno)
  obtain ⟨name, hname⟩ := arg_type_some_getLast _ k hk
  have hproc := process_arg_of_getLast fs raw args_ tok name (by rw [hd]; exact hname)
  rw [hd] at hproc
  simp only at hproc
  rw [hk] at hproc
  cases k with
  | ARG_BOOL => exact ⟨name, _, hname, hproc, rfl, rfl, rfl, rfl, rfl, rfl, rfl, rfl, rfl⟩
  | ARG_INT => exact ⟨name, _, hname, hproc, rfl, rfl, rfl, rfl, rfl, rfl, rfl, rfl, rfl⟩
  | ARG_UINT => exact ⟨name, _, hname, hproc, rfl, rfl, rfl, rfl, rfl, rfl, rfl, rfl, rfl⟩
  | ARG_FLOAT => exact ⟨name, _, hname, hproc, rfl, rfl, rfl, rfl, rfl, rfl, rfl, rfl, rfl⟩
  | ARG_STRING => exact absurd rfl hns

/-- Witness of C4 on the token `unsigned int n`. -/
theorem C4_zero_default_without_literal_witness :
    ∃ name a,
      (split_string (arg_help "unsigned int n".toList).2 ' ').getLast? = some name ∧
      process_arg sample_from_string sample_raw [] "unsigned int n".toList = .ok ([] ++ [a]) ∧
      a.name = name ∧ a.type = ArgType.ARG_UINT ∧
      a.help = (arg_help "unsigned int n".toList).1 ∧
      a.default_val.bool_val = false ∧ a.default_val.int_val = 0 ∧
      a.default_val.float_val = 0 ∧
      a.val.bool_val = false ∧ a.val.int_val = 0 ∧ a.val.float_val = 0 :=
  C4_zero_default_without_literal sample_from_string sample_raw []
    "unsigned int n".toList ArgType.ARG_UINT (by decide) (by decide) (by decide)

/-- One round of the argument loop. -/
theorem process_args_cons {F : Type} [Zero F] (fs : FromString F) (raw : RawArg F)
    (tok : Str) (rest : List Str) (acc : List (Arg F)) :
    process_args fs raw (tok :: rest) acc =
      match process_arg fs raw acc tok with
      | .ok acc1 => process_args fs raw rest acc1
      | .error e => .error e := rfl

/-- The argument loop on a concatenation: the second part starts from what the
first part produced. -/
theorem process_args_append {F : Type} [Zero F] (fs : FromString F) (raw : RawArg F)
    (l1 l2 : List Str) (acc : List (Arg F)) :
    process_args fs raw (l1 ++ l2) acc =
      match process_args fs raw l1 acc with
      | .ok acc1 => process_args fs raw l2 acc1
      | .error e => .error e := by
  induction l1 generalizing acc with
  | nil => rfl
  | cons tok rest ih =>
    rw [List.cons_append, process_args_cons, process_args_cons]
    cases process_arg fs raw acc tok with
    | ok acc1 => exact ih acc1
    | error e => rfl

/-- Length of a default literal without its first and last character. -/
theorem stripped_length (d : Str) (h : d.length ≤ 64) :
    (substr d 1 (size_sub d.length 2)).length < 63 := by
  unfold substr size_sub
  rw [List.length_take, List.length_drop]
  split_ifs <;> omega

/-- C5 (amended): for a token of string type, an empty default literal adds no
argument and raises no failure, so that the loop gives the same result as if
the token were absent; a non-empty default literal of at most 64 characters
adds exactly one argument, of string type, named by the last word, whose
default buffer starts with the literal without its first and last character. -/
theorem C5_string_token {F : Type} [Zero F] (fs : FromString F)
    (raw : RawArg F) (args_ : List (Arg F)) (tok : Str)
    (hk : arg_type (split_string (arg_default (arg_help tok).2).2 ' ')
      = some ArgType.ARG_STRING) :
    ((arg_default (arg_help tok).2).1 = [] →
      process_arg fs raw args_ tok = .ok args_ ∧
      ∀ (pre post : List Str) (acc : List (Arg F)),
        process_args fs raw (pre ++ tok :: post) acc
          = process_args fs raw (pre ++ post) acc) ∧
    ((arg_default (arg_help tok).2).1 ≠ [] →
      (arg_default (arg_help tok).2).1.length ≤ 64 →
      ∃ name a,
        (split_string (arg_default (arg_help tok).2).2 ' ').getLast? = some name ∧
        process_arg fs raw args_ tok = .ok (args_ ++ [a]) ∧
        a.type = ArgType.ARG_STRING ∧ a.name = name ∧ a.help = (arg_help tok).1 ∧
        a.default_val.string_val = raw.default_val.clear.string_val.copy_in
          (substr (arg_default (arg_help tok).2).1 1
            (size_sub (arg_default (arg_help tok).2).1.length 2))) := by
  obtain ⟨name, hname⟩ := arg_type_some_getLast _ _ hk
  have hproc : ∀ acc : List (Arg F), process_arg fs raw acc tok =
      make_arg fs raw acc (some ArgType.ARG_STRING) name
        (arg_default (arg_help tok).2).1 (arg_help tok).1 := by
    intro acc
    have h := process_arg_of_getLast fs raw acc tok name hname
    rw [hk] at h
    exact h
  constructor
  · intro hd
    have hstep : ∀ acc : List (Arg F), process_arg fs raw acc tok = .ok acc := by
      intro acc
      rw [hproc acc, hd]
      rfl
    refine ⟨hstep args_, ?_⟩
    intro pre post acc
    rw [process_args_append, process_args_append fs raw pre post]
    cases process_args fs raw pre acc with
    | error e => rfl
    | ok acc1 =>
      simp only
      rw [process_args_cons, hstep acc1]
  · intro hd hlen
    have hres : process_arg fs raw args_ tok = .ok (args_ ++
        [{ name := name, help := (arg_help tok).1, type := ArgType.ARG_STRING,
           val := raw.val.clear,
           default_val :=
             { raw.default_val.clear with
               string_val := raw.default_val.clear.string_val.copy_in
                 (substr (arg_default (arg_help tok).2).1 1
                   (size_sub (arg_default (arg_help tok).2).1.length 2)) } }]) := by
      rw [hproc args_]
      unfold make_arg
      simp only
      rw [if_pos hd]
      unfold Arg.Arg_string
      rw [if_pos (stripped_length _ hlen)]
      rfl
    exact ⟨name, _, hname, hres, rfl, rfl, rfl, rfl⟩

/-- Witness of C5 on the tokens `std::string s` and `string s="abc"`. -/
theorem C5_string_token_witness :
    process_arg sample_from_string sample_raw [] "std::string s".toList = .ok [] ∧
    ∃ name a,
      (split_string (arg_default (arg_help "string s=\"abc\"".toList).2).2 ' ').getLast?
        = some name ∧
      process_arg sample_from_string sample_raw [] "string s=\"abc\"".toList
        = .ok ([] ++ [a]) ∧
      a.type = ArgType.ARG_STRING ∧ a.name = name ∧
      a.help = (arg_help "string s=\"abc\"".toList).1 ∧
      a.default_val.string_val = sample_raw.default_val.clear.string_val.copy_in
        (substr (arg_default (arg_help "string s=\"abc\"".toList).2).1 1
          (size_sub (arg_default (arg_help "string s=\"abc\"".toList).2).1.length 2)) :=
  ⟨((C5_string_token sample_from_string sample_raw [] "std::string s".toList
      (by decide)).1 (by decide)).1,
   (C5_string_token sample_from_string sample_raw [] "string s=\"abc\"".toList
      (by decide)).2 (by decide) (by decide)⟩

/-- Counterexample to C5 as stated: a string token with a non-empty default
literal of 72 characters adds no argument; construction stops on the assertion
of the string constructor. -/
theorem C5_long_string_default_fails :
    arg_type (split_string (arg_default (arg_help long_string_token).2).2 ' ')
      = some ArgType.ARG_STRING ∧
    (arg_default (arg_help long_string_token).2).1 ≠ [] ∧
    process_arg sample_from_string sample_raw [] long_string_token
      = .error Failure.assertion_failed ∧
    Command.Command sample_from_string sample_raw
      ("f(".toList ++ long_string_token ++ ")".toList) = .error Failure.assertion_failed :=
  ⟨by decide, by decide, rfl, rfl⟩

/-- Clearing a buffer leaves the empty C string. -/
theorem c_str_set_first_NUL (b : CharBuf) : (b.set_first NUL).c_str = [] := by
  obtain ⟨data, h⟩ := b
  cases data with
  | nil => simp at h
  | cons x xs => simp [CharBuf.set_first, CharBuf.c_str]

/-- C6 at the failing input `f(string s="abc")`: the single argument is of
string type, its current value is the empty string and its default value
starts with `abc`, so the two differ.  For the other four constructors the
current value is the default value. -/
theorem C6_string_value_differs_from_default {F : Type} [Zero F] (fs : FromString F)
    (raw : RawArg F) :
    (∃ a, Command.Command fs raw "f(string s=\"abc\")".toList =
        .ok { name_ := "f".toList, help_ := [], args_ := [a],
              auto_create_args_ := false } ∧
      a.type = ArgType.ARG_STRING ∧ a.value = Value.string [] ∧
      (∃ rest, a.default_value = Value.string ("abc".toList ++ rest)) ∧
      a.value ≠ a.default_value) ∧
    (∀ n h x, (Arg.Arg_bool raw n x h).value = (Arg.Arg_bool raw n x h).default_value) ∧
    (∀ n h x, (Arg.Arg_int raw n x h).value = (Arg.Arg_int raw n x h).default_value) ∧
    (∀ n h x, (Arg.Arg_uint raw n x h).value = (Arg.Arg_uint raw n x h).default_value) ∧
    (∀ n h x, (Arg.Arg_float raw n x h).value = (Arg.Arg_float raw n x h).default_value) := by
  refine ⟨⟨_, rfl, rfl, ?_, ?_, ?_⟩,
    fun _ _ _ => rfl, fun _ _ _ => rfl, fun _ _ _ => rfl, fun _ _ _ => rfl⟩
  · show Value.string (raw.val.string_val.set_first NUL).c_str = Value.string []
    rw [c_str_set_first_NUL]
  · refine ⟨List.takeWhile (fun c => decide (c ≠ NUL))
      (List.take 61 (List.drop 3 (raw.default_val.string_val.set_first NUL).data)), ?_⟩
    show Value.string (CharBuf.copy_in _ _).c_str = _
    congr 1
  · show Value.string (raw.val.string_val.set_first NUL).c_str
      ≠ Value.string (CharBuf.copy_in _ _).c_str
    rw [c_str_set_first_NUL]
    intro h
    injection h with h
    have h2 : ([] : List Char) = 'a' :: List.takeWhile (fun c => decide (c ≠ NUL))
        (List.take 63 ("bc".toList ++
          List.drop 3 (raw.default_val.string_val.set_first NUL).data)) := h
    cases h2

/-- The assignment of one `ArgVal` to another yields the assigned value. -/
theorem ArgVal_assign_eq {F : Type} (lhs rhs : ArgVal F) : lhs.assign rhs = rhs := rfl

/-- C7: whatever the current values of the arguments have become (the command
`c1` differs from `c` at most in them), `reset_factory_settings` makes the
current value of every argument equal to the default value recorded in `c`,
as a whole `ArgVal` (string buffer included) and as a value of its kind. -/
theorem C7_reset_restores_default {F : Type} (c c1 : Command F)
    (hdef : c1.args_.map Arg.default_val = c.args_.map Arg.default_val) :
    c1.reset_factory_settings.args_.map Arg.val = c.args_.map Arg.default_val ∧
    c1.reset_factory_settings.args_.map Arg.default_val = c.args_.map Arg.default_val ∧
    ∀ a ∈ c1.reset_factory_settings.args_,
      a.val = a.default_val ∧ a.value = a.default_value := by
  refine ⟨?_, ?_, ?_⟩
  · rw [← hdef]
    simp [Command.reset_factory_settings, ArgVal_assign_eq, List.map_map, Function.comp_def]
  · rw [← hdef]
    simp [Command.reset_factory_settings, List.map_map, Function.comp_def]
  · intro a ha
    simp only [Command.reset_factory_settings, List.mem_map] at ha
    obtain ⟨b, _, rfl⟩ := ha
    exact ⟨rfl, rfl⟩

/-- Witness of C7 on a command with one signed argument of default 3 that was
edited to 7: the reset brings 3 back. -/
theorem C7_reset_restores_default_witness :
    sample_command_edited.args_.map (fun a => a.val.int_val) = [7] ∧
    sample_command_edited.reset_factory_settings.args_.map (fun a => a.val.int_val) = [3] ∧
    sample_command_edited.reset_factory_settings.args_.map Arg.val
      = sample_command.args_.map Arg.default_val :=
  ⟨rfl, rfl, (C7_reset_restores_default sample_command sample_command_edited rfl).1⟩

/-! ## The command queue -/

/-- C8: with a command `c` queued, `flush_queue` is `apply` of `c` on the state
whose slot is already empty; `apply` is called once, on `c`, and the invoker
(when `c` has one) is called once, on an empty slot.  A command `d` queued by
that invocation is still queued when `flush_queue` returns, no call on `d` was
recorded during the flush (also when `d` is `c`), and the next flush applies
and invokes `d`.  With nothing queued, `flush_queue` changes nothing. -/
theorem C8_flush_queue_defers {Cmd U : Type}
    (invoker_ : Cmd → Option (CommandInvoker Cmd U)) (s : Session Cmd U) (c : Cmd)
    (hq : s.queued_ = some c) :
    Command.flush_queue invoker_ s
      = Command.apply invoker_ c { s with queued_ := none } ∧
    (invoker_ c = none →
      Command.flush_queue invoker_ s
        = { queued_ := none, app := s.app, trace := s.trace ++ [Event.apply c] }) ∧
    (∀ inv, invoker_ c = some inv →
      Command.flush_queue invoker_ s
        = { queued_ := (inv.invoke none s.app).1, app := (inv.invoke none s.app).2,
            trace := s.trace ++ [Event.apply c, Event.invoke c] } ∧
      ∀ d, (inv.invoke none s.app).1 = some d →
        (Command.flush_queue invoker_ s).queued_ = some d ∧
        (invoker_ d = none →
          (Command.flush_queue invoker_ (Command.flush_queue invoker_ s)).trace
            = s.trace ++ [Event.apply c, Event.invoke c, Event.apply d]) ∧
        (∀ invd, invoker_ d = some invd →
          (Command.flush_queue invoker_ (Command.flush_queue invoker_ s)).trace
            = s.trace ++ [Event.apply c, Event.invoke c, Event.apply d, Event.invoke d])) ∧
    (∀ s0 : Session Cmd U, s0.queued_ = none → Command.flush_queue invoker_ s0 = s0) := by
  have hflush : Command.flush_queue invoker_ s
      = Command.apply invoker_ c { s with queued_ := none } := by
    unfold Command.flush_queue
    rw [hq]
  refine ⟨hflush, ?_, ?_, ?_⟩
  · intro hnone
    rw [hflush]
    unfold Command.apply
    rw [hnone]
  · intro inv hinv
    have h1 : Command.flush_queue invoker_ s
        = { queued_ := (inv.invoke none s.app).1, app := (inv.invoke none s.app).2,
            trace := s.trace ++ [Event.apply c, Event.invoke c] } := by
      rw [hflush]
      unfold Command.apply
      rw [hinv]
      simp
    refine ⟨h1, ?_⟩
    intro d hd
    rw [h1]
    refine ⟨hd, ?_, ?_⟩
    · intro hnone
      unfold Command.flush_queue
      simp only [hd]
      unfold Command.apply
      rw [hnone]
      simp
    · intro invd hinvd
      unfold Command.flush_queue
      simp only [hd]
      unfold Command.apply
      rw [hinvd]
      simp
  · intro s0 h0
    unfold Command.flush_queue
    rw [h0]

/-- Witness of C8 on a session where command 4 is queued and every invocation
queues its own command again: each flush applies and invokes command 4 once. -/
theorem C8_flush_queue_defers_witness :
    Command.flush_queue sample_invoker sample_session
      = { queued_ := some 4, app := 1, trace := [Event.apply 4, Event.invoke 4] } ∧
    (Command.flush_queue sample_invoker
        (Command.flush_queue sample_invoker sample_session)).trace
      = [Event.apply 4, Event.invoke 4, Event.apply 4, Event.invoke 4] :=
  have h := (C8_flush_queue_defers sample_invoker sample_session 4 rfl).2.2.1
    { invoke := fun _ u => (some 4, u + 1) } rfl
  ⟨h.1, (h.2 4 rfl).2.2 { invoke := fun _ u => (some 4, u + 1) } rfl⟩

/-! ## The parenthesis scan -/

/-- The scan of `l ++ [c]` is the scan of `l` followed by one step on `c`. -/
theorem paren_scan_from_concat (l : Str) (c : Char) (i : Nat) (st : ParenScan) :
    paren_scan_from (l ++ [c]) i st = paren_step (paren_scan_from l i st) (i + l.length) c := by
  induction l generalizing i st with
  | nil => rfl
  | cons x xs ih =>
    show paren_scan_from (xs ++ [c]) (i + 1) (paren_step st i x)
      = paren_step (paren_scan_from xs (i + 1) (paren_step st i x)) (i + (xs.length + 1)) c
    rw [ih]
    congr 1
    omega

theorem bracket_depth_concat (s : Str) (c : Char) :
    bracket_depth (s ++ [c]) =
      bracket_depth s + (if c = '[' then 1 else 0) - (if c = ']' then 1 else 0) := by
  unfold bracket_depth
  rw [List.count_append, List.count_append, List.count_singleton, List.count_singleton]
  by_cases h1 : c = '[' <;> by_cases h2 : c = ']' <;> simp [h1, h2] <;> omega

/-- Positions at depth 0 of `s ++ [c]`: those of `s`, and the new last position
when it qualifies. -/
theorem at_depth_zero_concat (s : Str) (c ch : Char) (j : Nat) :
    at_depth_zero (s ++ [c]) ch j ↔
      at_depth_zero s ch j ∨ (j = s.length ∧ c = ch ∧ bracket_depth s = 0) := by
  unfold at_depth_zero
  rcases Nat.lt_trichotomy j s.length with h | h | h
  · rw [List.getElem?_append_left h, List.take_append_of_le_length (Nat.le_of_lt h)]
    constructor
    · intro hh; exact Or.inl hh
    · rintro (hh | ⟨hj, _, _⟩)
      · exact hh
      · omega
  · subst h
    have h1 : (s ++ [c])[s.length]? = some c := by simp
    have h2 : s[s.length]? = none := by simp
    have h3 : List.take s.length (s ++ [c]) = s := by simp
    rw [h1, h2, h3]
    constructor
    · rintro ⟨hc, hd⟩
      exact Or.inr ⟨rfl, Option.some.inj hc, hd⟩
    · rintro (⟨hh, _⟩ | ⟨_, hc, hd⟩)
      · cases hh
      · exact ⟨by rw [hc], hd⟩
  · have h1 : (s ++ [c])[j]? = none := by
      apply List.getElem?_eq_none
      simp only [List.length_append, List.length_singleton]
      omega
    have h2 : s[j]? = none := List.getElem?_eq_none (by omega)
    rw [h1, h2]
    constructor
    · rintro ⟨hh, _⟩; cases hh
    · rintro (⟨hh, _⟩ | ⟨hj, _, _⟩)
      · cases hh
      · omega

theorem at_depth_zero_lt (s : Str) (ch : Char) (j : Nat) (h : at_depth_zero s ch j) :
    j < s.length := by
  by_contra hn
  have h2 : s[j]? = none := List.getElem?_eq_none (by omega)
  rw [at_depth_zero, h2] at h
  cases h.1

/-- The last position at depth 0 after a character that qualifies. -/
theorem last_at_depth_zero_hit (s : Str) (c ch : Char)
    (hc : c = ch) (hd : bracket_depth s = 0) :
    last_at_depth_zero (s ++ [c]) ch (some s.length) := by
  refine ⟨(at_depth_zero_concat s c ch s.length).2 (Or.inr ⟨rfl, hc, hd⟩), ?_⟩
  intro j hj
  rcases (at_depth_zero_concat s c ch j).1 hj with h | ⟨h, _, _⟩
  · exact Nat.le_of_lt (at_depth_zero_lt s ch j h)
  · omega

/-- The last position at depth 0 after a character that does not qualify. -/
theorem last_at_depth_zero_miss (s : Str) (c ch : Char) (r : Option Nat)
    (hr : last_at_depth_zero s ch r) (hn : ¬ (c = ch ∧ bracket_depth s = 0)) :
    last_at_depth_zero (s ++ [c]) ch r := by
  cases r with
  | none =>
    intro j hj
    rcases (at_depth_zero_concat s c ch j).1 hj with h | ⟨_, h1, h2⟩
    · exact hr j h
    · exact hn ⟨h1, h2⟩
  | some i =>
    refine ⟨(at_depth_zero_concat s c ch i).2 (Or.inl hr.1), ?_⟩
    intro j hj
    rcases (at_depth_zero_concat s c ch j).1 hj with h | ⟨_, h1, h2⟩
    · exact hr.2 j h
    · exact absurd ⟨h1, h2⟩ hn

theorem scan_inv_step (s : Str) (st : ParenScan) (c : Char) (h : scan_inv s st) :
    scan_inv (s ++ [c]) (paren_step st s.length c) := by
  obtain ⟨hl, h1, h2⟩ := h
  unfold paren_step
  by_cases c1 : c = '['
  · subst c1
    rw [if_pos rfl]
    refine ⟨?_, last_at_depth_zero_miss _ _ _ _ h1 (by simp),
      last_at_depth_zero_miss _ _ _ _ h2 (by simp)⟩
    rw [bracket_depth_concat]; simp [hl]
  · rw [if_neg c1]
    by_cases c2 : c = ']'
    · subst c2
      rw [if_pos rfl]
      refine ⟨?_, last_at_depth_zero_miss _ _ _ _ h1 (by simp),
        last_at_depth_zero_miss _ _ _ _ h2 (by simp)⟩
      rw [bracket_depth_concat]; simp [hl]
    · rw [if_neg c2]
      have hdepth : bracket_depth (s ++ [c]) = bracket_depth s := by
        rw [bracket_depth_concat]; simp [c1, c2]
      by_cases c3 : c = '('
      · subst c3
        rw [if_pos rfl]
        by_cases hz : st.level = 0
        · rw [if_pos hz]
          exact ⟨by rw [hdepth]; exact hl,
            last_at_depth_zero_hit _ _ _ rfl (by rw [← hl]; exact hz),
            last_at_depth_zero_miss _ _ _ _ h2 (by simp)⟩
        · rw [if_neg hz]
          exact ⟨by rw [hdepth]; exact hl,
            last_at_depth_zero_miss _ _ _ _ h1 (by rw [← hl]; simp [hz]),
            last_at_depth_zero_miss _ _ _ _ h2 (by simp)⟩
      · rw [if_neg c3]
        by_cases c4 : c = ')'
        · subst c4
          rw [if_pos rfl]
          by_cases hz : st.level = 0
          · rw [if_pos hz]
            exact ⟨by rw [hdepth]; exact hl,
              last_at_depth_zero_miss _ _ _ _ h1 (by simp),
              last_at_depth_zero_hit _ _ _ rfl (by rw [← hl]; exact hz)⟩
          · rw [if_neg hz]
            exact ⟨by rw [hdepth]; exact hl,
              last_at_depth_zero_miss _ _ _ _ h1 (by simp),
              last_at_depth_zero_miss _ _ _ _ h2 (by rw [← hl]; simp [hz])⟩
        · rw [if_neg c4]
          exact ⟨by rw [hdepth]; exact hl,
            last_at_depth_zero_miss _ _ _ _ h1 (by simp [c3]),
            last_at_depth_zero_miss _ _ _ _ h2 (by simp [c4])⟩

/-- The scan records the last `(` and the last `)` met at bracket depth 0. -/
theorem paren_scan_spec (s : Str) : scan_inv s (paren_scan s) := by
  induction s using List.reverseRecOn with
  | nil =>
    refine ⟨rfl, ?_, ?_⟩ <;> intro j hj <;> cases hj.1
  | append_singleton l c ih =>
    have h := scan_inv_step l (paren_scan l) c ih
    unfold paren_scan at h ⊢
    rw [paren_scan_from_concat, Nat.zero_add]
    exact h

theorem newline_to_space_eq_iff (x ch : Char) (h1 : ch ≠ ' ') (h2 : ch ≠ '\n') :
    newline_to_space x = ch ↔ x = ch := by
  unfold newline_to_space
  by_cases hx : x = '\n'
  · subst hx
    rw [if_pos rfl]
    constructor
    · intro h; exact absurd h.symm h1
    · intro h; exact absurd h.symm h2
  · rw [if_neg hx]

theorem count_map_newline (s : Str) (ch : Char) (h1 : ch ≠ ' ') (h2 : ch ≠ '\n') :
    (s.map newline_to_space).count ch = s.count ch := by
  induction s with
  | nil => rfl
  | cons x xs ih =>
    rw [List.map_cons, List.count_cons, List.count_cons, ih]
    by_cases hx : x = ch
    · have : newline_to_space x = ch := (newline_to_space_eq_iff x ch h1 h2).2 hx
      rw [this, hx]
    · have : ¬ newline_to_space x = ch :=
        fun e => hx ((newline_to_space_eq_iff x ch h1 h2).1 e)
      simp [hx, this]

theorem bracket_depth_map_newline (s : Str) :
    bracket_depth (s.map newline_to_space) = bracket_depth s := by
  unfold bracket_depth
  rw [count_map_newline s '[' (by decide) (by decide),
    count_map_newline s ']' (by decide) (by decide)]

/-- Turning newlines into spaces moves no parenthesis and changes no depth. -/
theorem at_depth_zero_map_newline (s : Str) (ch : Char) (i : Nat)
    (h1 : ch ≠ ' ') (h2 : ch ≠ '\n') :
    at_depth_zero (s.map newline_to_space) ch i ↔ at_depth_zero s ch i := by
  unfold at_depth_zero
  rw [← List.map_take, bracket_depth_map_newline, List.getElem?_map]
  cases hs : s[i]? with
  | none => simp
  | some x =>
    simp only [Option.map_some', Option.some.injEq]
    rw [newline_to_space_eq_iff x ch h1 h2]

/-- The constructor on a prototype with a parenthesis whose scan misses one of
the two positions. -/
theorem Command_of_scan_none {F : Type} [Zero F] (fs : FromString F) (raw : RawArg F)
    (s : Str) (hparen : '(' ∈ s)
    (h : (paren_scan (s.map newline_to_space)).p1 = none ∨
      (paren_scan (s.map newline_to_space)).p2 = none) :
    Command.Command fs raw s = .error Failure.assertion_failed := by
  have hf : find s '(' ≠ none := fun e => ((find_eq_none s '(').1 e) hparen
  unfold Command.Command
  rw [if_neg hf]
  unfold Command.parse_prototype
  rcases h with h | h
  · rw [h]
  · rw [h]
    cases (paren_scan (s.map newline_to_space)).p1 <;> rfl

/-- C9: a prototype that contains `(` but has no `(` at bracket depth 0, or no
`)` at bracket depth 0, makes the constructor stop on its assertion: no
command is produced. -/
theorem C9_missing_parenthesis_fails {F : Type} [Zero F] (fs : FromString F)
    (raw : RawArg F) (s : Str) (hparen : '(' ∈ s)
    (hno : (∀ i, ¬ at_depth_zero s '(' i) ∨ (∀ i, ¬ at_depth_zero s ')' i)) :
    Command.Command fs raw s = .error Failure.assertion_failed ∧
    ∀ c, Command.Command fs raw s ≠ .ok c := by
  have hfail : Command.Command fs raw s = .error Failure.assertion_failed := by
    apply Command_of_scan_none fs raw s hparen
    obtain ⟨_, h1, h2⟩ := paren_scan_spec (s.map newline_to_space)
    rcases hno with hno | hno
    · left
      cases hp : (paren_scan (s.map newline_to_space)).p1 with
      | none => rfl
      | some i =>
        rw [hp] at h1
        exact absurd ((at_depth_zero_map_newline s '(' i (by decide) (by decide)).1 h1.1)
          (hno i)
    · right
      cases hp : (paren_scan (s.map newline_to_space)).p2 with
      | none => rfl
      | some i =>
        rw [hp] at h2
        exact absurd ((at_depth_zero_map_newline s ')' i (by decide) (by decide)).1 h2.1)
          (hno i)
  refine ⟨hfail, ?_⟩
  intro c hc
  rw [hfail] at hc
  cases hc

/-- A character that does not occur at depth 0 before the end of the text
occurs at depth 0 nowhere. -/
theorem not_at_depth_zero_of_bounded (s : Str) (ch : Char)
    (h : ∀ i < s.length, ¬ at_depth_zero s ch i) : ∀ i, ¬ at_depth_zero s ch i :=
  fun i hi => h i (at_depth_zero_lt s ch i hi) hi

/-- Witness of C9 on the prototypes `f(int x` (no closing parenthesis) and
`f [(int x)]` (parentheses inside brackets only). -/
theorem C9_missing_parenthesis_fails_witness :
    Command.Command sample_from_string sample_raw "f(int x".toList
      = .error Failure.assertion_failed ∧
    Command.Command sample_from_string sample_raw "f [(int x)]".toList
      = .error Failure.assertion_failed :=
  ⟨(C9_missing_parenthesis_fails sample_from_string sample_raw "f(int x".toList
      (by decide)
      (Or.inr (not_at_depth_zero_of_bounded _ _ (by decide)))).1,
   (C9_missing_parenthesis_fails sample_from_string sample_raw "f [(int x)]".toList
      (by decide)
      (Or.inl (not_at_depth_zero_of_bounded _ _ (by decide)))).1⟩

/-- The constructor on a prototype whose scan found both parentheses. -/
theorem Command_of_scan_some {F : Type} [Zero F] (fs : FromString F) (raw : RawArg F)
    (proto : Str) (p1 p2 : Nat) (hparen : '(' ∈ proto)
    (hp1 : (paren_scan (proto.map newline_to_space)).p1 = some p1)
    (hp2 : (paren_scan (proto.map newline_to_space)).p2 = some p2) :
    Command.Command fs raw proto
      = Command.parse_body fs raw (proto.map newline_to_space) p1 p2 := by
  have hf : find proto '(' ≠ none := fun e => ((find_eq_none proto '(').1 e) hparen
  unfold Command.Command
  rw [if_neg hf]
  unfold Command.parse_prototype
  rw [hp1, hp2]

/-- The loop body on a token without recognised type, with or without words. -/
theorem process_arg_untyped {F : Type} [Zero F] (fs : FromString F) (raw : RawArg F)
    (acc : List (Arg F)) (tok : Str)
    (htype : arg_type (split_string (arg_default (arg_help tok).2).2 ' ') = none) :
    process_arg fs raw acc tok = .error Failure.assertion_not_reached := by
  unfold process_arg
  simp only
  rw [htype]

/-- Whether a word is a type keyword does not depend on the flag. -/
theorem keyword_kind_none_flag (w : Str) (b1 b2 : Bool) (h : keyword_kind w b1 = none) :
    keyword_kind w b2 = none := by
  unfold keyword_kind at h ⊢
  split_ifs at h ⊢
  simp_all

/-- A type once found is never lost. -/
theorem type_step_keeps_some (st : TypeScan) (w : Str) (h : st.type ≠ none) :
    (type_step st w).type ≠ none := by
  unfold type_step
  split_ifs <;> simp_all

/-- A type keyword sets a type. -/
theorem type_step_of_keyword (st : TypeScan) (w : Str) (h : keyword_kind w false ≠ none) :
    (type_step st w).type ≠ none := by
  cases hk : keyword_kind w st.is_unsigned with
  | none => exact absurd (keyword_kind_none_flag w _ false hk) h
  | some k =>
    rw [(type_step_keyword st w k hk).1]
    exact Option.some_ne_none k

theorem foldl_type_step_keeps_some (l : List Str) (st : TypeScan) (h : st.type ≠ none) :
    (l.foldl type_step st).type ≠ none := by
  induction l generalizing st with
  | nil => exact h
  | cons w ws ih =>
    rw [List.foldl_cons]
    exact ih _ (type_step_keeps_some st w h)

theorem foldl_type_step_of_keyword (l : List Str) (st : TypeScan)
    (h : ∃ w ∈ l, keyword_kind w false ≠ none) :
    (l.foldl type_step st).type ≠ none := by
  induction l generalizing st with
  | nil =>
    obtain ⟨w, hw, _⟩ := h
    cases hw
  | cons x xs ih =>
    rw [List.foldl_cons]
    obtain ⟨w, hw, hk⟩ := h
    rcases List.mem_cons.1 hw with e | hm
    · subst e
      exact foldl_type_step_keeps_some xs _ (type_step_of_keyword st w hk)
    · exact ih _ ⟨w, hm, hk⟩

/-- The scan finds no type exactly when no word before the last one is a type
keyword. -/
theorem arg_type_eq_none_iff (ws : List Str) :
    arg_type ws = none ↔ ∀ w ∈ ws.dropLast, keyword_kind w false = none := by
  constructor
  · intro h w hw
    by_contra hk
    have hlen : ws.length > 1 := by
      have h1 : 0 < ws.dropLast.length := List.length_pos_of_mem hw
      rw [List.length_dropLast] at h1
      omega
    unfold arg_type at h
    rw [if_pos hlen] at h
    exact foldl_type_step_of_keyword ws.dropLast _ ⟨w, hw, hk⟩ h
  · intro h
    unfold arg_type
    by_cases hlen : ws.length > 1
    · rw [if_pos hlen, foldl_type_step_other ws.dropLast _ h]
    · rw [if_neg hlen]

/-- C10 (amended): when some token of the argument list has no type keyword
among the words before its last word (a single word, a word qualified by
`unsigned` alone and a token without any word are such tokens), the type scan
finds no type and the loop body stops on the unreachable-code assertion, as
for the token ` const x` of `f(int a, const x)`;
construction fails in every case: with the unreachable-code assertion when the
name lookup succeeds and the tokens before that one are processed without
failure, on the name lookup when that fails, and with the failure of an
earlier token otherwise. -/
theorem C10_untyped_token_fails {F : Type} [Zero F] (fs : FromString F)
    (raw : RawArg F) (proto : Str) (p1 p2 : Nat) (pre post : List Str) (tok : Str)
    (hparen : '(' ∈ proto)
    (hp1 : (paren_scan (proto.map newline_to_space)).p1 = some p1)
    (hp2 : (paren_scan (proto.map newline_to_space)).p2 = some p2)
    (htoks : split_string (substr (proto.map newline_to_space) (p1 + 1)
      (size_sub (size_sub p2 p1) 1)) ',' = pre ++ tok :: post)
    (hnokw : ∀ w ∈ (arg_words tok).dropLast, keyword_kind w false = none) :
    (∃ e, Command.Command fs raw proto = .error e) ∧
    (∀ name acc,
      (split_string (substr (proto.map newline_to_space) 0 p1) ' ').getLast? = some name →
      process_args fs raw pre [] = .ok acc →
      Command.Command fs raw proto = .error Failure.assertion_not_reached) ∧
    ((split_string (substr (proto.map newline_to_space) 0 p1) ' ').getLast? = none →
      Command.Command fs raw proto = .error Failure.index_out_of_range) ∧
    (∀ name e,
      (split_string (substr (proto.map newline_to_space) 0 p1) ' ').getLast? = some name →
      process_args fs raw pre [] = .error e →
      Command.Command fs raw proto = .error e) ∧
    (∀ acc, process_arg fs raw acc tok = .error Failure.assertion_not_reached) ∧
    (∀ ws : List Str,
      arg_type ws = none ↔ ∀ w ∈ ws.dropLast, keyword_kind w false = none) ∧
    (∀ w : Str, ∀ x ∈ ([w] : List Str).dropLast, keyword_kind x false = none) ∧
    (∀ w : Str, ∀ x ∈ ["unsigned".toList, w].dropLast, keyword_kind x false = none) ∧
    (∀ x ∈ ([] : List Str).dropLast, keyword_kind x false = none) ∧
    (∀ x ∈ (arg_words " const x".toList).dropLast, keyword_kind x false = none) ∧
    Command.Command fs raw "f(int a, const x)".toList
      = .error Failure.assertion_not_reached := by
  have htype : arg_type (split_string (arg_default (arg_help tok).2).2 ' ') = none :=
    (arg_type_eq_none_iff _).2 hnokw
  have hcmd := Command_of_scan_some fs raw proto p1 p2 hparen hp1 hp2
  have hloop : process_args fs raw (pre ++ tok :: post) [] =
      match process_args fs raw pre [] with
      | .ok acc1 => .error Failure.assertion_not_reached
      | .error e => .error e := by
    rw [process_args_append]
    cases process_args fs raw pre [] with
    | error e => rfl
    | ok acc1 =>
      simp only
      rw [process_args_cons, process_arg_untyped fs raw acc1 tok htype]
  refine ⟨?_, ?_, ?_, ?_, fun acc => process_arg_untyped fs raw acc tok htype,
    arg_type_eq_none_iff, ?_, ?_, ?_, by decide, rfl⟩
  · rw [hcmd]
    unfold Command.parse_body
    cases (split_string (substr (proto.map newline_to_space) 0 p1) ' ').getLast? with
    | none => exact ⟨_, rfl⟩
    | some name =>
      simp only
      rw [htoks, hloop]
      cases process_args fs raw pre [] with
      | error e => exact ⟨_, rfl⟩
      | ok acc1 => exact ⟨_, rfl⟩
  · intro name acc hname hpre
    rw [hcmd]
    unfold Command.parse_body
    rw [hname]
    simp only
    rw [htoks, hloop, hpre]
  · intro hname
    rw [hcmd]
    unfold Command.parse_body
    rw [hname]
  · intro name e hname hpre
    rw [hcmd]
    unfold Command.parse_body
    rw [hname]
    simp only
    rw [htoks, hloop, hpre]
  · intro w x hx
    cases hx
  · intro w x hx
    have hx1 : x = "unsigned".toList := by
      simpa [List.dropLast] using hx
    rw [hx1]
    rfl
  · intro x hx
    cases hx

/-- Witness of C10 on the prototypes `f(int a, x)`, whose second token is a
single word, and `f(int a, )`, whose second token has no word: construction
stops on the unreachable-code assertion. -/
theorem C10_untyped_token_fails_witness :
    arg_words " x".toList = ["x".toList] ∧
    Command.Command sample_from_string sample_raw "f(int a, x)".toList
      = .error Failure.assertion_not_reached ∧
    arg_words " ".toList = [] ∧
    Command.Command sample_from_string sample_raw "f(int a, )".toList
      = .error Failure.assertion_not_reached :=
  ⟨by decide,
   (C10_untyped_token_fails sample_from_string sample_raw "f(int a, x)".toList 1 10
      ["int a".toList] [] " x".toList (by decide) (by decide) (by decide) (by decide)
      (by decide)).2.1 "f".toList [Arg.Arg_int sample_raw "a".toList 0 []]
      (by decide) rfl,
   by decide,
   (C10_untyped_token_fails sample_from_string sample_raw "f(int a, )".toList 1 9
      ["int a".toList] [] " ".toList (by decide) (by decide) (by decide) (by decide)
      (by decide)).2.1 "f".toList [Arg.Arg_int sample_raw "a".toList 0 []]
      (by decide) rfl⟩

/-- Counterexample to C10 as stated: in `f(string s="aaa...a", x)` the token `x`
has no recognised type, yet construction stops earlier, on the assertion of the
string constructor, not on the unreachable-code assertion. -/
theorem C10_earlier_failure_wins :
    '(' ∈ untyped_after_long_string ∧
    (paren_scan (untyped_after_long_string.map newline_to_space)).p1 = some 1 ∧
    (paren_scan (untyped_after_long_string.map newline_to_space)).p2 = some 86 ∧
    split_string (substr (untyped_after_long_string.map newline_to_space) (1 + 1)
      (size_sub (size_sub 86 1) 1)) ',' = [long_string_token, " x".toList] ∧
    split_string (arg_default (arg_help " x".toList).2).2 ' ' = ["x".toList] ∧
    arg_type (split_string (arg_default (arg_help " x".toList).2).2 ' ') = none ∧
    (∀ w ∈ (arg_words " x".toList).dropLast, keyword_kind w false = none) ∧
    Command.Command sample_from_string sample_raw untyped_after_long_string
      = .error Failure.assertion_failed ∧
    Command.Command sample_from_string sample_raw untyped_after_long_string
      ≠ .error Failure.assertion_not_reached := by
  have h : Command.Command sample_from_string sample_raw untyped_after_long_string
      = .error Failure.assertion_failed := rfl
  refine ⟨by decide, by decide, by decide, by decide, by decide, by decide, by decide,
    h, ?_⟩
  rw [h]
  intro e
  cases e

/-! ## Order and number of the arguments -/

/-- The `switch` appends to `args_` what it would put into an empty list. -/
theorem make_arg_acc {F : Type} [Zero F] (fs : FromString F) (raw : RawArg F)
    (acc : List (Arg F)) (ty : Option ArgType) (name d help : Str) :
    make_arg fs raw acc ty name d help =
      match make_arg fs raw [] ty name d help with
      | .ok out => .ok (acc ++ out)
      | .error e => .error e := by
  cases ty with
  | none => rfl
  | some k =>
    cases k with
    | ARG_BOOL => rfl
    | ARG_INT => rfl
    | ARG_UINT => rfl
    | ARG_FLOAT => rfl
    | ARG_STRING =>
      unfold make_arg
      simp only
      by_cases hd : d ≠ []
      · rw [if_pos hd, if_pos hd]
        unfold Arg.Arg_string
        by_cases hl : (substr d 1 (size_sub d.length 2)).length < 63
        · rw [if_pos hl]; rfl
        · rw [if_neg hl]
      · rw [if_neg hd, if_neg hd]
        simp

/-- The loop body appends to `args_` what it would put into an empty list. -/
theorem process_arg_acc {F : Type} [Zero F] (fs : FromString F) (raw : RawArg F)
    (acc : List (Arg F)) (tok : Str) :
    process_arg fs raw acc tok =
      match process_arg fs raw [] tok with
      | .ok out => .ok (acc ++ out)
      | .error e => .error e := by
  cases hl : (split_string (arg_default (arg_help tok).2).2 ' ').getLast? with
  | none =>
    have hnil : split_string (arg_default (arg_help tok).2).2 ' ' = [] := by
      cases hw : split_string (arg_default (arg_help tok).2).2 ' ' with
      | nil => rfl
      | cons w l => rw [hw] at hl; simp [List.getLast?_eq_getLast] at hl
    rw [process_arg_of_no_word fs raw acc tok hnil, process_arg_of_no_word fs raw [] tok hnil]
  | some name =>
    rw [process_arg_of_getLast fs raw acc tok name hl,
      process_arg_of_getLast fs raw [] tok name hl]
    exact make_arg_acc fs raw acc _ name _ _

/-- What the loop body puts into an empty list. -/
theorem process_arg_output {F : Type} [Zero F] (fs : FromString F) (raw : RawArg F)
    (tok : Str) (out : List (Arg F)) (h : process_arg fs raw [] tok = .ok out) :
    token_output fs raw tok out := by
  refine ⟨h, ?_⟩
  cases hl : (split_string (arg_default (arg_help tok).2).2 ' ').getLast? with
  | none =>
    have hnil : split_string (arg_default (arg_help tok).2).2 ' ' = [] := by
      cases hw : split_string (arg_default (arg_help tok).2).2 ' ' with
      | nil => rfl
      | cons w l => rw [hw] at hl; simp [List.getLast?_eq_getLast] at hl
    rw [process_arg_of_no_word fs raw [] tok hnil] at h
    cases h
  | some name =>
    rw [process_arg_of_getLast fs raw [] tok name hl] at h
    cases hk : arg_type (split_string (arg_default (arg_help tok).2).2 ' ') with
    | none => rw [hk] at h; cases h
    | some k =>
      rw [hk] at h
      by_cases hs : k = ArgType.ARG_STRING ∧ (arg_default (arg_help tok).2).1 = []
      · left
        obtain ⟨hk1, hd⟩ := hs
        subst hk1
        refine ⟨⟨hk, hd⟩, ?_⟩
        rw [hd] at h
        injection h with h
        exact h.symm
      · right
        have hns : ¬ string_without_default tok := by
          rintro ⟨h1, h2⟩
          unfold arg_words at h1
          rw [hk] at h1
          exact hs ⟨Option.some.inj h1, h2⟩
        refine ⟨hns, ?_⟩
        rcases make_arg_ok fs raw [] out k name _ _ h with h0 | ⟨a, ha, hn, ht, _⟩
        · exfalso
          subst h0
          cases k with
          | ARG_BOOL => injection h with h; cases h
          | ARG_INT => injection h with h; cases h
          | ARG_UINT => injection h with h; cases h
          | ARG_FLOAT => injection h with h; cases h
          | ARG_STRING =>
            apply hs
            refine ⟨rfl, ?_⟩
            by_contra hd
            unfold make_arg at h
            simp only at h
            rw [if_pos hd] at h
            unfold Arg.Arg_string at h
            by_cases hlen : (substr (arg_default (arg_help tok).2).1 1
                (size_sub (arg_default (arg_help tok).2).1.length 2)).length < 63
            · rw [if_pos hlen] at h
              injection h with h
              cases h
            · rw [if_neg hlen] at h
              cases h
        · refine ⟨a, by simpa using ha, ?_, ?_⟩
          · unfold arg_words; rw [hl, hn]
          · unfold arg_words; rw [hk, ht]

/-- The loop appends, token by token and in order, what each token contributes. -/
theorem process_args_outputs {F : Type} [Zero F] (fs : FromString F) (raw : RawArg F)
    (toks : List Str) (acc res : List (Arg F))
    (h : process_args fs raw toks acc = .ok res) :
    ∃ outs : List (List (Arg F)),
      List.Forall₂ (token_output fs raw) toks outs ∧ res = acc ++ outs.flatten ∧
        outs.flatten.length ≤ toks.length := by
  induction toks generalizing acc with
  | nil =>
    injection h with h
    exact ⟨[], List.Forall₂.nil, by simp [h], by simp⟩
  | cons tok rest ih =>
    rw [process_args_cons, process_arg_acc] at h
    cases ho : process_arg fs raw [] tok with
    | error e => rw [ho] at h; cases h
    | ok out =>
      rw [ho] at h
      simp only at h
      obtain ⟨outs, hall, hres, hlen⟩ := ih (acc ++ out) h
      have hout := process_arg_output fs raw tok out ho
      refine ⟨out :: outs, List.Forall₂.cons hout hall, ?_, ?_⟩
      · rw [hres]; simp
      · have h1 : out.length ≤ 1 := by
          rcases hout.2 with ⟨_, h0⟩ | ⟨_, a, h0, _⟩ <;> simp [h0]
        simp only [List.flatten_cons, List.length_append, List.length_cons]
        omega

/-- The arguments of a successfully parsed prototype are the contributions of
its tokens, in order. -/
theorem parsed_args_are_token_outputs {F : Type} [Zero F] (fs : FromString F)
    (raw : RawArg F) (proto : Str) (c : Command F) (p1 p2 : Nat)
    (hparen : '(' ∈ proto)
    (hp1 : (paren_scan (proto.map newline_to_space)).p1 = some p1)
    (hp2 : (paren_scan (proto.map newline_to_space)).p2 = some p2)
    (hc : Command.Command fs raw proto = .ok c) :
    ∃ outs : List (List (Arg F)),
      List.Forall₂ (token_output fs raw)
        (split_string (substr (proto.map newline_to_space) (p1 + 1)
          (size_sub (size_sub p2 p1) 1)) ',') outs ∧
      c.args_ = outs.flatten ∧
      c.args_.length ≤ (split_string (substr (proto.map newline_to_space) (p1 + 1)
          (size_sub (size_sub p2 p1) 1)) ',').length := by
  obtain ⟨q1, q2, name, args, h1, h2, _, hargs, hceq⟩ :=
    Command_ok_inv fs raw proto c hparen hc
  rw [hp1] at h1
  rw [hp2] at h2
  cases h1
  cases h2
  obtain ⟨outs, hall, hres, hlen⟩ := process_args_outputs fs raw _ [] args hargs
  have hargs_eq : c.args_ = outs.flatten := by
    rw [hceq]
    simpa using hres
  exact ⟨outs, hall, hargs_eq, by rw [hargs_eq]; exact hlen⟩

/-- C11: in a successfully parsed prototype the arguments are, in the order of
the comma-separated tokens, what each token contributes: nothing for a string
token without default, otherwise exactly one argument (named by the last word
of its token); hence there are at most as many arguments as tokens. -/
theorem C11_arguments_follow_tokens {F : Type} [Zero F] (fs : FromString F)
    (raw : RawArg F) (proto : Str) (c : Command F) (p1 p2 : Nat)
    (hparen : '(' ∈ proto)
    (hp1 : (paren_scan (proto.map newline_to_space)).p1 = some p1)
    (hp2 : (paren_scan (proto.map newline_to_space)).p2 = some p2)
    (hc : Command.Command fs raw proto = .ok c) :
    ∃ outs : List (List (Arg F)),
      List.Forall₂ (token_output fs raw)
        (split_string (substr (proto.map newline_to_space) (p1 + 1)
          (size_sub (size_sub p2 p1) 1)) ',') outs ∧
      c.args_ = outs.flatten ∧
      c.args_.length ≤ (split_string (substr (proto.map newline_to_space) (p1 + 1)
          (size_sub (size_sub p2 p1) 1)) ',').length :=
  parsed_args_are_token_outputs fs raw proto c p1 p2 hparen hp1 hp2 hc

/-- Witness of C11 on `f(int a, string s, float t=0.5)`: three tokens, two
arguments `a` and `t` in that order, the string token without default adding
none. -/
theorem C11_arguments_follow_tokens_witness :
    (∃ c, Command.Command sample_from_string sample_raw
        "f(int a, string s, float t=0.5)".toList = .ok c ∧
      c.args_.map Arg.name = ["a".toList, "t".toList]) ∧
    ∃ outs : List (List (Arg Int)),
      List.Forall₂ (token_output sample_from_string sample_raw)
        ["int a".toList, " string s".toList, " float t=0.5".toList] outs ∧
      [Arg.Arg_int sample_raw "a".toList 0 [], Arg.Arg_float sample_raw "t".toList 5 []]
        = outs.flatten :=
  ⟨⟨_, rfl, rfl⟩,
   (C11_arguments_follow_tokens sample_from_string sample_raw
      "f(int a, string s, float t=0.5)".toList
      { name_ := "f".toList, help_ := [],
        args_ := [Arg.Arg_int sample_raw "a".toList 0 [],
                  Arg.Arg_float sample_raw "t".toList 5 []],
        auto_create_args_ := false }
      1 30 (by decide) (by decide) (by decide) rfl).imp
     (fun _ h => ⟨h.1, h.2.1⟩)⟩

/-! ## Help texts and default values -/

/-- What the search loop returns is the first occurrence, counted from `i`. -/
theorem find_aux_eq_some (c : Char) (s : Str) (i k : Nat) :
    find_aux c s i = some k ↔ i ≤ k ∧ first_index s c (k - i) := by
  induction s generalizing i with
  | nil => simp [find_aux, first_index]
  | cons x xs ih =>
    unfold find_aux
    by_cases hx : x = c
    · rw [if_pos hx]
      constructor
      · intro h
        injection h with h
        subst h
        subst hx
        refine ⟨Nat.le_refl _, ?_⟩
        simp [first_index]
      · rintro ⟨hik, h1, h2⟩
        have hz : k - i = 0 := by
          by_contra hne
          obtain ⟨m, hm⟩ := Nat.exists_eq_succ_of_ne_zero hne
          rw [hm, List.take_succ_cons] at h2
          exact h2 (by rw [hx]; exact List.mem_cons_self _ _)
        congr 1
        omega
    · rw [if_neg hx, ih]
      constructor
      · rintro ⟨hik, h1, h2⟩
        have hk : k - i = (k - (i + 1)) + 1 := by omega
        refine ⟨by omega, ?_, ?_⟩
        · rw [hk, List.getElem?_cons_succ]; exact h1
        · rw [hk, List.take_succ_cons]
          intro hm
          rcases List.mem_cons.1 hm with e | hm
          · exact hx e.symm
          · exact h2 hm
      · rintro ⟨hik, h1, h2⟩
        have hne : k - i ≠ 0 := by
          intro hz
          rw [hz] at h1
          simp at h1
          exact hx h1
        obtain ⟨m, hm⟩ := Nat.exists_eq_succ_of_ne_zero hne
        have hm2 : k - (i + 1) = m := by omega
        rw [hm, List.getElem?_cons_succ] at h1
        rw [hm, List.take_succ_cons] at h2
        refine ⟨by omega, ?_, ?_⟩
        · rw [hm2]; exact h1
        · rw [hm2]; exact fun hmem => h2 (List.mem_cons_of_mem _ hmem)

/-- The call `s.find(c)` returns the index of the first occurrence of `c`. -/
theorem find_eq_some (s : Str) (c : Char) (k : Nat) :
    find s c = some k ↔ first_index s c k := by
  unfold find
  rw [find_aux_eq_some]
  simp

theorem first_index_lt (s : Str) (c : Char) (k : Nat) (h : first_index s c k) :
    k < s.length := by
  by_contra hn
  have h2 : s[k]? = none := List.getElem?_eq_none (by omega)
  rw [first_index, h2] at h
  cases h.1

/-- Help extraction on a token whose first `[` is at `bq1` and first `]` at `bq2`. -/
theorem arg_help_of_first_index (tok : Str) (bq1 bq2 : Nat)
    (h1 : first_index tok '[' bq1) (h2 : first_index tok ']' bq2) :
    arg_help tok =
      (substr tok (bq1 + 1) (size_sub (size_sub bq2 bq1) 1), tok.take bq1) := by
  unfold arg_help
  rw [(find_eq_some tok '[' bq1).2 h1, (find_eq_some tok ']' bq2).2 h2]
  simp [substr]

/-- Help extraction on a token that lacks one of the two brackets. -/
theorem arg_help_of_not_mem (t : Str) (h : '[' ∉ t ∨ ']' ∉ t) : arg_help t = ([], t) := by
  unfold arg_help
  rcases h with h | h
  · rw [(find_eq_none t '[').2 h]
  · rw [(find_eq_none t ']').2 h]
    cases find t '[' <;> rfl

/-- C12 (amended): for a token whose first `]` comes after its first `[`, the
help text is exactly the characters strictly between the two, and the words,
hence name and kind, and the default value are computed from the text before
that `[` alone: any token with the same text before its first `[` has the same
words and the same default.  A token that lacks `[` or `]` has empty help and
is kept whole.  The prototype `void bar(bool flag=true [enable it])` yields the
single boolean argument `flag` with the default read from `true` and the help
`enable it`. -/
theorem C12_argument_help {F : Type} [Zero F] (fs : FromString F) (raw : RawArg F)
    (tok : Str) (bq1 bq2 : Nat)
    (h1 : first_index tok '[' bq1) (h2 : first_index tok ']' bq2) (hlt : bq1 < bq2) :
    (arg_help tok).1 = (tok.drop (bq1 + 1)).take (bq2 - bq1 - 1) ∧
    (arg_help tok).2 = tok.take bq1 ∧
    (∀ (tok2 : Str) (k1 k2 : Nat), first_index tok2 '[' k1 → first_index tok2 ']' k2 →
      tok2.take k1 = tok.take bq1 →
      arg_words tok2 = arg_words tok ∧
      (arg_default (arg_help tok2).2).1 = (arg_default (arg_help tok).2).1) ∧
    (∀ t : Str, '[' ∉ t ∨ ']' ∉ t → arg_help t = ([], t)) ∧
    Command.Command fs raw "void bar(bool flag=true [enable it])".toList =
      .ok { name_ := "bar".toList, help_ := [],
            args_ := [Arg.Arg_bool raw "flag".toList (fs.to_bool "true".toList)
                        "enable it".toList],
            auto_create_args_ := false } := by
  have hh := arg_help_of_first_index tok bq1 bq2 h1 h2
  have hsub : size_sub (size_sub bq2 bq1) 1 = bq2 - bq1 - 1 := by
    unfold size_sub
    rw [if_pos (Nat.le_of_lt hlt), if_pos (by omega)]
  refine ⟨?_, ?_, ?_, arg_help_of_not_mem, rfl⟩
  · rw [hh, hsub]
    rfl
  · rw [hh]
  · intro tok2 k1 k2 g1 g2 htake
    have hh2 := arg_help_of_first_index tok2 k1 k2 g1 g2
    unfold arg_words
    rw [hh, hh2]
    simp only
    rw [htake]
    exact ⟨rfl, rfl⟩

/-- Witness of C12 on the token `bool flag=true [enable it]`. -/
theorem C12_argument_help_witness :
    (arg_help "bool flag=true [enable it]".toList).1 = "enable it".toList ∧
    (arg_help "bool flag=true [enable it]".toList).2 = "bool flag=true ".toList :=
  have h := C12_argument_help sample_from_string sample_raw
    "bool flag=true [enable it]".toList 15 25 (by decide) (by decide) (by decide)
  ⟨h.1.trans (by decide), h.2.1.trans (by decide)⟩

/-- Counterexample to C12 as stated: the token `int x ] [h] [` contains a `[`
(index 8) followed later by a `]` (index 10), but its first `]` (index 6)
precedes its first `[`; the help is then all the text after that `[`, namely
`h] [`, and not the bracketed `h`.  The prototype `f(int x ] [h] [)` parses
with that help. -/
theorem C12_stray_bracket_help :
    stray_bracket_token[8]? = some '[' ∧ stray_bracket_token[10]? = some ']' ∧
    first_index stray_bracket_token '[' 8 ∧ first_index stray_bracket_token ']' 6 ∧
    (arg_help stray_bracket_token).1 = "h] [".toList ∧
    (arg_help stray_bracket_token).1 ≠ "h".toList ∧
    (∃ c, Command.Command sample_from_string sample_raw
        ("f(".toList ++ stray_bracket_token ++ ")".toList) = .ok c ∧
      c.args_.map Arg.help = ["h] [".toList]) :=
  ⟨by decide, by decide, by decide, by decide, by decide, by decide, ⟨_, rfl, rfl⟩⟩

/-! ## Trimming -/

theorem trim_begin_eq_length_takeWhile (l : Str) :
    trim_begin l = (l.takeWhile (fun c => decide (c = ' '))).length := by
  induction l with
  | nil => rfl
  | cons x xs ih =>
    unfold trim_begin
    by_cases hx : x = ' '
    · simp [hx, ih]
    · simp [hx]

theorem drop_trim_begin (l : Str) :
    l.drop (trim_begin l) = l.dropWhile (fun c => decide (c = ' ')) := by
  induction l with
  | nil => rfl
  | cons x xs ih =>
    unfold trim_begin
    by_cases hx : x = ' '
    · simp [hx, ih]
    · simp [hx]

theorem trim_begin_le (l : Str) : trim_begin l ≤ l.length := by
  induction l with
  | nil => simp [trim_begin]
  | cons x xs ih =>
    unfold trim_begin
    by_cases hx : x = ' '
    · simp [hx]; exact ih
    · simp [hx]

theorem trim_begin_append_of_exists (a b : Str) (h : ∃ x ∈ a, x ≠ ' ') :
    trim_begin (a ++ b) = trim_begin a := by
  induction a with
  | nil => obtain ⟨x, hx, _⟩ := h; cases hx
  | cons y ys ih =>
    by_cases hy : y = ' '
    · have h2 : ∃ x ∈ ys, x ≠ ' ' := by
        obtain ⟨x, hx, hne⟩ := h
        rcases List.mem_cons.1 hx with e | hm
        · exact absurd (e ▸ hy) hne
        · exact ⟨x, hm, hne⟩
      simp [trim_begin, hy, ih h2]
    · simp [trim_begin, hy]

theorem trim_begin_lt_of_exists (a : Str) (h : ∃ x ∈ a, x ≠ ' ') :
    trim_begin a < a.length := by
  induction a with
  | nil => obtain ⟨x, hx, _⟩ := h; cases hx
  | cons y ys ih =>
    by_cases hy : y = ' '
    · have h2 : ∃ x ∈ ys, x ≠ ' ' := by
        obtain ⟨x, hx, hne⟩ := h
        rcases List.mem_cons.1 hx with e | hm
        · exact absurd (e ▸ hy) hne
        · exact ⟨x, hm, hne⟩
      have := ih h2
      simp [trim_begin, hy]
      omega
    · simp [trim_begin, hy]

theorem trim_begin_eq_length_of_all (a : Str) (h : ∀ x ∈ a, x = ' ') :
    trim_begin a = a.length := by
  induction a with
  | nil => rfl
  | cons y ys ih =>
    have hy : y = ' ' := h y (List.mem_cons_self _ _)
    simp [trim_begin, hy, ih (fun x hx => h x (List.mem_cons_of_mem _ hx))]

/-- What is left after the leading spaces starts with a character that is no space. -/
theorem dropWhile_space_head (l : Str) (x : Char) (xs : Str)
    (h : l.dropWhile (fun c => decide (c = ' ')) = x :: xs) : x ≠ ' ' := by
  induction l with
  | nil => cases h
  | cons y ys ih =>
    by_cases hy : y = ' '
    · simp [List.dropWhile, hy] at h
      exact ih h
    · simp [List.dropWhile, hy] at h
      rw [← h.1]; exact hy

/-- Cutting the trailing spaces off by their number. -/
theorem take_length_sub_trim_begin_reverse (m : Str) :
    m.take (m.length - trim_begin m.reverse)
      = ((m.reverse.dropWhile (fun c => decide (c = ' ')))).reverse := by
  have hsplit := List.takeWhile_append_dropWhile (fun c => decide (c = ' ')) m.reverse
  have hm : m = (m.reverse.dropWhile (fun c => decide (c = ' '))).reverse
      ++ (m.reverse.takeWhile (fun c => decide (c = ' '))).reverse := by
    rw [← List.reverse_append, hsplit, List.reverse_reverse]
  have hlen : m.length - trim_begin m.reverse
      = ((m.reverse.dropWhile (fun c => decide (c = ' '))).reverse).length := by
    have h1 := congrArg List.length hsplit
    rw [List.length_append, List.length_reverse] at h1
    rw [trim_begin_eq_length_takeWhile, List.length_reverse]
    omega
  rw [hlen]
  have key : ∀ A B : Str, (A ++ B).take A.length = A := fun A B => List.take_left' rfl
  have h2 := key (m.reverse.dropWhile (fun c => decide (c = ' '))).reverse
    (m.reverse.takeWhile (fun c => decide (c = ' '))).reverse
  rw [← hm] at h2
  exact h2

/-- The function `trim_spaces` removes the leading and the trailing spaces. -/
theorem trim_spaces_eq_strip (l : Str) : trim_spaces l = strip_spaces l := by
  have hsplit := List.takeWhile_append_dropWhile (fun c => decide (c = ' ')) l
  have hi : trim_begin l + (l.dropWhile (fun c => decide (c = ' '))).length = l.length := by
    have h1 := congrArg List.length hsplit
    rw [List.length_append] at h1
    rw [trim_begin_eq_length_takeWhile]
    exact h1
  unfold trim_spaces strip_spaces trim_end
  simp only
  cases hm : l.dropWhile (fun c => decide (c = ' ')) with
  | nil =>
    rw [hm] at hi
    have hnot : ¬ (l.length - trim_begin l.reverse > trim_begin l) := by
      simp only [List.length_nil, Nat.add_zero] at hi
      omega
    rw [if_neg hnot]
    rfl
  | cons x xs =>
    have hx : x ≠ ' ' := dropWhile_space_head l x xs hm
    have hrev : l.reverse = (x :: xs).reverse
        ++ (l.takeWhile (fun c => decide (c = ' '))).reverse := by
      rw [← List.reverse_append, ← hm, hsplit]
    have hex : ∃ y ∈ (x :: xs).reverse, y ≠ ' ' :=
      ⟨x, by simp, hx⟩
    have ht : trim_begin l.reverse = trim_begin (x :: xs).reverse := by
      rw [hrev]
      exact trim_begin_append_of_exists _ _ hex
    have hlt := trim_begin_lt_of_exists _ hex
    rw [List.length_reverse] at hlt
    rw [hm] at hi
    have hgt : l.length - trim_begin l.reverse > trim_begin l := by
      rw [ht]; omega
    rw [if_pos hgt]
    unfold substr size_sub
    rw [if_pos (Nat.le_of_lt hgt), drop_trim_begin, hm, ht]
    have hcount : l.length - trim_begin (x :: xs).reverse - trim_begin l
        = (x :: xs).length - trim_begin (x :: xs).reverse := by
      omega
    rw [hcount]
    exact take_length_sub_trim_begin_reverse (x :: xs)

theorem mem_takeWhile_space (l : Str) (c : Char)
    (h : c ∈ l.takeWhile (fun c => decide (c = ' '))) : c = ' ' := by
  have := List.mem_takeWhile_imp h
  simpa using this

theorem dropWhile_space_of_head (l : Str) (h : ∀ x xs, l = x :: xs → x ≠ ' ') :
    l.dropWhile (fun c => decide (c = ' ')) = l := by
  cases l with
  | nil => rfl
  | cons y ys => simp [List.dropWhile, h y ys rfl]

/-- The stripped text sits in the original between two runs of spaces, and
neither starts nor ends with a space. -/
theorem strip_spaces_spec (l : Str) :
    ∃ a b : Str, l = a ++ strip_spaces l ++ b ∧ (∀ c ∈ a, c = ' ') ∧ (∀ c ∈ b, c = ' ') ∧
      (∀ x xs, strip_spaces l = x :: xs → x ≠ ' ') ∧
      (∀ x xs, (strip_spaces l).reverse = x :: xs → x ≠ ' ') := by
  have h1 := List.takeWhile_append_dropWhile (fun c => decide (c = ' ')) l
  have h2 := List.takeWhile_append_dropWhile (fun c => decide (c = ' '))
    (l.dropWhile (fun c => decide (c = ' '))).reverse
  have hm : l.dropWhile (fun c => decide (c = ' ')) = strip_spaces l
      ++ ((l.dropWhile (fun c => decide (c = ' '))).reverse.takeWhile
            (fun c => decide (c = ' '))).reverse := by
    unfold strip_spaces
    rw [← List.reverse_append, h2, List.reverse_reverse]
  have hlast : ∀ x xs, (strip_spaces l).reverse = x :: xs → x ≠ ' ' := by
    intro x xs hx
    unfold strip_spaces at hx
    rw [List.reverse_reverse] at hx
    exact dropWhile_space_head _ x xs hx
  refine ⟨l.takeWhile (fun c => decide (c = ' ')),
    ((l.dropWhile (fun c => decide (c = ' '))).reverse.takeWhile
      (fun c => decide (c = ' '))).reverse, ?_, ?_, ?_, ?_, hlast⟩
  · rw [List.append_assoc, ← hm, h1]
  · exact fun c hc => mem_takeWhile_space l c hc
  · intro c hc
    exact mem_takeWhile_space _ c (List.mem_reverse.1 hc)
  · intro x xs hx
    rw [hx, List.cons_append] at hm
    exact dropWhile_space_head l x _ hm

theorem strip_spaces_idem (l : Str) : strip_spaces (strip_spaces l) = strip_spaces l := by
  obtain ⟨_, _, _, _, _, hhead, hlast⟩ := strip_spaces_spec l
  have e1 := dropWhile_space_of_head (strip_spaces l) hhead
  have e2 := dropWhile_space_of_head (strip_spaces l).reverse hlast
  show ((List.dropWhile _ (strip_spaces l)).reverse.dropWhile _).reverse = strip_spaces l
  rw [e1, e2, List.reverse_reverse]

theorem trim_spaces_of_all_spaces (l : Str) (h : ∀ c ∈ l, c = ' ') : trim_spaces l = [] := by
  unfold trim_spaces trim_end
  simp only
  rw [trim_begin_eq_length_of_all l h]
  rw [if_neg (by omega)]

/-- Default extraction on a text whose first equal sign is at `eq`. -/
theorem arg_default_of_first_index (arg : Str) (eq : Nat) (h : first_index arg '=' eq) :
    arg_default arg = (strip_spaces (arg.drop (eq + 1)), arg.take eq) := by
  have hlt := first_index_lt arg '=' eq h
  unfold arg_default
  rw [(find_eq_some arg '=' eq).2 h]
  simp only
  have hsub : size_sub (size_sub arg.length eq) 1 = arg.length - (eq + 1) := by
    unfold size_sub
    rw [if_pos (Nat.le_of_lt hlt), if_pos (by omega)]
    omega
  rw [hsub, trim_spaces_eq_strip]
  unfold substr
  rw [List.drop_zero]
  congr 2
  apply List.take_of_length_le
  rw [List.length_drop]

/-- C13: when the text of a token (help removed) has its first equal sign at
`eq`, the default-value literal is the text after it with all leading and
trailing spaces removed and nothing else changed, and the words, hence name
and kind, are those of the text before it.  The literal lies in the text after
the equal sign between two runs of spaces and neither starts nor ends with a
space.  `trim_spaces` gives the empty string on spaces only and is idempotent. -/
theorem C13_default_literal (tok : Str) (eq : Nat)
    (h : first_index (arg_help tok).2 '=' eq) :
    (arg_default (arg_help tok).2).1 = strip_spaces ((arg_help tok).2.drop (eq + 1)) ∧
    (arg_default (arg_help tok).2).2 = (arg_help tok).2.take eq ∧
    arg_words tok = split_string ((arg_help tok).2.take eq) ' ' ∧
    (∃ a b : Str, (arg_help tok).2.drop (eq + 1)
        = a ++ (arg_default (arg_help tok).2).1 ++ b ∧
      (∀ c ∈ a, c = ' ') ∧ (∀ c ∈ b, c = ' ') ∧
      (∀ x xs, (arg_default (arg_help tok).2).1 = x :: xs → x ≠ ' ') ∧
      (∀ x xs, (arg_default (arg_help tok).2).1.reverse = x :: xs → x ≠ ' ')) ∧
    (∀ l : Str, trim_spaces l = strip_spaces l) ∧
    (∀ l : Str, (∀ c ∈ l, c = ' ') → trim_spaces l = []) ∧
    (∀ l : Str, trim_spaces (trim_spaces l) = trim_spaces l) := by
  have hd := arg_default_of_first_index _ eq h
  refine ⟨by rw [hd], by rw [hd], by unfold arg_words; rw [hd], ?_,
    trim_spaces_eq_strip, trim_spaces_of_all_spaces, ?_⟩
  · rw [hd]
    exact strip_spaces_spec _
  · intro l
    rw [trim_spaces_eq_strip, trim_spaces_eq_strip, strip_spaces_idem]

/-- Witness of C13 on the token `float t =  0.5  [step]`: the literal is `0.5`
and the words are `float` and `t`. -/
theorem C13_default_literal_witness :
    (arg_default (arg_help "float t =  0.5  [step]".toList).2).1 = "0.5".toList ∧
    arg_words "float t =  0.5  [step]".toList = ["float".toList, "t".toList] :=
  have h := C13_default_literal "float t =  0.5  [step]".toList 8 (by decide)
  ⟨h.1.trans (by decide), h.2.2.1.trans (by decide)⟩

/-! ## Help of the command -/

/-- The call `s.find(c, pos)` returns the first occurrence at or after `pos`. -/
theorem find_from_eq_some (s : Str) (c : Char) (pos k : Nat) :
    find_from s c pos = some k ↔ first_index_from s c pos k := by
  unfold find_from first_index_from
  rw [find_aux_eq_some]
  unfold first_index
  constructor
  · rintro ⟨h1, h2, h3⟩
    refine ⟨h1, ?_, h3⟩
    rw [List.getElem?_drop] at h2
    rw [← h2]
    congr 1
    omega
  · rintro ⟨h1, h2, h3⟩
    refine ⟨h1, ?_, h3⟩
    rw [List.getElem?_drop, ← h2]
    congr 1
    omega

theorem find_from_eq_none (s : Str) (c : Char) (pos : Nat) :
    find_from s c pos = none ↔ c ∉ s.drop pos :=
  find_aux_eq_none c (s.drop pos) pos

/-- C14 (amended): in a successfully parsed prototype (newlines read as
spaces), when the first `]` at or after the closing parenthesis comes after
the first `[` at or after it, the help of the command is exactly the
characters strictly between the two; when no `[` or no `]` occurs from the
closing parenthesis on, the help is empty. -/
theorem C14_command_help {F : Type} [Zero F] (fs : FromString F)
    (raw : RawArg F) (proto : Str) (c : Command F) (p2 : Nat)
    (hparen : '(' ∈ proto)
    (hp2 : (paren_scan (proto.map newline_to_space)).p2 = some p2)
    (hc : Command.Command fs raw proto = .ok c) :
    (∀ bq1 bq2, first_index_from (proto.map newline_to_space) '[' p2 bq1 →
      first_index_from (proto.map newline_to_space) ']' p2 bq2 → bq1 < bq2 →
      c.help_ = ((proto.map newline_to_space).drop (bq1 + 1)).take (bq2 - bq1 - 1)) ∧
    ('[' ∉ (proto.map newline_to_space).drop p2 ∨
      ']' ∉ (proto.map newline_to_space).drop p2 → c.help_ = []) := by
  obtain ⟨q1, q2, name, args, _, h2, _, _, hceq⟩ :=
    Command_ok_inv fs raw proto c hparen hc
  rw [hp2] at h2
  cases h2
  have hhelp : c.help_ = command_help (proto.map newline_to_space) p2 := by rw [hceq]
  constructor
  · intro bq1 bq2 g1 g2 hlt
    rw [hhelp]
    unfold command_help
    rw [(find_from_eq_some _ _ _ _).2 g1, (find_from_eq_some _ _ _ _).2 g2]
    simp only
    unfold substr size_sub
    rw [if_pos (Nat.le_of_lt hlt), if_pos (by omega)]
  · intro hno
    rw [hhelp]
    unfold command_help
    rcases hno with hno | hno
    · rw [(find_from_eq_none _ _ _).2 hno]
    · rw [(find_from_eq_none _ _ _).2 hno]
      cases find_from (proto.map newline_to_space) '[' p2 <;> rfl

/-- Witness of C14 on `f(int x=3) [does f]` (help `does f`) and on
`f(int x=3)` (empty help). -/
theorem C14_command_help_witness :
    (∃ c, Command.Command sample_from_string sample_raw "f(int x=3) [does f]".toList
        = .ok c ∧ c.help_ = "does f".toList) ∧
    (∃ c, Command.Command sample_from_string sample_raw "f(int x=3)".toList
        = .ok c ∧ c.help_ = []) :=
  ⟨⟨_, rfl,
    ((C14_command_help sample_from_string sample_raw "f(int x=3) [does f]".toList
      { name_ := "f".toList, help_ := "does f".toList,
        args_ := [Arg.Arg_int sample_raw "x".toList 3 []], auto_create_args_ := false }
      9 (by decide) (by decide) rfl).1 11 18 (by decide) (by decide) (by decide)).trans
      (by decide)⟩,
   ⟨_, rfl,
    (C14_command_help sample_from_string sample_raw "f(int x=3)".toList
      { name_ := "f".toList, help_ := [],
        args_ := [Arg.Arg_int sample_raw "x".toList 3 []], auto_create_args_ := false }
      9 (by decide) (by decide) rfl).2 (Or.inl (by decide))⟩⟩

/-- Counterexample to C14 as stated: in `f(int x) ] [h]` a `[` (index 11) and a
later `]` (index 13) follow the closing parenthesis (index 7), yet the help of
the command is `h]` and not `h`: the first `]` after the parenthesis (index 9)
precedes the `[`. -/
theorem C14_stray_bracket_help :
    (paren_scan (stray_bracket_prototype.map newline_to_space)).p2 = some 7 ∧
    stray_bracket_prototype[11]? = some '[' ∧ stray_bracket_prototype[13]? = some ']' ∧
    first_index_from stray_bracket_prototype '[' 7 11 ∧
    first_index_from stray_bracket_prototype ']' 7 9 ∧
    (∃ c, Command.Command sample_from_string sample_raw stray_bracket_prototype = .ok c ∧
      c.help_ = "h]".toList ∧ c.help_ ≠ "h".toList) :=
  ⟨by decide, by decide, by decide, by decide, by decide, ⟨_, rfl, rfl, by decide⟩⟩

/-! ## Reading integer arguments -/

/-- C15: for an argument of unsigned kind at index `i` with stored value `v`,
`uint_arg_by_index` and `int_arg_by_index` both succeed; they return 0 with one
warning when `v` is negative, and `v` without warning otherwise. -/
theorem C15_unsigned_read_clamps {F : Type} (c : Command F) (i : Nat) (a : Arg F)
    (hi : c.args_[i]? = some a) (ht : a.type = ArgType.ARG_UINT) :
    (a.val.int_val < 0 →
      c.uint_arg_by_index i = .ok { result := 0, warnings :=
        ["Argument ".toList ++ a.name ++ "queried as uint had a negative value".toList] } ∧
      c.int_arg_by_index i = .ok { result := 0, warnings :=
        ["Argument ".toList ++ a.name ++ "Of type UNIT had a negative value".toList] }) ∧
    (0 ≤ a.val.int_val →
      c.uint_arg_by_index i = .ok { result := a.val.int_val.toNat, warnings := [] } ∧
      ((a.val.int_val.toNat : Nat) : Int) = a.val.int_val ∧
      c.int_arg_by_index i = .ok { result := a.val.int_val, warnings := [] }) := by
  have hfind : c.find_arg_by_index i = .ok a := by
    unfold Command.find_arg_by_index
    rw [hi]
  have hty : a.type = ArgType.ARG_INT ∨ a.type = ArgType.ARG_UINT := Or.inr ht
  constructor
  · intro hneg
    constructor
    · unfold Command.uint_arg_by_index
      rw [hfind]
      simp only
      rw [if_pos hty, if_pos hneg]
    · unfold Command.int_arg_by_index
      rw [hfind]
      simp only
      rw [if_pos hty, if_pos ⟨ht, hneg⟩]
  · intro hpos
    have hnot : ¬ a.val.int_val < 0 := by omega
    refine ⟨?_, Int.toNat_of_nonneg hpos, ?_⟩
    · unfold Command.uint_arg_by_index
      rw [hfind]
      simp only
      rw [if_pos hty, if_neg hnot]
    · unfold Command.int_arg_by_index
      rw [hfind]
      simp only
      rw [if_pos hty, if_neg (fun h => hnot h.2)]

/-- Witness of C15 on an unsigned argument holding -5 (read back as 0 with a
warning) and on one holding 3 (read back as 3). -/
theorem C15_unsigned_read_clamps_witness :
    sample_negative_uint.uint_arg_by_index 0 = .ok { result := 0, warnings :=
      ["Argument nqueried as uint had a negative value".toList] } ∧
    sample_negative_uint.int_arg_by_index 0 = .ok { result := 0, warnings :=
      ["Argument nOf type UNIT had a negative value".toList] } ∧
    ({ sample_command with args_ := [Arg.Arg_uint sample_raw "n".toList 3 []] }
      : Command Int).uint_arg_by_index 0 = .ok { result := 3, warnings := [] } :=
  have h := (C15_unsigned_read_clamps sample_negative_uint 0 _ rfl rfl).1 (by decide)
  ⟨h.1, h.2,
   ((C15_unsigned_read_clamps
      ({ sample_command with args_ := [Arg.Arg_uint sample_raw "n".toList 3 []] }
        : Command Int) 0 _ rfl rfl).2 (by decide)).1⟩

/-! ## Stored and displayed names -/

/-- Every field produced by the split is a piece of the text read. -/
theorem split_aux_piece (sep : Char) (s cur w : Str) (h : w ∈ split_aux sep s cur) :
    w <:+: cur ++ s := by
  induction s generalizing cur with
  | nil =>
    by_cases hc : cur = []
    · simp [split_aux, hc] at h
    · simp [split_aux, hc] at h
      subst h
      simp
  | cons x xs ih =>
    by_cases hx : x = sep
    · by_cases hc : cur = []
      · simp only [split_aux, hx, hc, if_true] at h
        have := ih [] h
        subst hc
        simp only [List.nil_append] at this ⊢
        exact this.trans (List.suffix_cons x xs).isInfix
      · simp only [split_aux, hx, hc, if_true, if_false, List.mem_cons] at h
        rcases h with rfl | h
        · exact (List.prefix_append _ _).isInfix
        · have := ih [] h
          simp only [List.nil_append] at this
          exact this.trans
            ((List.suffix_cons x xs).isInfix.trans (List.suffix_append cur (x :: xs)).isInfix)
    · simp only [split_aux, hx, if_false] at h
      have := ih (cur ++ [x]) h
      simpa using this

theorem split_string_piece (s : Str) (sep : Char) (w : Str) (h : w ∈ split_string s sep) :
    w <:+: s := by
  have := split_aux_piece sep s [] w h
  simpa using this

theorem substr_piece (s : Str) (pos n : Nat) : substr s pos n <:+: s :=
  (List.take_prefix _ _).isInfix.trans (List.drop_suffix _ _).isInfix

theorem arg_help_keeps_start (tok : Str) : (arg_help tok).2 <+: tok := by
  unfold arg_help
  split
  · unfold substr
    rw [List.drop_zero]
    exact List.take_prefix _ _
  · exact List.prefix_refl _

theorem arg_default_keeps_start (arg : Str) : (arg_default arg).2 <+: arg := by
  unfold arg_default
  split
  · unfold substr
    rw [List.drop_zero]
    exact List.take_prefix _ _
  · exact List.prefix_refl _

/-- The words of a token are pieces of the token. -/
theorem arg_words_piece (tok w : Str) (h : w ∈ arg_words tok) : w <:+: tok :=
  (split_string_piece _ _ w h).trans
    (((arg_default_keeps_start _).trans (arg_help_keeps_start tok)).isInfix)

/-- The arguments come from the tokens: each is named by the last word of one. -/
theorem flatten_outputs_name {F : Type} [Zero F] (fs : FromString F) (raw : RawArg F)
    (toks : List Str) (outs : List (List (Arg F)))
    (h : List.Forall₂ (token_output fs raw) toks outs) (a : Arg F) (ha : a ∈ outs.flatten) :
    ∃ tok ∈ toks, (arg_words tok).getLast? = some a.name := by
  induction h with
  | nil => simp at ha
  | @cons tok out toks1 outs1 hout _ ih =>
    rw [List.flatten_cons, List.mem_append] at ha
    rcases ha with ha | ha
    · rcases hout.2 with ⟨_, h0⟩ | ⟨_, b, h0, hn, _⟩
      · rw [h0] at ha; cases ha
      · rw [h0, List.mem_singleton] at ha
        subst ha
        exact ⟨tok, List.mem_cons_self _ _, hn⟩
    · obtain ⟨t, ht, hn⟩ := ih ha
      exact ⟨t, List.mem_cons_of_mem _ ht, hn⟩

theorem remove_underscores_no_underscore (s : Str) : '_' ∉ remove_underscores s := by
  unfold remove_underscores
  intro h
  obtain ⟨x, _, hx⟩ := List.mem_map.1 h
  unfold underscore_to_space at hx
  by_cases hu : x = '_'
  · rw [if_pos hu] at hx
    exact absurd hx (by decide)
  · rw [if_neg hu] at hx
    exact hu hx

/-- What `Arg::draw` shows: the first call carries the name with underscores
turned into spaces; every text is that label, the help, or the widget
identifier made of `##` and the stored name. -/
theorem Arg_draw_texts {F : Type} (a : Arg F) (hovered : Bool) :
    (a.draw hovered).head?.map DrawCall.text = some (remove_underscores a.name) ∧
    ∀ d ∈ a.draw hovered,
      d.text = remove_underscores a.name ∨ d.text = a.help ∨
        d.text = "##".toList ++ a.name := by
  unfold Arg.draw
  by_cases hh : a.help ≠ [] ∧ hovered = true
  · cases ht : a.type <;> simp [hh, DrawCall.text]
  · cases ht : a.type <;> simp [hh, DrawCall.text]

/-- C16 (amended): in a successfully parsed prototype every argument is stored
under the last word of its token, a piece of the prototype text with its
underscores, and `Arg::draw` replaces the underscores only in the label it
shows; the stored name of the command is the last word of the name part with
every underscore replaced by a space, so that it holds no underscore. -/
theorem C16_stored_names {F : Type} [Zero F] (fs : FromString F)
    (raw : RawArg F) (proto : Str) (c : Command F) (p1 p2 : Nat)
    (hparen : '(' ∈ proto)
    (hp1 : (paren_scan (proto.map newline_to_space)).p1 = some p1)
    (hp2 : (paren_scan (proto.map newline_to_space)).p2 = some p2)
    (hc : Command.Command fs raw proto = .ok c) :
    (∀ a ∈ c.args_,
      (∃ tok ∈ split_string (substr (proto.map newline_to_space) (p1 + 1)
          (size_sub (size_sub p2 p1) 1)) ',', (arg_words tok).getLast? = some a.name) ∧
      a.name <:+: proto.map newline_to_space ∧
      ∀ hovered : Bool,
        (a.draw hovered).head?.map DrawCall.text = some (remove_underscores a.name) ∧
        ∀ d ∈ a.draw hovered,
          d.text = remove_underscores a.name ∨ d.text = a.help ∨
            d.text = "##".toList ++ a.name) ∧
    (∃ name, (split_string (substr (proto.map newline_to_space) 0 p1) ' ').getLast?
        = some name ∧
      c.name_ = remove_underscores name ∧ '_' ∉ c.name_) := by
  obtain ⟨outs, hall, hargs, _⟩ :=
    parsed_args_are_token_outputs fs raw proto c p1 p2 hparen hp1 hp2 hc
  obtain ⟨q1, q2, name, args, h1, _, hname, _, hceq⟩ :=
    Command_ok_inv fs raw proto c hparen hc
  rw [hp1] at h1
  cases h1
  constructor
  · intro a ha
    rw [hargs] at ha
    obtain ⟨tok, htok, hn⟩ := flatten_outputs_name fs raw _ outs hall a ha
    refine ⟨⟨tok, htok, hn⟩, ?_, fun hovered => Arg_draw_texts a hovered⟩
    have hmem : a.name ∈ arg_words tok := List.mem_of_mem_getLast? hn
    exact (arg_words_piece tok a.name hmem).trans
      ((split_string_piece _ _ tok htok).trans (substr_piece _ _ _))
  · refine ⟨name, hname, by rw [hceq], ?_⟩
    rw [hceq]
    exact remove_underscores_no_underscore name

/-- Witness of C16 on `my_cmd(int my_arg=3)`: the argument is stored as `my_arg`
and drawn with the label `my arg`. -/
theorem C16_stored_names_witness :
    (∃ c, Command.Command sample_from_string sample_raw "my_cmd(int my_arg=3)".toList
        = .ok c ∧ c.args_.map Arg.name = ["my_arg".toList] ∧
      c.args_.map (fun a => (a.draw false).map DrawCall.text)
        = [["my arg".toList, "##my_arg".toList]]) ∧
    ∀ a ∈ [Arg.Arg_int sample_raw "my_arg".toList 3 []],
      a.name <:+: "my_cmd(int my_arg=3)".toList.map newline_to_space :=
  ⟨⟨_, rfl, rfl, rfl⟩,
   fun a ha =>
    ((C16_stored_names sample_from_string sample_raw "my_cmd(int my_arg=3)".toList
      { name_ := "my cmd".toList, help_ := [],
        args_ := [Arg.Arg_int sample_raw "my_arg".toList 3 []],
        auto_create_args_ := false }
      6 19 (by decide) (by decide) (by decide) rfl).1 a ha).2.1⟩

/-- Counterexample to C16 as stated: the command parsed from
`my_cmd(int my_arg=3)` is stored under the name `my cmd`, not under the
identifier `my_cmd` written in the prototype. -/
theorem C16_command_name_altered :
    ∃ c, Command.Command sample_from_string sample_raw "my_cmd(int my_arg=3)".toList
        = .ok c ∧
      c.name_ = "my cmd".toList ∧ c.name_ ≠ "my_cmd".toList ∧
      (split_string (substr ("my_cmd(int my_arg=3)".toList.map newline_to_space) 0 6)
        ' ').getLast? = some "my_cmd".toList :=
  ⟨_, rfl, rfl, by decide, by decide⟩

/-! ## String arguments -/

/-- The bytes copied into a buffer are its first bytes afterwards. -/
theorem copy_in_take (b : CharBuf) (x : Str) (h : x.length ≤ 64) :
    (b.copy_in x).data.take x.length = x := by
  unfold CharBuf.copy_in
  simp only
  rw [List.take_take, Nat.min_eq_left h]
  exact List.take_left' rfl

/-- C17 (amended): creating a string argument from a string of at most 62
characters succeeds and stores its characters at the start of the default
buffer; creating one from a string of 63 characters or more fails by
assertion. -/
theorem C17_string_length_bound {F : Type} [Zero F] (raw : RawArg F)
    (name x help : Str) (h : x.length ≤ 62) :
    (∃ a, Arg.Arg_string raw name x help = .ok a ∧ a.type = ArgType.ARG_STRING ∧
      a.name = name ∧ a.help = help ∧ a.default_val.string_val.data.take x.length = x) ∧
    (∀ y : Str, 63 ≤ y.length →
      Arg.Arg_string raw name y help = .error Failure.assertion_failed) := by
  constructor
  · have hok : Arg.Arg_string raw name x help =
        .ok { name := name, help := help, type := ArgType.ARG_STRING,
              val := raw.val.clear,
              default_val :=
                { raw.default_val.clear with
                  string_val := raw.default_val.clear.string_val.copy_in x } } := by
      unfold Arg.Arg_string
      rw [if_pos (by omega)]
    exact ⟨_, hok, rfl, rfl, rfl, copy_in_take _ x (by omega)⟩
  · intro y hy
    unfold Arg.Arg_string
    rw [if_neg (by omega)]

/-- Witness of C17 on the string `hello`. -/
theorem C17_string_length_bound_witness :
    ∃ a, Arg.Arg_string sample_raw "s".toList "hello".toList [] = .ok a ∧
      a.type = ArgType.ARG_STRING ∧ a.name = "s".toList ∧ a.help = [] ∧
      a.default_val.string_val.data.take "hello".toList.length = "hello".toList :=
  (C17_string_length_bound sample_raw "s".toList "hello".toList [] (by decide)).1

/-- Counterexample to C17 as stated: a string of exactly 63 characters is
rejected by the assertion of the constructor. -/
theorem C17_length_63_rejected :
    (List.replicate 63 'a').length ≤ 63 ∧
    (Arg.Arg_string sample_raw "s".toList (List.replicate 63 'a') []
      : Except Failure (Arg Int)) = .error Failure.assertion_failed :=
  ⟨by decide, rfl⟩

/-! ## Which parentheses delimit the argument list -/

theorem last_at_depth_zero_unique (s : Str) (c : Char) (r1 r2 : Option Nat)
    (h1 : last_at_depth_zero s c r1) (h2 : last_at_depth_zero s c r2) : r1 = r2 := by
  cases r1 with
  | none =>
    cases r2 with
    | none => rfl
    | some j => exact absurd h2.1 (h1 j)
  | some i =>
    cases r2 with
    | none => exact absurd h1.1 (h2 i)
    | some j =>
      have a := h1.2 j h2.1
      have b := h2.2 i h1.1
      congr 1
      omega

theorem last_at_depth_zero_map_newline (s : Str) (ch : Char) (r : Option Nat)
    (h1 : ch ≠ ' ') (h2 : ch ≠ '\n') :
    last_at_depth_zero (s.map newline_to_space) ch r ↔ last_at_depth_zero s ch r := by
  cases r with
  | none =>
    constructor
    · intro h j hj
      exact h j ((at_depth_zero_map_newline s ch j h1 h2).2 hj)
    · intro h j hj
      exact h j ((at_depth_zero_map_newline s ch j h1 h2).1 hj)
  | some i =>
    constructor
    · rintro ⟨ha, hb⟩
      exact ⟨(at_depth_zero_map_newline s ch i h1 h2).1 ha,
        fun j hj => hb j ((at_depth_zero_map_newline s ch j h1 h2).2 hj)⟩
    · rintro ⟨ha, hb⟩
      exact ⟨(at_depth_zero_map_newline s ch i h1 h2).2 ha,
        fun j hj => hb j ((at_depth_zero_map_newline s ch j h1 h2).1 hj)⟩

/-- The scan finds the last `(` and the last `)` at bracket depth 0 of the
prototype as given. -/
theorem paren_scan_of_last (proto : Str) (r1 r2 : Option Nat)
    (h1 : last_at_depth_zero proto '(' r1) (h2 : last_at_depth_zero proto ')' r2) :
    (paren_scan (proto.map newline_to_space)).p1 = r1 ∧
    (paren_scan (proto.map newline_to_space)).p2 = r2 := by
  obtain ⟨_, s1, s2⟩ := paren_scan_spec (proto.map newline_to_space)
  exact ⟨last_at_depth_zero_unique _ _ _ _ s1
      ((last_at_depth_zero_map_newline proto '(' r1 (by decide) (by decide)).2 h1),
    last_at_depth_zero_unique _ _ _ _ s2
      ((last_at_depth_zero_map_newline proto ')' r2 (by decide) (by decide)).2 h2)⟩

/-- C18 (amended): when the last `(` at bracket depth 0 is at `p1` and the last
`)` at bracket depth 0 is at a later index `p2`, the name part is the text
before `p1` and the argument list is the text strictly between `p1` and `p2`
(newlines read as spaces): the constructor looks the name up in the former and
runs the argument loop on the comma-separated tokens of the latter. -/
theorem C18_argument_list_bounds {F : Type} [Zero F] (fs : FromString F)
    (raw : RawArg F) (proto : Str) (p1 p2 : Nat) (hparen : '(' ∈ proto)
    (h1 : last_at_depth_zero proto '(' (some p1))
    (h2 : last_at_depth_zero proto ')' (some p2)) (hlt : p1 < p2) :
    Command.Command fs raw proto =
      match (split_string ((proto.map newline_to_space).take p1) ' ').getLast? with
      | none => .error Failure.index_out_of_range
      | some name =>
        match process_args fs raw
            (split_string (((proto.map newline_to_space).drop (p1 + 1)).take (p2 - p1 - 1))
              ',') [] with
        | .ok args => .ok { name_ := remove_underscores name,
                            help_ := command_help (proto.map newline_to_space) p2,
                            args_ := args, auto_create_args_ := false }
        | .error e => .error e := by
  obtain ⟨s1, s2⟩ := paren_scan_of_last proto _ _ h1 h2
  rw [Command_of_scan_some fs raw proto p1 p2 hparen s1 s2]
  have hsub : size_sub (size_sub p2 p1) 1 = p2 - p1 - 1 := by
    unfold size_sub
    rw [if_pos (Nat.le_of_lt hlt), if_pos (by omega)]
  unfold Command.parse_body
  rw [hsub]
  rfl

/-- Witness of C18 on `void bar(bool flag=true [enable it])`, whose parentheses
are at 8 and 35. -/
theorem C18_argument_list_bounds_witness :
    ("void bar(bool flag=true [enable it])".toList.map newline_to_space).take 8
      = "void bar".toList ∧
    (("void bar(bool flag=true [enable it])".toList.map newline_to_space).drop
      (8 + 1)).take (35 - 8 - 1) = "bool flag=true [enable it]".toList ∧
    Command.Command sample_from_string sample_raw
      "void bar(bool flag=true [enable it])".toList =
      .ok { name_ := "bar".toList, help_ := [],
            args_ := [Arg.Arg_bool sample_raw "flag".toList true "enable it".toList],
            auto_create_args_ := false } :=
  ⟨by decide, by decide,
   (C18_argument_list_bounds sample_from_string sample_raw
      "void bar(bool flag=true [enable it])".toList 8 35 (by decide)
      ⟨by decide, fun j hj => by
        have := at_depth_zero_lt _ _ j hj
        revert hj
        revert j
        decide⟩
      ⟨by decide, fun j hj => Nat.le_of_lt_succ (at_depth_zero_lt _ _ j hj)⟩
      (by decide)).trans rfl⟩

/-- Counterexample to C18 as stated: in `f(a)(int x)` the first `(` at depth 0 is
at index 1 and the first `)` at depth 0 after it at index 3, which would make
`f` the name part and `a` the argument list; the scan keeps the last ones, at
4 and 10, the name part is `f(a)` and the argument list is `int x`. -/
theorem C18_last_parentheses_win :
    at_depth_zero two_pairs_prototype '(' 1 ∧
    (∀ j < 1, ¬ at_depth_zero two_pairs_prototype '(' j) ∧
    at_depth_zero two_pairs_prototype ')' 3 ∧
    (∀ j < 3, 1 < j → ¬ at_depth_zero two_pairs_prototype ')' j) ∧
    (paren_scan (two_pairs_prototype.map newline_to_space)).p1 = some 4 ∧
    (paren_scan (two_pairs_prototype.map newline_to_space)).p2 = some 10 ∧
    Command.Command sample_from_string sample_raw two_pairs_prototype =
      .ok { name_ := "f(a)".toList, help_ := [],
            args_ := [Arg.Arg_int sample_raw "x".toList 0 []],
            auto_create_args_ := false } :=
  ⟨by decide, by decide, by decide, by decide, by decide, by decide, rfl⟩

/-! ## Default of a string argument -/

/-- A default literal without its first and last character, as `substr` cuts it. -/
theorem substr_strip_ends (d : Str) (h : 2 ≤ d.length) :
    substr d 1 (size_sub d.length 2) = (d.drop 1).dropLast := by
  unfold substr size_sub
  rw [if_pos h, List.dropLast_eq_take, List.length_drop]
  congr 1

/-- The C string read from a buffer into which `x` was copied, when `x` holds no
NUL and the byte after it is NUL. -/
theorem c_str_copy_in (b : CharBuf) (x : Str) (hx : NUL ∉ x)
    (hnul : b.data[x.length]? = some NUL) : (b.copy_in x).c_str = x := by
  have hlt : x.length < 64 := by
    have := (List.getElem?_eq_some.1 hnul).1
    rw [b.size_eq] at this
    exact this
  obtain ⟨hl, hget⟩ := List.getElem?_eq_some.1 hnul
  have hdrop : b.data.drop x.length = NUL :: b.data.drop (x.length + 1) := by
    rw [List.drop_eq_getElem_cons hl, hget]
  unfold CharBuf.c_str CharBuf.copy_in
  simp only
  rw [hdrop, List.take_append_eq_append_take]
  have h1 : List.take 64 x = x := List.take_of_length_le (by omega)
  obtain ⟨m, hm⟩ : ∃ m, 64 - x.length = m + 1 := ⟨64 - x.length - 1, by omega⟩
  rw [h1, hm, List.take_succ_cons]
  rw [List.takeWhile_append_of_pos]
  · simp [List.takeWhile]
  · intro a ha
    have : a ≠ NUL := fun e => hx (e ▸ ha)
    simpa using this

/-- When a token of string type with a trimmed default literal `d` of at least
two characters adds an argument, the characters written into its default
buffer are `d` without its first and its last character, whatever these two
are: they are the first `d.length - 2` bytes of the buffer.  Read back as a C
string they are followed by the bytes that the storage held after them, up to
the first NUL; the text alone is read when the next byte was NUL. -/
theorem string_default_bytes_written {F : Type} [Zero F] (fs : FromString F)
    (raw : RawArg F) (args_ args1 : List (Arg F)) (tok : Str)
    (hk : arg_type (arg_words tok) = some ArgType.ARG_STRING)
    (hlen : 2 ≤ (arg_default (arg_help tok).2).1.length)
    (hok : process_arg fs raw args_ tok = .ok args1) :
    ∃ a, args1 = args_ ++ [a] ∧ a.type = ArgType.ARG_STRING ∧
      a.default_val.string_val = raw.default_val.clear.string_val.copy_in
        (((arg_default (arg_help tok).2).1.drop 1).dropLast) ∧
      a.default_val.string_val.data.take ((arg_default (arg_help tok).2).1.length - 2)
        = ((arg_default (arg_help tok).2).1.drop 1).dropLast ∧
      (NUL ∉ ((arg_default (arg_help tok).2).1.drop 1).dropLast →
        raw.default_val.clear.string_val.data[(arg_default (arg_help tok).2).1.length - 2]?
          = some NUL →
        a.default_value = Value.string (((arg_default (arg_help tok).2).1.drop 1).dropLast)) := by
  unfold arg_words at hk
  obtain ⟨name, hname⟩ := arg_type_some_getLast _ _ hk
  have hproc := process_arg_of_getLast fs raw args_ tok name hname
  rw [hk] at hproc
  rw [hproc] at hok
  have hd : (arg_default (arg_help tok).2).1 ≠ [] := by
    intro e
    rw [e] at hlen
    simp at hlen
  have hslen : (((arg_default (arg_help tok).2).1.drop 1).dropLast).length
      = (arg_default (arg_help tok).2).1.length - 2 := by
    rw [List.length_dropLast, List.length_drop]
    omega
  unfold make_arg at hok
  simp only at hok
  rw [if_pos hd, substr_strip_ends _ hlen] at hok
  unfold Arg.Arg_string at hok
  by_cases hl : (((arg_default (arg_help tok).2).1.drop 1).dropLast).length < 63
  · rw [if_pos hl] at hok
    injection hok with hok
    refine ⟨_, hok.symm, rfl, rfl, ?_, ?_⟩
    · have := copy_in_take raw.default_val.clear.string_val
        (((arg_default (arg_help tok).2).1.drop 1).dropLast) (by omega)
      rw [hslen] at this
      exact this
    · intro hnul hbyte
      show Value.string (CharBuf.c_str _) = _
      congr 1
      apply c_str_copy_in _ _ hnul
      rw [hslen]
      exact hbyte
  · rw [if_neg hl] at hok
    cases hok

/-- Copying `x` into a buffer leaves the bytes after `x` as they were. -/
theorem copy_in_drop (b : CharBuf) (x : Str) (h : x.length ≤ 64) :
    (b.copy_in x).data.drop x.length = b.data.drop x.length := by
  have hlen : (x ++ b.data.drop x.length).length ≤ 64 := by
    rw [List.length_append, List.length_drop, b.size_eq]
    omega
  unfold CharBuf.copy_in
  simp only
  rw [List.take_of_length_le hlen, List.drop_left]

/-- Writing the first byte of a buffer leaves the other bytes as they were. -/
theorem set_first_drop (b : CharBuf) (c : Char) (n : Nat) :
    (b.set_first c).data.drop (n + 1) = b.data.drop (n + 1) := by
  obtain ⟨data, h⟩ := b
  cases data with
  | nil => rfl
  | cons x xs => rfl

/-- The C string read from a buffer into which a text `x` without NUL was
copied: `x`, followed by the bytes the buffer held after it, up to the first
NUL among them. -/
theorem c_str_copy_in_unterminated (b : CharBuf) (x : Str) (hx : NUL ∉ x)
    (h : x.length ≤ 64) :
    (b.copy_in x).c_str
      = x ++ (b.data.drop x.length).takeWhile (fun c => decide (c ≠ NUL)) := by
  have hlen : (x ++ b.data.drop x.length).length ≤ 64 := by
    rw [List.length_append, List.length_drop, b.size_eq]
    omega
  unfold CharBuf.c_str CharBuf.copy_in
  simp only
  rw [List.take_of_length_le hlen, List.takeWhile_append_of_pos]
  intro a ha
  have : a ≠ NUL := fun e => hx (e ▸ ha)
  simpa using this

/-- C19 at the failing input `f(string s="abc")`: the constructor copies the
three bytes `abc` into the default buffer and writes nothing after them, so
the bytes of the buffer from index 3 on are those the storage held before.
The default read back as a C string (within the 64 bytes of the buffer) is
`abc` followed by those bytes up to the first NUL, not `abc`: on storage whose
bytes were all `Z` it is `abc` followed by 61 letters `Z`. -/
theorem C19_string_default_unterminated {F : Type} [Zero F] (fs : FromString F)
    (raw : RawArg F) :
    (∃ a, Command.Command fs raw "f(string s=\"abc\")".toList =
        .ok { name_ := "f".toList, help_ := [], args_ := [a],
              auto_create_args_ := false } ∧
      a.type = ArgType.ARG_STRING ∧
      a.default_val.string_val.data.take 3 = "abc".toList ∧
      a.default_val.string_val.data.drop 3 = raw.default_val.string_val.data.drop 3 ∧
      a.default_value = Value.string ("abc".toList ++
        (raw.default_val.string_val.data.drop 3).takeWhile (fun c => decide (c ≠ NUL)))) ∧
    (∃ a, Command.Command sample_from_string sample_raw_used "f(string s=\"abc\")".toList =
        .ok { name_ := "f".toList, help_ := [], args_ := [a],
              auto_create_args_ := false } ∧
      a.default_val.string_val.data.take 3 = "abc".toList ∧
      a.default_val.string_val.data[3]? = some 'Z' ∧
      a.default_value = Value.string ("abc".toList ++ List.replicate 61 'Z') ∧
      a.default_value ≠ Value.string "abc".toList) := by
  have hdrop : (raw.default_val.clear.string_val.copy_in "abc".toList).data.drop 3
      = raw.default_val.string_val.data.drop 3 := by
    have h1 := copy_in_drop raw.default_val.clear.string_val "abc".toList (by decide)
    have h2 := set_first_drop raw.default_val.string_val NUL 2
    exact h1.trans h2
  have hstr : (raw.default_val.clear.string_val.copy_in "abc".toList).c_str
      = "abc".toList ++
        (raw.default_val.string_val.data.drop 3).takeWhile (fun c => decide (c ≠ NUL)) := by
    have h1 := c_str_copy_in_unterminated raw.default_val.clear.string_val "abc".toList
      (by decide) (by decide)
    have h2 := set_first_drop raw.default_val.string_val NUL 2
    rw [h1]
    congr 2
  refine ⟨⟨_, rfl, rfl, rfl, hdrop, ?_⟩, ⟨_, rfl, rfl, rfl, rfl, ?_⟩⟩
  · show Value.string (CharBuf.c_str _) = _
    congr 1
  · intro h
    injection h with h
    have h2 : "abc".toList ++ List.replicate 61 'Z' = "abc".toList := h
    exact absurd h2 (by decide)

/-! ## Parentheses inside brackets -/

theorem paren_scan_from_append (a b : Str) (i : Nat) (st : ParenScan) :
    paren_scan_from (a ++ b) i st
      = paren_scan_from b (i + a.length) (paren_scan_from a i st) := by
  induction a generalizing i st with
  | nil => rfl
  | cons x xs ih =>
    show paren_scan_from (xs ++ b) (i + 1) (paren_step st i x) = _
    rw [ih]
    show _ = paren_scan_from b (i + (xs.length + 1)) (paren_scan_from xs (i + 1) (paren_step st i x))
    congr 1
    omega

/-- A parenthesis met at a depth other than 0 changes nothing. -/
theorem paren_step_nested (st : ParenScan) (i : Nat) (ch : Char)
    (hch : ch = '(' ∨ ch = ')') (h : st.level ≠ 0) : paren_step st i ch = st := by
  unfold paren_step
  rcases hch with rfl | rfl
  · rw [if_neg (by decide), if_neg (by decide), if_pos rfl, if_neg h]
  · rw [if_neg (by decide), if_neg (by decide), if_neg (by decide), if_pos rfl, if_neg h]

/-- A character that is neither bracket nor parenthesis changes nothing. -/
theorem paren_step_other (st : ParenScan) (i : Nat) (x : Char)
    (h1 : x ≠ '[') (h2 : x ≠ ']') (h3 : x ≠ '(') (h4 : x ≠ ')') :
    paren_step st i x = st := by
  unfold paren_step
  rw [if_neg h1, if_neg h2, if_neg h3, if_neg h4]

/-- The scan is blind to a parenthesis met at a depth other than 0. -/
theorem paren_scan_nested (a b : Str) (ch x : Char) (hch : ch = '(' ∨ ch = ')')
    (hdepth : bracket_depth a ≠ 0)
    (h1 : x ≠ '[') (h2 : x ≠ ']') (h3 : x ≠ '(') (h4 : x ≠ ')') :
    paren_scan (a ++ ch :: b) = paren_scan (a ++ x :: b) := by
  have hlevel : (paren_scan_from a 0 ⟨0, none, none⟩).level ≠ 0 := by
    have := (paren_scan_spec a).1
    unfold paren_scan at this
    rw [this]
    exact hdepth
  unfold paren_scan
  rw [paren_scan_from_append, paren_scan_from_append]
  show paren_scan_from b _ (paren_step _ _ ch) = paren_scan_from b _ (paren_step _ _ x)
  rw [paren_step_nested _ _ ch hch hlevel, paren_step_other _ _ x h1 h2 h3 h4]

/-- C20: the depth counter of the scan is the number of `[` minus the number of
`]` read so far, and a parenthesis is recorded only where that depth is 0.  A
`(` or `)` that follows a text `a` of depth other than 0 is never the recorded
position, and the scan gives the same result as on the prototype in which it
is replaced by a character `x` that is no bracket or parenthesis; so does the
scan of the constructor (after newlines became spaces), and the name part is
the same whenever the opening parenthesis lies before that character. -/
theorem C20_nested_parentheses_ignored (a b : Str) (ch x : Char)
    (hch : ch = '(' ∨ ch = ')') (hdepth : bracket_depth a ≠ 0)
    (h1 : x ≠ '[') (h2 : x ≠ ']') (h3 : x ≠ '(') (h4 : x ≠ ')') :
    (∀ s : Str, (paren_scan s).level = bracket_depth s) ∧
    (∀ (s : Str) (i : Nat), (paren_scan s).p1 = some i →
      s[i]? = some '(' ∧ bracket_depth (s.take i) = 0) ∧
    (∀ (s : Str) (i : Nat), (paren_scan s).p2 = some i →
      s[i]? = some ')' ∧ bracket_depth (s.take i) = 0) ∧
    (paren_scan (a ++ ch :: b)).p1 ≠ some a.length ∧
    (paren_scan (a ++ ch :: b)).p2 ≠ some a.length ∧
    paren_scan (a ++ ch :: b) = paren_scan (a ++ x :: b) ∧
    paren_scan ((a ++ ch :: b).map newline_to_space)
      = paren_scan ((a ++ x :: b).map newline_to_space) ∧
    (∀ p1, p1 ≤ a.length →
      substr ((a ++ ch :: b).map newline_to_space) 0 p1
        = substr ((a ++ x :: b).map newline_to_space) 0 p1) := by
  have hp1 : ∀ (s : Str) (i : Nat), (paren_scan s).p1 = some i →
      s[i]? = some '(' ∧ bracket_depth (s.take i) = 0 := by
    intro s i hi
    have := (paren_scan_spec s).2.1
    rw [hi] at this
    exact this.1
  have hp2 : ∀ (s : Str) (i : Nat), (paren_scan s).p2 = some i →
      s[i]? = some ')' ∧ bracket_depth (s.take i) = 0 := by
    intro s i hi
    have := (paren_scan_spec s).2.2
    rw [hi] at this
    exact this.1
  have htake : List.take a.length (a ++ ch :: b) = a := by simp
  have hmap : paren_scan ((a ++ ch :: b).map newline_to_space)
      = paren_scan ((a ++ x :: b).map newline_to_space) := by
    have hf : newline_to_space ch = ch := by
      rcases hch with rfl | rfl <;> rfl
    have hx : newline_to_space x ≠ '[' ∧ newline_to_space x ≠ ']' ∧
        newline_to_space x ≠ '(' ∧ newline_to_space x ≠ ')' := by
      unfold newline_to_space
      by_cases hn : x = '\n'
      · rw [if_pos hn]; decide
      · rw [if_neg hn]; exact ⟨h1, h2, h3, h4⟩
    rw [List.map_append, List.map_append, List.map_cons, List.map_cons, hf]
    exact paren_scan_nested _ _ ch _ hch (by rw [bracket_depth_map_newline]; exact hdepth)
      hx.1 hx.2.1 hx.2.2.1 hx.2.2.2
  refine ⟨fun s => (paren_scan_spec s).1, hp1, hp2, ?_, ?_,
    paren_scan_nested a b ch x hch hdepth h1 h2 h3 h4, hmap, ?_⟩
  · intro h
    have := (hp1 _ _ h).2
    rw [htake] at this
    exact hdepth this
  · intro h
    have := (hp2 _ _ h).2
    rw [htake] at this
    exact hdepth this
  · intro p1 hle
    unfold substr
    rw [List.drop_zero, List.drop_zero, List.map_append, List.map_append,
      List.take_append_of_le_length (by rw [List.length_map]; exact hle),
      List.take_append_of_le_length (by rw [List.length_map]; exact hle)]

/-- Witness of C20 on `f(int x=3 [a (b) c]) [help (x)]`: the parentheses inside
the two help texts are not recorded, the scan is that of the prototype with
the first of them blanked, and the command parses with both help texts whole. -/
theorem C20_nested_parentheses_ignored_witness :
    paren_scan ("f(int x=3 [a ".toList ++ '(' :: "b) c]) [help (x)]".toList)
      = paren_scan ("f(int x=3 [a ".toList ++ ' ' :: "b) c]) [help (x)]".toList) ∧
    (paren_scan "f(int x=3 [a (b) c]) [help (x)]".toList).p1 = some 1 ∧
    (paren_scan "f(int x=3 [a (b) c]) [help (x)]".toList).p2 = some 19 ∧
    Command.Command sample_from_string sample_raw "f(int x=3 [a (b) c]) [help (x)]".toList
      = .ok { name_ := "f".toList, help_ := "help (x)".toList,
              args_ := [Arg.Arg_int sample_raw "x".toList 3 "a (b) c".toList],
              auto_create_args_ := false } :=
  ⟨(C20_nested_parentheses_ignored "f(int x=3 [a ".toList "b) c]) [help (x)]".toList
      '(' ' ' (Or.inl rfl) (by decide) (by decide) (by decide) (by decide)
      (by decide)).2.2.2.2.2.1,
   by decide, by decide, rfl⟩

/-! ## Several type keywords -/

/-- C21 (amended): when the words of an argument token (help and default
removed) are `pre ++ kw :: post ++ [name]`, with `kw` a type keyword and no type
keyword in `post` (so `kw` is the last type keyword, whatever keywords `pre`
holds), the type found is the kind of `kw`, where `int` reads as unsigned
exactly when `unsigned` is among the earlier words `pre`.  For a kind other
than string the token adds one argument of that kind and name without failure;
for the string kind it adds nothing when the default literal is empty, and one
string argument when the literal is non-empty with at most 64 characters. -/
theorem C21_last_keyword_wins {F : Type} [Zero F] (fs : FromString F) (raw : RawArg F)
    (args_ : List (Arg F)) (tok : Str) (pre post : List Str) (kw name : Str) (k : ArgType)
    (hwords : arg_words tok = pre ++ kw :: post ++ [name])
    (hk : keyword_kind kw (decide ("unsigned".toList ∈ pre)) = some k)
    (hpost : ∀ w ∈ post, keyword_kind w false = none) :
    arg_type (arg_words tok) = some k ∧
    (k ≠ ArgType.ARG_STRING →
      ∃ a, process_arg fs raw args_ tok = .ok (args_ ++ [a]) ∧ a.name = name ∧
        a.type = k ∧ a.help = (arg_help tok).1) ∧
    (k = ArgType.ARG_STRING → (arg_default (arg_help tok).2).1 = [] →
      process_arg fs raw args_ tok = .ok args_) ∧
    (k = ArgType.ARG_STRING → (arg_default (arg_help tok).2).1 ≠ [] →
      (arg_default (arg_help tok).2).1.length ≤ 64 →
      ∃ a, process_arg fs raw args_ tok = .ok (args_ ++ [a]) ∧ a.name = name ∧
        a.type = k ∧ a.help = (arg_help tok).1) := by
  have hw : split_string (arg_default (arg_help tok).2).2 ' ' = pre ++ kw :: post ++ [name] :=
    hwords
  have htype := arg_type_last_keyword pre post kw name k hk hpost
  have hlast : (split_string (arg_default (arg_help tok).2).2 ' ').getLast? = some name := by
    rw [hw, List.getLast?_concat]
  have hproc := process_arg_of_getLast fs raw args_ tok name hlast
  rw [hw, htype] at hproc
  refine ⟨by rw [hwords]; exact htype, ?_, ?_, ?_⟩
  · intro hns
    cases k with
    | ARG_BOOL => exact ⟨_, hproc, rfl, rfl, rfl⟩
    | ARG_INT => exact ⟨_, hproc, rfl, rfl, rfl⟩
    | ARG_UINT => exact ⟨_, hproc, rfl, rfl, rfl⟩
    | ARG_FLOAT => exact ⟨_, hproc, rfl, rfl, rfl⟩
    | ARG_STRING => exact absurd rfl hns
  · intro hs hd
    subst hs
    rw [hproc, hd]
    rfl
  · intro hs hd hlen
    subst hs
    have hres : process_arg fs raw args_ tok = .ok (args_ ++
        [{ name := name, help := (arg_help tok).1, type := ArgType.ARG_STRING,
           val := raw.val.clear,
           default_val :=
             { raw.default_val.clear with
               string_val := raw.default_val.clear.string_val.copy_in
                 (substr (arg_default (arg_help tok).2).1 1
                   (size_sub (arg_default (arg_help tok).2).1.length 2)) } }]) := by
      rw [hproc]
      unfold make_arg
      simp only
      rw [if_pos hd]
      unfold Arg.Arg_string
      rw [if_pos (stripped_length _ hlen)]
      rfl
    exact ⟨_, hres, rfl, rfl, rfl⟩

/-- Witness of C21 on the token `unsigned float int n=5`: the last keyword is
`int`, read as unsigned because of the earlier `unsigned`. -/
theorem C21_last_keyword_wins_witness :
    arg_type (arg_words "unsigned float int n=5".toList) = some ArgType.ARG_UINT ∧
    process_arg sample_from_string sample_raw [] "unsigned float int n=5".toList
      = .ok [Arg.Arg_uint sample_raw "n".toList 5 []] ∧
    ∃ a, process_arg sample_from_string sample_raw [] "unsigned float int n=5".toList
        = .ok ([] ++ [a]) ∧ a.name = "n".toList ∧ a.type = ArgType.ARG_UINT ∧
      a.help = (arg_help "unsigned float int n=5".toList).1 :=
  have h := C21_last_keyword_wins sample_from_string sample_raw []
    "unsigned float int n=5".toList ["unsigned".toList, "float".toList] [] "int".toList
    "n".toList ArgType.ARG_UINT (by decide) (by decide) (by decide)
  ⟨h.1, rfl, h.2.1 (by decide)⟩

/-- Counterexample to C21 as stated: in `int string s="<70 letters>"` two type
keywords come before the name, the last one is `string`, and a failure is
raised: construction stops on the assertion of the string constructor. -/
theorem C21_last_keyword_string_fails :
    arg_words two_keyword_long_token = ["int".toList, "string".toList, "s".toList] ∧
    keyword_kind "int".toList false = some ArgType.ARG_INT ∧
    keyword_kind "string".toList false = some ArgType.ARG_STRING ∧
    arg_type (arg_words two_keyword_long_token) = some ArgType.ARG_STRING ∧
    process_arg sample_from_string sample_raw [] two_keyword_long_token
      = .error Failure.assertion_failed ∧
    Command.Command sample_from_string sample_raw
      ("f(".toList ++ two_keyword_long_token ++ ")".toList)
      = .error Failure.assertion_failed :=
  ⟨by decide, by decide, by decide, by decide, rfl, rfl⟩

/-! ## Newlines -/

theorem newline_to_space_idem (c : Char) :
    newline_to_space (newline_to_space c) = newline_to_space c := by
  unfold newline_to_space
  by_cases h : c = '\n'
  · rw [if_pos h]; rfl
  · rw [if_neg h, if_neg h]

theorem map_newline_to_space_idem (s : Str) :
    (s.map newline_to_space).map newline_to_space = s.map newline_to_space := by
  rw [List.map_map]
  apply List.map_congr_left
  intro c _
  exact newline_to_space_idem c

theorem mem_map_newline_iff (s : Str) (ch : Char) (h1 : ch ≠ ' ') (h2 : ch ≠ '\n') :
    ch ∈ s.map newline_to_space ↔ ch ∈ s := by
  rw [List.mem_map]
  constructor
  · rintro ⟨x, hx, he⟩
    rw [newline_to_space_eq_iff x ch h1 h2] at he
    rw [← he]; exact hx
  · intro h
    exact ⟨ch, h, (newline_to_space_eq_iff ch ch h1 h2).2 rfl⟩

theorem newline_not_mem_map (s : Str) : '\n' ∉ s.map newline_to_space := by
  rw [List.mem_map]
  rintro ⟨x, _, he⟩
  unfold newline_to_space at he
  by_cases h : x = '\n'
  · rw [if_pos h] at he
    exact absurd he (by decide)
  · rw [if_neg h] at he
    exact h he

/-- C22: for a prototype `s` that contains `(`, the constructor gives the same
result (the same failure, or the same command: name, help, and arguments with
their names, kinds, values, defaults and help texts) on `s` and on `s` with
every newline replaced by a space; the latter text has the length of `s`, holds
no newline, and differs from `s` only where `s` has a newline. -/
theorem C22_newlines_read_as_spaces {F : Type} [Zero F] (fs : FromString F)
    (raw : RawArg F) (s : Str) (h : '(' ∈ s) :
    Command.Command fs raw s = Command.Command fs raw (s.map newline_to_space) ∧
    (s.map newline_to_space).length = s.length ∧
    '\n' ∉ s.map newline_to_space ∧
    (∀ (i : Nat) (ch : Char), s[i]? = some ch → ch ≠ '\n' → (s.map newline_to_space)[i]? = some ch) ∧
    (∀ i : Nat, s[i]? = some '\n' → (s.map newline_to_space)[i]? = some ' ') := by
  have hf : ¬ find s '(' = none := fun hn => (find_eq_none s '(').1 hn h
  have hf2 : ¬ find (s.map newline_to_space) '(' = none := fun hn =>
    (find_eq_none _ '(').1 hn ((mem_map_newline_iff s '(' (by decide) (by decide)).2 h)
  refine ⟨?_, List.length_map _ _, newline_not_mem_map s, ?_, ?_⟩
  · unfold Command.Command
    rw [if_neg hf, if_neg hf2, map_newline_to_space_idem]
  · intro i ch hi hne
    rw [List.getElem?_map, hi]
    show some (newline_to_space ch) = some ch
    unfold newline_to_space
    rw [if_neg hne]
  · intro i hi
    rw [List.getElem?_map, hi]
    rfl

/-- Witness of C22 on a prototype written over two lines. -/
theorem C22_newlines_read_as_spaces_witness :
    "void\nf(int x=3,\nbool b)".toList.map newline_to_space
      = "void f(int x=3, bool b)".toList ∧
    Command.Command sample_from_string sample_raw "void\nf(int x=3,\nbool b)".toList
      = Command.Command sample_from_string sample_raw "void f(int x=3, bool b)".toList ∧
    Command.Command sample_from_string sample_raw "void\nf(int x=3,\nbool b)".toList
      = .ok { name_ := "f".toList, help_ := [],
              args_ := [Arg.Arg_int sample_raw "x".toList 3 [],
                        Arg.Arg_bool sample_raw "b".toList false []],
              auto_create_args_ := false } :=
  ⟨by decide,
   (C22_newlines_read_as_spaces sample_from_string sample_raw
     "void\nf(int x=3,\nbool b)".toList (by decide)).1,
   rfl⟩

/-! ## What a factory reset leaves unchanged -/

theorem reset_args_getElem? {F : Type} (c : Command F) (i : Nat) :
    c.reset_factory_settings.args_[i]?
      = (c.args_[i]?).map (fun a : Arg F => { a with val := a.default_val }) := by
  unfold Command.reset_factory_settings
  simp only [List.getElem?_map]
  rfl

/-- C23: `reset_factory_settings` keeps the name, the help and the
auto-argument flag of the command, the number and the order of its arguments,
and the name, kind, help and default value of each argument: the argument at
index `i` becomes the same argument with its current value replaced by its
default.  Applying it twice gives the state obtained by applying it once. -/
theorem C23_reset_changes_values_only {F : Type} (c : Command F) :
    c.reset_factory_settings.name_ = c.name_ ∧
    c.reset_factory_settings.help_ = c.help_ ∧
    c.reset_factory_settings.auto_create_args_ = c.auto_create_args_ ∧
    c.reset_factory_settings.args_.length = c.args_.length ∧
    c.reset_factory_settings.args_.map Arg.name = c.args_.map Arg.name ∧
    c.reset_factory_settings.args_.map Arg.type = c.args_.map Arg.type ∧
    c.reset_factory_settings.args_.map Arg.help = c.args_.map Arg.help ∧
    c.reset_factory_settings.args_.map Arg.default_val = c.args_.map Arg.default_val ∧
    (∀ i : Nat, c.reset_factory_settings.args_[i]?
      = (c.args_[i]?).map (fun a : Arg F => { a with val := a.default_val })) ∧
    c.reset_factory_settings.reset_factory_settings = c.reset_factory_settings := by
  refine ⟨rfl, rfl, rfl, ?_, ?_, ?_, ?_, ?_, reset_args_getElem? c, ?_⟩
  · unfold Command.reset_factory_settings
    simp only [List.length_map]
  · unfold Command.reset_factory_settings
    simp only [List.map_map]
    rfl
  · unfold Command.reset_factory_settings
    simp only [List.map_map]
    rfl
  · unfold Command.reset_factory_settings
    simp only [List.map_map]
    rfl
  · unfold Command.reset_factory_settings
    simp only [List.map_map]
    rfl
  · unfold Command.reset_factory_settings
    simp only [List.map_map]
    rfl

/-- Witness of C23 on the sample command edited to 7: after the reset the
argument `x` still has name `x`, signed kind and default 3, and a second reset
changes nothing. -/
theorem C23_reset_changes_values_only_witness :
    sample_command_edited.reset_factory_settings.name_ = "f".toList ∧
    sample_command_edited.reset_factory_settings.args_.map Arg.name = ["x".toList] ∧
    sample_command_edited.reset_factory_settings.args_.map Arg.type = [ArgType.ARG_INT] ∧
    sample_command_edited.reset_factory_settings.args_.map (fun a => a.default_val.int_val)
      = [3] ∧
    sample_command_edited.reset_factory_settings.reset_factory_settings
      = sample_command_edited.reset_factory_settings :=
  have h := C23_reset_changes_values_only sample_command_edited
  ⟨h.1, h.2.2.2.2.1, h.2.2.2.2.2.1, rfl, h.2.2.2.2.2.2.2.2.2⟩

/-! ## Commas inside a help text -/

theorem split_aux_at_sep (sep : Char) (a b cur : Str) :
    split_aux sep (a ++ sep :: b) cur = split_aux sep a cur ++ split_aux sep b [] := by
  induction a generalizing cur with
  | nil =>
    have e0 : split_aux sep (sep :: b) cur
        = if cur = [] then split_aux sep b [] else cur :: split_aux sep b [] := by
      conv => lhs; unfold split_aux
      rw [if_pos rfl]
    have e2 : split_aux sep [] cur = if cur = [] then [] else [cur] := by
      conv => lhs; unfold split_aux
    rw [List.nil_append, e0, e2]
    by_cases hc : cur = []
    · rw [if_pos hc, if_pos hc]; rfl
    · rw [if_neg hc, if_neg hc]; rfl
  | cons x a ih =>
    rw [List.cons_append]
    by_cases hx : x = sep
    · have e1 : ∀ t : Str, split_aux sep (x :: t) cur
          = if cur = [] then split_aux sep t [] else cur :: split_aux sep t [] := by
        intro t
        conv => lhs; unfold split_aux
        rw [if_pos hx]
      rw [e1, e1, ih]
      by_cases hc : cur = []
      · rw [if_pos hc, if_pos hc]
      · rw [if_neg hc, if_neg hc]; rfl
    · have e1 : ∀ t : Str, split_aux sep (x :: t) cur = split_aux sep t (cur ++ [x]) := by
        intro t
        conv => lhs; unfold split_aux
        rw [if_neg hx]
      rw [e1, e1, ih]

theorem split_string_at_sep (sep : Char) (a b : Str) :
    split_string (a ++ sep :: b) sep = split_string a sep ++ split_string b sep :=
  split_aux_at_sep sep a b []

theorem split_aux_no_sep (sep : Char) (s cur w : Str) (hcur : sep ∉ cur)
    (h : w ∈ split_aux sep s cur) : sep ∉ w := by
  induction s generalizing cur with
  | nil =>
    unfold split_aux at h
    by_cases hc : cur = []
    · rw [if_pos hc] at h
      cases h
    · rw [if_neg hc] at h
      rw [List.mem_singleton] at h
      rw [h]; exact hcur
  | cons x s ih =>
    unfold split_aux at h
    by_cases hx : x = sep
    · rw [if_pos hx] at h
      by_cases hc : cur = []
      · rw [if_pos hc] at h
        exact ih [] (List.not_mem_nil _) h
      · rw [if_neg hc] at h
        rcases List.mem_cons.1 h with h | h
        · rw [h]; exact hcur
        · exact ih [] (List.not_mem_nil _) h
    · rw [if_neg hx] at h
      refine ih (cur ++ [x]) ?_ h
      intro hm
      rcases List.mem_append.1 hm with hm | hm
      · exact hcur hm
      · rw [List.mem_singleton] at hm
        exact hx hm.symm

theorem split_string_no_sep (s : Str) (sep : Char) (w : Str) (h : w ∈ split_string s sep) :
    sep ∉ w :=
  split_aux_no_sep sep s [] w (List.not_mem_nil _) h

theorem arg_help_fst_piece (tok : Str) : (arg_help tok).1 <:+: tok := by
  unfold arg_help
  split
  · exact substr_piece _ _ _
  · exact List.nil_infix

theorem process_arg_help {F : Type} [Zero F] (fs : FromString F) (raw : RawArg F)
    (acc res : List (Arg F)) (tok : Str) (h : process_arg fs raw acc tok = .ok res) :
    ∀ a ∈ res, a ∈ acc ∨ a.help = (arg_help tok).1 := by
  cases hl : (split_string (arg_default (arg_help tok).2).2 ' ').getLast? with
  | none =>
    have hnil : split_string (arg_default (arg_help tok).2).2 ' ' = [] :=
      List.getLast?_eq_none_iff.1 hl
    rw [process_arg_of_no_word fs raw acc tok hnil] at h
    cases h
  | some name =>
    rw [process_arg_of_getLast fs raw acc tok name hl] at h
    cases ht : arg_type (split_string (arg_default (arg_help tok).2).2 ' ') with
    | none =>
      rw [ht] at h
      cases h
    | some k =>
      rw [ht] at h
      intro a ha
      rcases make_arg_ok fs raw acc res k name _ _ h with he | ⟨b, he, _, _, hb⟩
      · rw [he] at ha; exact Or.inl ha
      · rw [he] at ha
        rcases List.mem_append.1 ha with ha | ha
        · exact Or.inl ha
        · rw [List.mem_singleton] at ha
          rw [ha]; exact Or.inr hb

theorem process_args_help {F : Type} [Zero F] (fs : FromString F) (raw : RawArg F)
    (toks : List Str) (acc res : List (Arg F))
    (h : process_args fs raw toks acc = .ok res) :
    ∀ a ∈ res, a ∈ acc ∨ ∃ tok ∈ toks, a.help = (arg_help tok).1 := by
  induction toks generalizing acc with
  | nil =>
    injection h with h
    intro a ha
    rw [← h] at ha
    exact Or.inl ha
  | cons tok rest ih =>
    rw [process_args_cons] at h
    cases hp : process_arg fs raw acc tok with
    | error e =>
      rw [hp] at h
      cases h
    | ok acc1 =>
      rw [hp] at h
      intro a ha
      rcases ih acc1 h a ha with h1 | ⟨t, ht, he⟩
      · rcases process_arg_help fs raw acc acc1 tok hp a h1 with h2 | h2
        · exact Or.inl h2
        · exact Or.inr ⟨tok, List.mem_cons_self _ _, h2⟩
      · exact Or.inr ⟨t, List.mem_cons_of_mem _ ht, he⟩

/-- C24: the argument list is cut at every comma, whatever the brackets: the
tokens of `x , y` are those of `x` followed by those of `y`, no token holds a
comma, and so in every command built from a prototype no argument has a help
text holding a comma.  The prototype `f(int x=3 [first, second])` is cut into
`int x=3 [first` and ` second]`; the second token has a single word and no type,
and construction stops on the unreachable-code assertion. -/
theorem C24_split_at_every_comma {F : Type} [Zero F] (fs : FromString F)
    (raw : RawArg F) (proto : Str) (c : Command F) (hparen : '(' ∈ proto)
    (hc : Command.Command fs raw proto = .ok c) :
    (∀ a ∈ c.args_, ',' ∉ a.help) ∧
    (∀ x y : Str, split_string (x ++ ',' :: y) ',' = split_string x ',' ++ split_string y ',') ∧
    (∀ (s tok : Str), tok ∈ split_string s ',' → ',' ∉ tok ∧ ',' ∉ (arg_help tok).1) ∧
    split_string "int x=3 [first, second]".toList ',' =
      ["int x=3 [first".toList, " second]".toList] ∧
    arg_words " second]".toList = ["second]".toList] ∧
    arg_type (arg_words " second]".toList) = none ∧
    process_arg fs raw [] "int x=3 [first".toList
      = .ok [Arg.Arg_int raw "x".toList (fs.to_int "3 [first".toList) []] ∧
    Command.Command fs raw "f(int x=3 [first, second])".toList
      = .error Failure.assertion_not_reached := by
  have htok : ∀ (s tok : Str), tok ∈ split_string s ',' →
      ',' ∉ tok ∧ ',' ∉ (arg_help tok).1 := by
    intro s tok ht
    have h1 := split_string_no_sep s ',' tok ht
    exact ⟨h1, fun hm => h1 ((arg_help_fst_piece tok).subset hm)⟩
  refine ⟨?_, fun x y => split_string_at_sep ',' x y, htok, by decide, by decide,
    by decide, rfl, rfl⟩
  obtain ⟨p1, p2, name, args, _, _, _, hargs, he⟩ := Command_ok_inv fs raw proto c hparen hc
  intro a ha
  rw [he] at ha
  rcases process_args_help fs raw _ [] args hargs a ha with h1 | ⟨tok, ht, hh⟩
  · cases h1
  · rw [hh]
    exact (htok _ tok ht).2

/-- Witness of C24 on a prototype with two bracketed help texts. -/
theorem C24_split_at_every_comma_witness :
    Command.Command sample_from_string sample_raw
      "f(int x=3 [first], bool b [second])".toList
      = .ok { name_ := "f".toList, help_ := [],
              args_ := [Arg.Arg_int sample_raw "x".toList 3 "first".toList,
                        Arg.Arg_bool sample_raw "b".toList false "second".toList],
              auto_create_args_ := false } ∧
    ∀ a ∈ [Arg.Arg_int sample_raw "x".toList 3 "first".toList,
           Arg.Arg_bool sample_raw "b".toList false "second".toList], ',' ∉ a.help :=
  ⟨rfl,
   (C24_split_at_every_comma sample_from_string sample_raw
      "f(int x=3 [first], bool b [second])".toList _ (by decide) rfl).1⟩

/-! ## Text after the help of an argument -/

theorem first_index_append_cons (pre rest : Str) (c : Char) (h : c ∉ pre) :
    first_index (pre ++ c :: rest) c pre.length := by
  unfold first_index
  constructor
  · rw [List.getElem?_append_right (Nat.le_refl _), Nat.sub_self]
    exact List.getElem?_cons_zero
  · rw [List.take_left]
    exact h

theorem arg_help_snd_of_open (pre rest : Str) (hpre : '[' ∉ pre)
    (hclose : ']' ∈ pre ++ '[' :: rest) :
    (arg_help (pre ++ '[' :: rest)).2 = pre := by
  have h1 := first_index_append_cons pre rest '[' hpre
  cases hf : find (pre ++ '[' :: rest) ']' with
  | none => exact absurd hclose ((find_eq_none _ _).1 hf)
  | some bq2 =>
    rw [arg_help_of_first_index _ _ bq2 h1 ((find_eq_some _ _ _).1 hf)]
    exact List.take_left _ _

theorem arg_help_fst_of_brackets (pre h rest : Str) (hpre : '[' ∉ pre)
    (hpre2 : ']' ∉ pre) (hh : ']' ∉ h) :
    (arg_help (pre ++ '[' :: (h ++ ']' :: rest))).1 = h := by
  have h1 := first_index_append_cons pre (h ++ ']' :: rest) '[' hpre
  have e : pre ++ '[' :: (h ++ ']' :: rest) = (pre ++ '[' :: h) ++ ']' :: rest := by
    simp only [List.append_assoc, List.cons_append]
  have h2 : first_index (pre ++ '[' :: (h ++ ']' :: rest)) ']' (pre ++ '[' :: h).length := by
    rw [e]
    apply first_index_append_cons
    intro hm
    rcases List.mem_append.1 hm with hm | hm
    · exact hpre2 hm
    · rcases List.mem_cons.1 hm with hm | hm
      · exact absurd hm (by decide)
      · exact hh hm
  rw [arg_help_of_first_index _ _ _ h1 h2]
  show substr _ _ _ = h
  have hlen : (pre ++ '[' :: h).length = pre.length + 1 + h.length := by
    simp only [List.length_append, List.length_cons]
    omega
  have hs : size_sub (size_sub (pre ++ '[' :: h).length pre.length) 1 = h.length := by
    rw [hlen]
    unfold size_sub
    split_ifs <;> omega
  rw [hs]
  unfold substr
  have e2 : pre ++ '[' :: (h ++ ']' :: rest) = (pre ++ ['[']) ++ (h ++ ']' :: rest) := by
    simp only [List.append_assoc, List.cons_append, List.nil_append]
  have hl2 : pre.length + 1 = (pre ++ ['[']).length := by
    simp only [List.length_append, List.length_cons, List.length_nil]
  rw [e2, hl2, List.drop_left, List.take_left]

/-- The loop body on a token whose default value is empty and whose type is not
the string type: one argument is added, with all its scalar values zero. -/
theorem process_arg_without_default {F : Type} [Zero F] (fs : FromString F)
    (raw : RawArg F) (args_ : List (Arg F)) (tok w : Str) (k : ArgType)
    (hd : arg_default (arg_help tok).2 = ([], w))
    (hk : arg_type (split_string w ' ') = some k) (hns : k ≠ ArgType.ARG_STRING) :
    ∃ name a,
      (split_string w ' ').getLast? = some name ∧
      process_arg fs raw args_ tok = .ok (args_ ++ [a]) ∧
      a.name = name ∧ a.type = k ∧ a.help = (arg_help tok).1 ∧
      a.default_val.bool_val = false ∧ a.default_val.int_val = 0 ∧
      a.default_val.float_val = 0 ∧
      a.val.bool_val = false ∧ a.val.int_val = 0 ∧ a.val.float_val = 0 := by
  obtain ⟨name, hname⟩ := arg_type_some_getLast _ k hk
  have hproc := process_arg_of_getLast fs raw args_ tok name (by rw [hd]; exact hname)
  rw [hd] at hproc
  simp only at hproc
  rw [hk] at hproc
  cases k with
  | ARG_BOOL => exact ⟨name, _, hname, hproc, rfl, rfl, rfl, rfl, rfl, rfl, rfl, rfl, rfl⟩
  | ARG_INT => exact ⟨name, _, hname, hproc, rfl, rfl, rfl, rfl, rfl, rfl, rfl, rfl, rfl⟩
  | ARG_UINT => exact ⟨name, _, hname, hproc, rfl, rfl, rfl, rfl, rfl, rfl, rfl, rfl, rfl⟩
  | ARG_FLOAT => exact ⟨name, _, hname, hproc, rfl, rfl, rfl, rfl, rfl, rfl, rfl, rfl, rfl⟩
  | ARG_STRING => exact absurd rfl hns

/-- The loop body on a token of string type whose default value is empty. -/
theorem process_arg_string_without_default {F : Type} [Zero F] (fs : FromString F)
    (raw : RawArg F) (args_ : List (Arg F)) (tok w : Str)
    (hd : arg_default (arg_help tok).2 = ([], w))
    (hk : arg_type (split_string w ' ') = some ArgType.ARG_STRING) :
    process_arg fs raw args_ tok = .ok args_ := by
  obtain ⟨name, hname⟩ := arg_type_some_getLast _ _ hk
  have hproc := process_arg_of_getLast fs raw args_ tok name (by rw [hd]; exact hname)
  rw [hd] at hproc
  simp only at hproc
  rw [hk] at hproc
  exact hproc

/-- C25 (amended): in a token `pre [ h ] rest` whose first `[` comes after `pre`,
the text kept for the default value and the words is `pre` alone: everything
from that `[` to the end of the token is discarded, and the default literal is
the one found in `pre`, whatever `h` and `rest` hold.  When `pre` has no `=`
the default literal is empty: a token of boolean, signed, unsigned or
floating-point kind adds one argument whose values are the zero of the kind,
and a token of string kind adds no argument.  When `pre` has no `]` and `h` has
none, the help is `h`. -/
theorem C25_text_after_bracket_discarded {F : Type} [Zero F] (fs : FromString F)
    (raw : RawArg F) (args_ : List (Arg F)) (pre h rest : Str) (hpre : '[' ∉ pre) :
    (arg_help (pre ++ '[' :: (h ++ ']' :: rest))).2 = pre ∧
    arg_default (arg_help (pre ++ '[' :: (h ++ ']' :: rest))).2 = arg_default pre ∧
    arg_words (pre ++ '[' :: (h ++ ']' :: rest)) = split_string (arg_default pre).2 ' ' ∧
    (']' ∉ pre → ']' ∉ h → (arg_help (pre ++ '[' :: (h ++ ']' :: rest))).1 = h) ∧
    ('=' ∉ pre → ∀ k, arg_type (split_string pre ' ') = some k → k ≠ ArgType.ARG_STRING →
      ∃ name a,
        (split_string pre ' ').getLast? = some name ∧
        process_arg fs raw args_ (pre ++ '[' :: (h ++ ']' :: rest)) = .ok (args_ ++ [a]) ∧
        a.name = name ∧ a.type = k ∧
        a.help = (arg_help (pre ++ '[' :: (h ++ ']' :: rest))).1 ∧
        a.default_val.bool_val = false ∧ a.default_val.int_val = 0 ∧
        a.default_val.float_val = 0 ∧
        a.val.bool_val = false ∧ a.val.int_val = 0 ∧ a.val.float_val = 0) ∧
    ('=' ∉ pre → arg_type (split_string pre ' ') = some ArgType.ARG_STRING →
      process_arg fs raw args_ (pre ++ '[' :: (h ++ ']' :: rest)) = .ok args_) ∧
    Command.Command fs raw "f(int x [h] = 3)".toList
      = .ok { name_ := "f".toList, help_ := [],
              args_ := [Arg.Arg_int raw "x".toList 0 "h".toList],
              auto_create_args_ := false } ∧
    Command.Command fs raw "f(int x=3 [set x=5])".toList
      = .ok { name_ := "f".toList, help_ := [],
              args_ := [Arg.Arg_int raw "x".toList (fs.to_int "3".toList) "set x=5".toList],
              auto_create_args_ := false } := by
  have hclose : ']' ∈ pre ++ '[' :: (h ++ ']' :: rest) := by
    simp only [List.mem_append, List.mem_cons]
    exact Or.inr (Or.inr (Or.inr (Or.inl trivial)))
  have hsnd := arg_help_snd_of_open pre (h ++ ']' :: rest) hpre hclose
  have hdef : '=' ∉ pre →
      arg_default (arg_help (pre ++ '[' :: (h ++ ']' :: rest))).2 = ([], pre) := by
    intro hne
    rw [hsnd]
    exact arg_default_of_not_mem pre hne
  refine ⟨hsnd, by rw [hsnd], ?_, fun h1 h2 => arg_help_fst_of_brackets pre h rest hpre h1 h2,
    ?_, ?_, rfl, rfl⟩
  · unfold arg_words
    rw [hsnd]
  · intro hne k hk hns
    exact process_arg_without_default fs raw args_ _ pre k (hdef hne) hk hns
  · intro hne hk
    exact process_arg_string_without_default fs raw args_ _ pre (hdef hne) hk

/-- Witness of C25 on the token `int x [h] = 3`. -/
theorem C25_text_after_bracket_discarded_witness :
    "int x ".toList ++ '[' :: ("h".toList ++ ']' :: " = 3".toList) = "int x [h] = 3".toList ∧
    (arg_help "int x [h] = 3".toList).2 = "int x ".toList ∧
    (arg_help "int x [h] = 3".toList).1 = "h".toList ∧
    ∃ name a,
      (split_string "int x ".toList ' ').getLast? = some name ∧
      process_arg sample_from_string sample_raw [] "int x [h] = 3".toList = .ok ([] ++ [a]) ∧
      a.name = name ∧ a.type = ArgType.ARG_INT ∧
      a.help = (arg_help "int x [h] = 3".toList).1 ∧
      a.default_val.bool_val = false ∧ a.default_val.int_val = 0 ∧
      a.default_val.float_val = 0 ∧
      a.val.bool_val = false ∧ a.val.int_val = 0 ∧ a.val.float_val = 0 :=
  have h := C25_text_after_bracket_discarded sample_from_string sample_raw []
    "int x ".toList "h".toList " = 3".toList (by decide)
  ⟨by decide, h.1, h.2.2.2.1 (by decide) (by decide),
   h.2.2.2.2.1 (by decide) ArgType.ARG_INT (by decide) (by decide)⟩

/-- Counterexample to C25 as stated: `string s [h] = "abc"` has the form
`<type> <name> [<help>] = <literal>`, its kind is the string kind, and it gets
no argument at all rather than an argument `s` whose default is the empty
string. -/
theorem C25_string_token_dropped :
    "string s ".toList ++ '[' :: ("h".toList ++ ']' :: " = \"abc\"".toList)
      = "string s [h] = \"abc\"".toList ∧
    arg_type (arg_words "string s [h] = \"abc\"".toList) = some ArgType.ARG_STRING ∧
    process_arg sample_from_string sample_raw [] "string s [h] = \"abc\"".toList = .ok [] ∧
    Command.Command sample_from_string sample_raw "f(string s [h] = \"abc\")".toList
      = .ok { name_ := "f".toList, help_ := [], args_ := [], auto_create_args_ := false } ∧
    ¬ ∃ a : Arg Int, a.name = "s".toList ∧
        (Command.Command sample_from_string sample_raw "f(string s [h] = \"abc\")".toList
          = .ok { name_ := "f".toList, help_ := [], args_ := [a],
                  auto_create_args_ := false }) := by
  refine ⟨by decide, by decide, rfl, rfl, ?_⟩
  rintro ⟨a, _, ha⟩
  have h0 : Command.Command sample_from_string sample_raw "f(string s [h] = \"abc\")".toList
      = .ok { name_ := "f".toList, help_ := [], args_ := [], auto_create_args_ := false } := rfl
  rw [h0] at ha
  injection ha with ha
  injection ha with _ _ hargs _
  cases hargs

/-! ## A closing parenthesis before the opening one -/

/-- The wrapped length `p2 - p1 - 1` computed when `p2 < p1` is at least the
number of characters after index `p1`. -/
theorem size_sub_wrapped_covers (p1 p2 len : Nat) (hlt : p2 < p1) (hp : p1 < len)
    (hlen : len ≤ SIZE_T_RANGE) :
    len - (p1 + 1) ≤ size_sub (size_sub p2 p1) 1 := by
  unfold size_sub
  split_ifs <;> omega

theorem substr_to_end (s : Str) (pos n : Nat) (h : s.length - pos ≤ n) :
    substr s pos n = s.drop pos := by
  unfold substr
  apply List.take_of_length_le
  rw [List.length_drop]
  exact h

/-- C26: when the last `)` at bracket depth 0, at `p2`, comes before the last `(`
at bracket depth 0, at `p1`, the scan has found both and the assertion passes;
the name is looked up in the text before `p1` and the argument loop runs on
all the text after `p1` up to the end of the prototype (newlines read as
spaces; the prototype is shorter than `2^64`, as every `std::string` is).
`a) f(int x=3` gives the command `f` with one signed argument `x` whose default
is read from `3`. -/
theorem C26_closing_before_opening {F : Type} [Zero F] (fs : FromString F)
    (raw : RawArg F) (proto : Str) (p1 p2 : Nat) (hparen : '(' ∈ proto)
    (h1 : last_at_depth_zero proto '(' (some p1))
    (h2 : last_at_depth_zero proto ')' (some p2)) (hlt : p2 < p1)
    (hlen : proto.length ≤ SIZE_T_RANGE) :
    (paren_scan (proto.map newline_to_space)).p1 = some p1 ∧
    (paren_scan (proto.map newline_to_space)).p2 = some p2 ∧
    substr (proto.map newline_to_space) (p1 + 1) (size_sub (size_sub p2 p1) 1)
      = (proto.map newline_to_space).drop (p1 + 1) ∧
    Command.Command fs raw proto =
      (match (split_string ((proto.map newline_to_space).take p1) ' ').getLast? with
      | none => .error Failure.index_out_of_range
      | some name =>
        match process_args fs raw
            (split_string ((proto.map newline_to_space).drop (p1 + 1)) ',') [] with
        | .ok args => .ok { name_ := remove_underscores name,
                            help_ := command_help (proto.map newline_to_space) p2,
                            args_ := args, auto_create_args_ := false }
        | .error e => .error e) ∧
    Command.Command fs raw "a) f(int x=3".toList
      = .ok { name_ := "f".toList, help_ := [],
              args_ := [Arg.Arg_int raw "x".toList (fs.to_int "3".toList) []],
              auto_create_args_ := false } := by
  obtain ⟨s1, s2⟩ := paren_scan_of_last proto _ _ h1 h2
  have hp : p1 < (proto.map newline_to_space).length := by
    rw [List.length_map]
    exact at_depth_zero_lt proto '(' p1 h1.1
  have hl : (proto.map newline_to_space).length ≤ SIZE_T_RANGE := by
    rw [List.length_map]
    exact hlen
  have hsub := substr_to_end (proto.map newline_to_space) (p1 + 1) _
    (size_sub_wrapped_covers p1 p2 _ hlt hp hl)
  refine ⟨s1, s2, hsub, ?_, rfl⟩
  rw [Command_of_scan_some fs raw proto p1 p2 hparen s1 s2]
  unfold Command.parse_body
  rw [hsub]
  rfl

/-- Witness of C26 on `a) f(int x=3`, whose last `)` is at 1 and whose last `(`
is at 4. -/
theorem C26_closing_before_opening_witness :
    (paren_scan ("a) f(int x=3".toList.map newline_to_space)).p1 = some 4 ∧
    (paren_scan ("a) f(int x=3".toList.map newline_to_space)).p2 = some 1 ∧
    ("a) f(int x=3".toList.map newline_to_space).take 4 = "a) f".toList ∧
    ("a) f(int x=3".toList.map newline_to_space).drop (4 + 1) = "int x=3".toList ∧
    Command.Command sample_from_string sample_raw "a) f(int x=3".toList
      = .ok { name_ := "f".toList, help_ := [],
              args_ := [Arg.Arg_int sample_raw "x".toList 3 []],
              auto_create_args_ := false } :=
  have h := C26_closing_before_opening sample_from_string sample_raw
    "a) f(int x=3".toList 4 1 (by decide)
    ⟨by decide, fun j hj => Nat.le_of_lt_succ (by
      have := at_depth_zero_lt _ _ j hj
      revert hj
      revert j
      decide)⟩
    ⟨by decide, fun j hj => by
      have := at_depth_zero_lt _ _ j hj
      revert hj
      revert j
      decide⟩
    (by decide) (by decide)
  ⟨h.1, h.2.1, by decide, by decide, h.2.2.2.1.trans rfl⟩

/-! ## The lookup of the command name -/

theorem split_string_getLast_none_iff (s : Str) (sep : Char) :
    (split_string s sep).getLast? = none ↔ ∀ c ∈ s, c = sep := by
  rw [List.getLast?_eq_none_iff]
  unfold split_string
  rw [split_aux_eq_nil]
  constructor
  · exact fun h => h.2
  · exact fun h => ⟨rfl, h⟩

theorem remove_underscores_ne_nil (s : Str) (h : s ≠ []) : remove_underscores s ≠ [] := by
  unfold remove_underscores
  intro hm
  exact h (List.map_eq_nil_iff.1 hm)

theorem split_string_getLast_ne_nil (s : Str) (sep : Char) (w : Str)
    (h : (split_string s sep).getLast? = some w) : w ≠ [] := by
  obtain ⟨_, _, _, _, hne, _, _⟩ := split_aux_getLast sep s [] w (List.not_mem_nil _) h
  exact hne

/-- C27: for a prototype in which the scan has found both parentheses, the
vector of the space-separated tokens of the text before the opening
parenthesis (newlines read as spaces) is empty, and the lookup of its last
element out of range, exactly when that text holds nothing but spaces.  When
the text holds another character the lookup gives a non-empty token, and the
name of every command built is that token with underscores replaced: non-empty
and without underscore.  `(int x)` and `  (int x)` stop on the lookup. -/
theorem C27_name_lookup_range {F : Type} [Zero F] (fs : FromString F)
    (raw : RawArg F) (proto : Str) (p1 p2 : Nat) (hparen : '(' ∈ proto)
    (hp1 : (paren_scan (proto.map newline_to_space)).p1 = some p1)
    (hp2 : (paren_scan (proto.map newline_to_space)).p2 = some p2) :
    ((split_string (substr (proto.map newline_to_space) 0 p1) ' ').getLast? = none ↔
      ∀ ch ∈ (proto.map newline_to_space).take p1, ch = ' ') ∧
    ((∀ ch ∈ (proto.map newline_to_space).take p1, ch = ' ') →
      Command.Command fs raw proto = .error Failure.index_out_of_range) ∧
    ((∃ ch ∈ (proto.map newline_to_space).take p1, ch ≠ ' ') →
      ∃ name, (split_string (substr (proto.map newline_to_space) 0 p1) ' ').getLast?
          = some name ∧ name ≠ [] ∧
        remove_underscores name ≠ [] ∧ '_' ∉ remove_underscores name ∧
        ∀ c, Command.Command fs raw proto = .ok c → c.name_ = remove_underscores name) ∧
    (∀ c, Command.Command fs raw proto = .ok c → c.name_ ≠ [] ∧ '_' ∉ c.name_) ∧
    Command.Command fs raw "(int x)".toList = .error Failure.index_out_of_range ∧
    Command.Command fs raw "  (int x)".toList = .error Failure.index_out_of_range := by
  have hiff : (split_string (substr (proto.map newline_to_space) 0 p1) ' ').getLast? = none ↔
      ∀ ch ∈ (proto.map newline_to_space).take p1, ch = ' ' :=
    split_string_getLast_none_iff _ ' '
  have hbody := Command_of_scan_some fs raw proto p1 p2 hparen hp1 hp2
  have hname : ∀ c, Command.Command fs raw proto = .ok c →
      ∃ name, (split_string (substr (proto.map newline_to_space) 0 p1) ' ').getLast?
        = some name ∧ c.name_ = remove_underscores name := by
    intro c hc
    obtain ⟨q1, q2, name, args, hq1, _, hn, _, he⟩ := Command_ok_inv fs raw proto c hparen hc
    rw [hp1] at hq1
    injection hq1 with hq1
    rw [← hq1] at hn
    exact ⟨name, hn, by rw [he]⟩
  refine ⟨hiff, ?_, ?_, ?_, rfl, rfl⟩
  · intro hall
    rw [hbody]
    unfold Command.parse_body
    rw [hiff.2 hall]
  · rintro ⟨ch, hch, hne⟩
    cases hl : (split_string (substr (proto.map newline_to_space) 0 p1) ' ').getLast? with
    | none => exact absurd (hiff.1 hl ch hch) hne
    | some name =>
      refine ⟨name, rfl, split_string_getLast_ne_nil _ _ _ hl,
        remove_underscores_ne_nil _ (split_string_getLast_ne_nil _ _ _ hl),
        remove_underscores_no_underscore _, ?_⟩
      intro c hc
      obtain ⟨n1, hn1, he⟩ := hname c hc
      rw [hl] at hn1
      injection hn1 with hn1
      rw [he, hn1]
  · intro c hc
    obtain ⟨n1, hn1, he⟩ := hname c hc
    rw [he]
    exact ⟨remove_underscores_ne_nil _ (split_string_getLast_ne_nil _ _ _ hn1),
      remove_underscores_no_underscore _⟩

/-- Witness of C27 on `  (int x)` (nothing but spaces before the parenthesis)
and on `my_cmd(int x)`. -/
theorem C27_name_lookup_range_witness :
    Command.Command sample_from_string sample_raw "  (int x)".toList
      = .error Failure.index_out_of_range ∧
    ∃ name, (split_string (substr ("my_cmd(int x)".toList.map newline_to_space) 0 6)
        ' ').getLast? = some name ∧ name ≠ [] ∧
      remove_underscores name ≠ [] ∧ '_' ∉ remove_underscores name ∧
      ∀ c, Command.Command sample_from_string sample_raw "my_cmd(int x)".toList = .ok c →
        c.name_ = remove_underscores name :=
  ⟨(C27_name_lookup_range sample_from_string sample_raw "  (int x)".toList 2 8
      (by decide) (by decide) (by decide)).2.1 (by decide),
   (C27_name_lookup_range sample_from_string sample_raw "my_cmd(int x)".toList 6 12
      (by decide) (by decide) (by decide)).2.2.1 ⟨'m', by decide, by decide⟩⟩

/-! ## Reading arguments of unsigned and signed kind -/

theorem find_arg_by_index_of_get {F : Type} (c : Command F) (i : Nat) (a : Arg F)
    (hi : c.args_[i]? = some a) : c.find_arg_by_index i = .ok a := by
  unfold Command.find_arg_by_index
  rw [hi]

theorem uint_arg_by_index_of_kind {F : Type} (c : Command F) (i : Nat) (a : Arg F)
    (hi : c.args_[i]? = some a)
    (ht : a.type = ArgType.ARG_INT ∨ a.type = ArgType.ARG_UINT) :
    c.uint_arg_by_index i =
      if a.val.int_val < 0 then
        .ok { result := 0,
              warnings := ["Argument ".toList ++ a.name
                ++ "queried as uint had a negative value".toList] }
      else .ok { result := a.val.int_val.toNat, warnings := [] } := by
  unfold Command.uint_arg_by_index
  rw [find_arg_by_index_of_get c i a hi]
  simp only
  rw [if_pos ht]

theorem int_arg_by_index_of_kind {F : Type} (c : Command F) (i : Nat) (a : Arg F)
    (hi : c.args_[i]? = some a)
    (ht : a.type = ArgType.ARG_INT ∨ a.type = ArgType.ARG_UINT) :
    c.int_arg_by_index i =
      if a.type = ArgType.ARG_UINT ∧ a.val.int_val < 0 then
        .ok { result := 0,
              warnings := ["Argument ".toList ++ a.name
                ++ "Of type UNIT had a negative value".toList] }
      else .ok { result := a.val.int_val, warnings := [] } := by
  unfold Command.int_arg_by_index
  rw [find_arg_by_index_of_get c i a hi]
  simp only
  rw [if_pos ht]

theorem arg_by_index_other_kind {F : Type} (c : Command F) (i : Nat) (a : Arg F)
    (hi : c.args_[i]? = some a)
    (ht : ¬ (a.type = ArgType.ARG_INT ∨ a.type = ArgType.ARG_UINT)) :
    c.int_arg_by_index i = .error Failure.assertion_failed ∧
    c.uint_arg_by_index i = .error Failure.assertion_failed := by
  constructor
  · unfold Command.int_arg_by_index
    rw [find_arg_by_index_of_get c i a hi]
    simp only
    rw [if_neg ht]
  · unfold Command.uint_arg_by_index
    rw [find_arg_by_index_of_get c i a hi]
    simp only
    rw [if_neg ht]

theorem int_of_uint_small (x : Nat) (h : x < 2147483648) : int_of_uint x = (x : Int) := by
  have hm : x % 4294967296 = x := Nat.mod_eq_of_lt (by omega)
  unfold int_of_uint
  rw [hm, if_pos h]

theorem int_of_uint_large (x : Nat) (h1 : 2147483648 ≤ x) (h2 : x < 4294967296) :
    int_of_uint x = (x : Int) - 4294967296 := by
  have hm : x % 4294967296 = x := Nat.mod_eq_of_lt h2
  unfold int_of_uint
  rw [hm, if_neg (by omega)]

/-- C28: an argument of unsigned kind created from the 32-bit value `x` stores
`int(x)`.  For `x < 2^31` the stored value is `x` and both accessors return `x`
without warning.  For `x ≥ 2^31` the stored value is the negative number
`x - 2^32`, and `uint_arg_by_index` and `int_arg_by_index` both return 0 with a
warning, whatever `x` was. -/
theorem C28_unsigned_beyond_int_range {F : Type} [Zero F] (raw : RawArg F)
    (c : Command F) (i : Nat) (name help : Str) (x : Nat) (hx : x < 4294967296)
    (hi : c.args_[i]? = some (Arg.Arg_uint raw name x help)) :
    (x < 2147483648 →
      (Arg.Arg_uint raw name x help).val.int_val = (x : Int) ∧
      c.uint_arg_by_index i = .ok { result := x, warnings := [] } ∧
      c.int_arg_by_index i = .ok { result := (x : Int), warnings := [] }) ∧
    (2147483648 ≤ x →
      (Arg.Arg_uint raw name x help).val.int_val = (x : Int) - 4294967296 ∧
      (Arg.Arg_uint raw name x help).val.int_val < 0 ∧
      c.uint_arg_by_index i = .ok { result := 0, warnings :=
        ["Argument ".toList ++ name ++ "queried as uint had a negative value".toList] } ∧
      c.int_arg_by_index i = .ok { result := 0, warnings :=
        ["Argument ".toList ++ name ++ "Of type UNIT had a negative value".toList] }) := by
  have hty : (Arg.Arg_uint raw name x help).type = ArgType.ARG_INT ∨
      (Arg.Arg_uint raw name x help).type = ArgType.ARG_UINT := Or.inr rfl
  have hu := uint_arg_by_index_of_kind c i _ hi hty
  have hs := int_arg_by_index_of_kind c i _ hi hty
  have hval : (Arg.Arg_uint raw name x help).val.int_val = int_of_uint x := rfl
  have hname : (Arg.Arg_uint raw name x help).name = name := rfl
  rw [hval, hname] at hu hs
  constructor
  · intro hsmall
    have e := int_of_uint_small x hsmall
    rw [e] at hu hs
    have hnn : ¬ ((x : Int) < 0) := by omega
    rw [if_neg hnn] at hu
    rw [if_neg (fun h => hnn h.2)] at hs
    rw [Int.toNat_ofNat] at hu
    exact ⟨hval.trans e, hu, hs⟩
  · intro hlarge
    have e := int_of_uint_large x hlarge hx
    rw [e] at hu hs
    have hneg : (x : Int) - 4294967296 < 0 := by omega
    rw [if_pos hneg] at hu
    rw [if_pos ⟨rfl, hneg⟩] at hs
    exact ⟨hval.trans e, by rw [hval, e]; exact hneg, hu, hs⟩

/-- Witness of C28 on the values 5 and `2^32 - 1`. -/
theorem C28_unsigned_beyond_int_range_witness :
    (({ sample_command with args_ := [Arg.Arg_uint sample_raw "n".toList 5 []] }
      : Command Int).uint_arg_by_index 0 = .ok { result := 5, warnings := [] }) ∧
    (Arg.Arg_uint sample_raw "n".toList 4294967295 [] : Arg Int).val.int_val
      = ((4294967295 : Nat) : Int) - 4294967296 ∧
    (({ sample_command with args_ := [Arg.Arg_uint sample_raw "n".toList 4294967295 []] }
      : Command Int).uint_arg_by_index 0 = .ok { result := 0, warnings :=
        ["Argument ".toList ++ "n".toList
          ++ "queried as uint had a negative value".toList] }) :=
  ⟨((C28_unsigned_beyond_int_range sample_raw
      ({ sample_command with args_ := [Arg.Arg_uint sample_raw "n".toList 5 []] }
        : Command Int) 0 "n".toList [] 5 (by decide) rfl).1 (by decide)).2.1,
   ((C28_unsigned_beyond_int_range sample_raw
      ({ sample_command with args_ := [Arg.Arg_uint sample_raw "n".toList 4294967295 []] }
        : Command Int) 0 "n".toList [] 4294967295 (by decide) rfl).2 (by decide)).1,
   ((C28_unsigned_beyond_int_range sample_raw
      ({ sample_command with args_ := [Arg.Arg_uint sample_raw "n".toList 4294967295 []] }
        : Command Int) 0 "n".toList [] 4294967295 (by decide) rfl).2 (by decide)).2.2.1⟩

/-- C29: for an argument of signed kind at index `i` with stored value `v`,
`int_arg_by_index` returns `v` itself without warning, negative or not;
`uint_arg_by_index` returns `v` when `v ≥ 0` and 0 with a warning when `v < 0`.
For an argument of boolean, floating-point or string kind both accessors stop
on their assertion. -/
theorem C29_signed_read_unchanged {F : Type} (c : Command F) (i : Nat) (a : Arg F)
    (hi : c.args_[i]? = some a) :
    (a.type = ArgType.ARG_INT →
      c.int_arg_by_index i = .ok { result := a.val.int_val, warnings := [] } ∧
      (0 ≤ a.val.int_val →
        c.uint_arg_by_index i = .ok { result := a.val.int_val.toNat, warnings := [] } ∧
        ((a.val.int_val.toNat : Nat) : Int) = a.val.int_val) ∧
      (a.val.int_val < 0 →
        c.uint_arg_by_index i = .ok { result := 0, warnings :=
          ["Argument ".toList ++ a.name
            ++ "queried as uint had a negative value".toList] })) ∧
    (a.type = ArgType.ARG_BOOL ∨ a.type = ArgType.ARG_FLOAT ∨ a.type = ArgType.ARG_STRING →
      c.int_arg_by_index i = .error Failure.assertion_failed ∧
      c.uint_arg_by_index i = .error Failure.assertion_failed) := by
  constructor
  · intro ht
    have hty : a.type = ArgType.ARG_INT ∨ a.type = ArgType.ARG_UINT := Or.inl ht
    have hu := uint_arg_by_index_of_kind c i a hi hty
    have hs := int_arg_by_index_of_kind c i a hi hty
    have hnot : ¬ (a.type = ArgType.ARG_UINT ∧ a.val.int_val < 0) := by
      rintro ⟨h, _⟩
      rw [ht] at h
      cases h
    rw [if_neg hnot] at hs
    refine ⟨hs, ?_, ?_⟩
    · intro hpos
      rw [if_neg (by omega)] at hu
      exact ⟨hu, Int.toNat_of_nonneg hpos⟩
    · intro hneg
      rw [if_pos hneg] at hu
      exact hu
  · intro ht
    apply arg_by_index_other_kind c i a hi
    rintro (h | h) <;> rcases ht with h2 | h2 | h2 <;> rw [h] at h2 <;> cases h2

/-- Witness of C29 on a signed argument holding -5 and on a boolean argument. -/
theorem C29_signed_read_unchanged_witness :
    (({ sample_command with
        args_ := [{ Arg.Arg_int sample_raw "x".toList 3 [] with
                    val := { bool_val := false, int_val := -5, float_val := 0,
                             string_val := CharBuf.zero } }] }
      : Command Int).int_arg_by_index 0 = .ok { result := -5, warnings := [] }) ∧
    (({ sample_command with
        args_ := [{ Arg.Arg_int sample_raw "x".toList 3 [] with
                    val := { bool_val := false, int_val := -5, float_val := 0,
                             string_val := CharBuf.zero } }] }
      : Command Int).uint_arg_by_index 0 = .ok { result := 0, warnings :=
        ["Argument ".toList ++ "x".toList
          ++ "queried as uint had a negative value".toList] }) ∧
    (({ sample_command with args_ := [Arg.Arg_bool sample_raw "b".toList true []] }
      : Command Int).int_arg_by_index 0 = .error Failure.assertion_failed) :=
  have h := (C29_signed_read_unchanged
    ({ sample_command with
        args_ := [{ Arg.Arg_int sample_raw "x".toList 3 [] with
                    val := { bool_val := false, int_val := -5, float_val := 0,
                             string_val := CharBuf.zero } }] } : Command Int) 0 _ rfl).1 rfl
  ⟨h.1, h.2.2 (by decide),
   ((C29_signed_read_unchanged
      ({ sample_command with args_ := [Arg.Arg_bool sample_raw "b".toList true []] }
        : Command Int) 0 _ rfl).2 (Or.inl rfl)).1⟩

/-! ## The status bar -/

/-- C30: from every state of the status bar, `begin` adds one to the counter of
active tasks, sets the progress flag and clears the canceled flag, leaving step
and percent as they were; `end` subtracts one from the counter and resets step
to 0, percent to 0 and the progress flag to false, the same for both values of
its argument, and leaves the canceled flag as it was.  So `begin` followed by
`end` leaves the counter at its original value.  A newly constructed status bar
has counter 0. -/
theorem C30_status_bar_counter {N : Type} [AddGroup N] [One N] (s : StatusBar N)
    (c : Bool) :
    s.begin.nb_active_ = s.nb_active_ + 1 ∧
    s.begin.progress_ = true ∧ s.begin.canceled_ = false ∧
    s.begin.step_ = s.step_ ∧ s.begin.percent_ = s.percent_ ∧
    (s.end_ c).nb_active_ = s.nb_active_ - 1 ∧
    (s.end_ c).step_ = 0 ∧ (s.end_ c).percent_ = 0 ∧ (s.end_ c).progress_ = false ∧
    (s.end_ c).canceled_ = s.canceled_ ∧
    s.end_ true = s.end_ false ∧
    (s.begin.end_ c).nb_active_ = s.nb_active_ ∧
    (StatusBar.StatusBar : StatusBar N).nb_active_ = 0 := by
  refine ⟨rfl, rfl, rfl, rfl, rfl, rfl, rfl, rfl, rfl, rfl, rfl, ?_, rfl⟩
  show s.nb_active_ + 1 - 1 = s.nb_active_
  exact add_sub_cancel_right _ _

/-- Witness of C30 on a status bar with two active tasks, canceled, with an
integer counter. -/
theorem C30_status_bar_counter_witness :
    sample_status_bar.begin.nb_active_ = 3 ∧
    sample_status_bar.begin.canceled_ = false ∧
    (sample_status_bar.end_ true).nb_active_ = 1 ∧
    (sample_status_bar.end_ true).canceled_ = true ∧
    (sample_status_bar.begin.end_ false).nb_active_ = 2 ∧
    (StatusBar.StatusBar : StatusBar Int).nb_active_ = 0 :=
  have h := C30_status_bar_counter sample_status_bar true
  have h2 := C30_status_bar_counter sample_status_bar false
  ⟨h.1.trans rfl, h.2.2.1, h.2.2.2.2.2.1.trans rfl, h.2.2.2.2.2.2.2.2.2.1.trans rfl,
   h2.2.2.2.2.2.2.2.2.2.2.2.1, h.2.2.2.2.2.2.2.2.2.2.2.2⟩

end GEO
